import Mathlib

/-!
# Cluster update plan builder (`lib/update/cluster/builder.go`)

A shallow embedding of the phase builder of the cluster update operation and
of the phase tree it produces, together with the properties of the etcd
upgrade sub-plan and of the migration sub-plan.

Go values are embedded as Lean values: a `*update.Phase` that may be `nil`
is an `Option`, a method that mutates its receiver returns the new receiver,
and a `for ... range` loop is a left fold over the list.
-/

set_option autoImplicit false

namespace storage

/-- Modelled from the spec: `storage.Server` is declared outside the given
sources; the builder and the command line read its host name and its advertise
address, which together stand for the server here. -/
structure Server where
  AdvertiseIP : String := ""
  Hostname : String := ""
deriving DecidableEq, Repr

/-- Modelled from the spec: `loc.Locator` is declared outside the given
sources; a package reference with a repository, a name and a version. -/
structure Locator where
  Repository : String := ""
  Name : String := ""
  Version : String := ""
deriving DecidableEq, Repr

/-- Modelled from the spec: `storage.UpdateServer` is declared outside the
given sources; it embeds the `Server` it updates. -/
structure UpdateServer where
  Server : storage.Server := {}
deriving DecidableEq, Repr

/-- Modelled from the spec: `storage.UpdateOperationData`, the set of servers
being updated together. -/
structure UpdateOperationData where
  Servers : List UpdateServer := []
deriving DecidableEq, Repr

/-- Modelled from the spec: `storage.ElectionChange`, the election-change set
of servers to enable and servers to disable. -/
structure ElectionChange where
  EnableServers : List storage.Server := []
  DisableServers : List storage.Server := []
deriving DecidableEq, Repr

/-- Modelled from the spec: `storage.OperationPhaseData`, the payload of a
phase. An absent pointer field is `none`. -/
structure OperationPhaseData where
  Server : Option storage.Server := none
  ExecServer : Option storage.Server := none
  Package : Option Locator := none
  InstalledPackage : Option Locator := none
  ElectionChange : Option storage.ElectionChange := none
  Update : Option UpdateOperationData := none
  Data : String := ""
  Values : String := ""
deriving DecidableEq, Repr

end storage

namespace update

/-- Modelled from the spec: the executor names are constants declared outside
the given sources; each constructor is one of the identifiers the builder
assigns to the `Executor` field. -/
inductive Executor where
  | updateInit | updateChecks | updateBootstrap | updateBootstrapSELinux
  | preUpdate | coredns | updateApp | migrateLinks | updateLabels | migrateRoles
  | config | openebs | kubeletPermissions | electionStatus
  | drainNode | updateSystem | taintNode | uncordonNode | endpoints | untaintNode
  | cleanupNode
  | updateEtcdBackup | updateEtcdShutdown | updateEtcdMaster | updateEtcdRestore
  | updateEtcdRestart | updateEtcdRestartGravity
deriving DecidableEq, Repr

/-- Modelled from the spec: `update.Phase` is declared outside the given
sources. A phase carries an identifier, an executor (absent on a grouping
phase), a description, a payload, its ordered child phases and the identifiers
of the phases it requires (its dependencies). -/
structure Phase where
  ID : String := ""
  Executor : Option Executor := none
  Description : String := ""
  Data : Option storage.OperationPhaseData := none
  Phases : List Phase
  Requires : List String := []

/-- Modelled from the spec: `Phase.ChildLiteral` is defined outside the given
sources. The full identity of a phase is the dot-joined path from the root, so
the path of the child named `sub` is the parent path, a dot, and `sub`. -/
def Phase.ChildLiteral (p : Phase) (sub : String) : String :=
  p.ID ++ "." ++ sub

/-- Modelled from the spec: `Phase.Child`, the child path of the phase `sub`
under `p`. -/
def Phase.Child (p sub : Phase) : String :=
  p.ChildLiteral sub.ID

/-- Modelled from the spec: `update.RootPhase` is defined outside the given
sources. A top-level phase is addressed by the path that starts at it, which is
its own identifier. -/
def RootPhase (sub : Phase) : Phase := sub

/-- Modelled from the spec: `Phase.AddParallel` is defined outside the given
sources. Parallel children are siblings with no ordering constraint among
themselves: they are appended as they are. -/
def Phase.AddParallel (p : Phase) (sub : List Phase) : Phase :=
  { p with Phases := p.Phases ++ sub }

/-- Modelled from the spec: `Phase.Add` is defined outside the given sources.
It appends the children and records no ordering constraint. -/
def Phase.Add (p : Phase) (sub : List Phase) : Phase :=
  { p with Phases := p.Phases ++ sub }

/-- One step of `AddSequential`: the new child requires the child that is last
at that point, if there is one. -/
def Phase.addSequentialOne (p sub : Phase) : Phase :=
  match p.Phases.getLast? with
  | some prev => { p with Phases := p.Phases ++ [{ sub with Requires := sub.Requires ++ [prev.ID] }] }
  | none => { p with Phases := p.Phases ++ [sub] }

/-- Modelled from the spec: `Phase.AddSequential` is defined outside the given
sources. Sequential children execute in listed order: each one is appended with
a requirement on its sequential predecessor. -/
def Phase.AddSequential (p : Phase) (sub : List Phase) : Phase :=
  sub.foldl Phase.addSequentialOne p

/-- Modelled from the spec: `Phase.AddWithDependency` is defined outside the
given sources. Every child is appended with a requirement on the referenced
phase `dep`. -/
def Phase.AddWithDependency (p : Phase) (dep : String) (sub : List Phase) : Phase :=
  { p with Phases := p.Phases ++ sub.map (fun s => { s with Requires := s.Requires ++ [dep] }) }

/-- The server a phase targets, if its payload names one. -/
def Phase.server (p : Phase) : Option storage.Server :=
  p.Data.bind (fun d => d.Server)

/-- Modelled from the spec: `update.DependencyForServer` is defined outside the
given sources. A dependency names a phase and optionally a specific server: the
reference is to the child of `phase` that targets exactly that server, and to
`phase` itself when no child does. -/
def DependencyForServer (phase : Phase) (server : storage.Server) : String :=
  match phase.Phases.find? (fun sub => decide (sub.server = some server)) with
  | some sub => sub.ID
  | none => phase.ID

end update

namespace constants

/-- Modelled from the spec: `constants.GravityServiceName` is declared outside
the given sources; the builder calls the service it names gravity-site. -/
def GravityServiceName : String := "gravity-site"

end constants

namespace storage

/-- Modelled from the spec: `loc.LegacyPlanetMaster` is declared outside the
given sources; it is the locator of the runtime package of legacy
installations, of which the builder reads the name. The value stands in for
the declared one, and no proof reads it. -/
def LegacyPlanetMaster : Locator :=
  { Repository := "gravitational.io", Name := "planet-master", Version := "0.0.1" }

end storage

namespace trace

/-- Modelled from the spec: the errors of the `trace` library are declared
outside the given sources. The builder reads one thing off an error: whether it
is a not-found error. An error is either of that kind or of any other kind, and
carries its message. -/
inductive Error where
  | notFound (message : String)
  | other (message : String)
deriving DecidableEq, Repr

/-- Modelled from the spec: `trace.IsNotFound` tells whether an error is a
not-found error. -/
def IsNotFound : Error → Bool
  | Error.notFound _ => true
  | Error.other _ => false

/-- Modelled from the spec: `trace.NotFound` makes a not-found error. -/
def NotFound (message : String) : Error := Error.notFound message

/-- Modelled from the spec: `trace.Wrap` adds the place of the call to an
error and keeps its kind and message, which is all that is embedded here. -/
def Wrap (err : Error) : Error := err

end trace

namespace strings

/-- The function `strings.HasPrefix` of the Go library, on the characters of
the strings. -/
def HasPrefix (s pre : String) : Bool := pre.data.isPrefixOf s.data

/-- The function `strings.TrimPrefix` of the Go library: `s` without the
leading `pre` when it starts with it, and `s` itself otherwise. -/
def TrimPrefix (s pre : String) : String :=
  if HasPrefix s pre then String.mk (s.data.drop pre.data.length) else s

end strings

namespace semver

/-- Modelled from the spec: the semantic-version library lives outside the
given sources. The builder parses the text of a version, compares two versions
and prints a version; `Library V` holds these three operations for versions of
type `V`. `NewVersion` fails with a plain message, which is not a not-found
error; `Compare a b` is negative, zero or positive as `a` is lower than, equal
to or higher than `b`. -/
structure Library (V : Type) where
  NewVersion : String → Except String V
  Compare : V → V → Int
  String : V → String

end semver

namespace pack

/-- Modelled from the spec: a label of a package manifest, a name with a
value. -/
structure Label where
  Name : String := ""
  Value : String := ""
deriving DecidableEq, Repr

/-- Modelled from the spec: the manifest of a package, of which the builder
reads the labels. -/
structure Manifest where
  Labels : List Label := []
deriving DecidableEq, Repr

/-- Modelled from the spec: the package service is an external collaborator;
the builder uses it to read the manifest of a package, which may fail. -/
structure PackageService where
  Manifests : storage.Locator → Except trace.Error Manifest :=
    fun l => Except.error (trace.NotFound ("package " ++ l.Name ++ " not found"))

/-- Modelled from the spec: `pack.GetPackageManifest` reads the manifest of the
package `loc` from the package service. -/
def GetPackageManifest (packages : PackageService) (loc : storage.Locator) :
    Except trace.Error Manifest :=
  packages.Manifests loc

end pack

namespace schema

/-- Modelled from the spec: the dependencies of an application manifest, which
the builder looks up by name; the lookup may fail. -/
structure Dependencies where
  ByName : String → Except trace.Error storage.Locator :=
    fun name => Except.error (trace.NotFound ("dependency " ++ name ++ " is not defined"))

/-- Modelled from the spec: the manifest of an application, of which the
builder reads the default runtime package, which may be missing, and the
dependencies. -/
structure Manifest where
  DefaultRuntimePackage : Except trace.Error storage.Locator :=
    Except.error (trace.NotFound "no runtime specified in manifest")
  Dependencies : schema.Dependencies := {}

end schema

namespace cluster

open update

/-- The `%q` verb of `fmt.Sprintf` on a string: the string in double quotes.
Go also escapes quotes and unprintable characters inside it; descriptions are
labels only, and the escapes are left out. -/
def quote (s : String) : String := "\"" ++ s ++ "\""

/-- The result of `strconv.FormatBool`. -/
def FormatBool (b : Bool) : String := if b then "true" else "false"

def etcdPhaseName : String := "etcd"

/-- Modelled from the spec: `storage.OpsCenterLink`, a legacy remote link. -/
structure OpsCenterLink where
  Hostname : String := ""
deriving DecidableEq, Repr

/-- Modelled from the spec: a trusted cluster resource. -/
structure TrustedCluster where
  Name : String := ""
deriving DecidableEq, Repr

/-- Modelled from the spec: a cluster role resource. -/
structure Role where
  Name : String := ""
  Version : String := ""
deriving DecidableEq, Repr

/-- Modelled from the spec: an application with its package locator and its
manifest. -/
structure Application where
  Package : storage.Locator := {}
  Manifest : schema.Manifest := {}

/-- Modelled from the spec: `planConfig` is declared outside the given sources;
these are the fields the phase builder reads. -/
structure planConfig where
  servers : List storage.UpdateServer := []
  updateApp : Application := {}
  installedApp : Application := {}
  links : List OpsCenterLink := []
  trustedClusters : List TrustedCluster := []
  roles : List Role := []
  values : String := ""
  installedRuntime : Application := {}
  updateRuntime : Application := {}
  packageService : pack.PackageService := {}

/-- The builder embeds the plan configuration. -/
structure phaseBuilder where
  planConfig : cluster.planConfig := {}

/-- The `migration` builder. `NeedMigrateRoles` is `libphase.NeedMigrateRoles`,
which lives outside the given sources and is taken as a parameter. The result
is `none` where the Go code returns `nil`. -/
def phaseBuilder.migration (r : phaseBuilder) (NeedMigrateRoles : List Role → Bool)
    (leadMaster : storage.Server) : Option Phase :=
  let root := RootPhase { Phases := [], ID := "migration", Description := "Perform system database migration" }
  let subphases : List Phase := []
  -- do we need to migrate links to trusted clusters?
  let subphases :=
    if r.planConfig.links.length ≠ 0 ∧ r.planConfig.trustedClusters.length = 0 then
      subphases ++ [{ Phases := [], ID := root.ChildLiteral "links",
                      Description := "Migrate remote Gravity Hub links to trusted clusters",
                      Executor := some Executor.migrateLinks }]
    else subphases
  -- Update / reset the labels during upgrade
  let subphases := subphases ++ [{ Phases := [], ID := root.ChildLiteral "labels",
                                   Description := "Update node labels",
                                   Executor := some Executor.updateLabels }]
  -- migrate roles
  let subphases :=
    if NeedMigrateRoles r.planConfig.roles then
      subphases ++ [{ Phases := [], ID := root.ChildLiteral "roles",
                      Description := "Migrate cluster roles to a new format",
                      Executor := some Executor.migrateRoles,
                      Data := some { ExecServer := some leadMaster } }]
    else subphases
  -- no migrations needed
  if subphases.length = 0 then none
  else some (root.AddParallel subphases)

def phaseBuilder.etcdBackupNode (_r : phaseBuilder) (server : storage.Server) (parent : Phase) : Phase :=
  { Phases := [], ID := parent.ChildLiteral server.Hostname,
    Description := "Backup etcd on node " ++ quote server.Hostname,
    Executor := some Executor.updateEtcdBackup,
    Data := some { Server := some server } }

def phaseBuilder.etcdShutdownNode (_r : phaseBuilder) (server : storage.Server) (parent : Phase)
    (isLeader : Bool) : Phase :=
  { Phases := [], ID := parent.ChildLiteral server.Hostname,
    Description := "Shutdown etcd on node " ++ quote server.Hostname,
    Executor := some Executor.updateEtcdShutdown,
    Data := some { Server := some server, Data := FormatBool isLeader } }

def phaseBuilder.etcdUpgrade (_r : phaseBuilder) (server : storage.Server) (parent : Phase) : Phase :=
  { Phases := [], ID := parent.ChildLiteral server.Hostname,
    Description := "Upgrade etcd on node " ++ quote server.Hostname,
    Executor := some Executor.updateEtcdMaster,
    Data := some { Server := some server } }

def phaseBuilder.etcdRestart (_r : phaseBuilder) (server : storage.Server) (parent : Phase) : Phase :=
  { Phases := [], ID := parent.ChildLiteral server.Hostname,
    Description := "Restart etcd on node " ++ quote server.Hostname,
    Executor := some Executor.updateEtcdRestart,
    Data := some { Server := some server } }

/-- The `etcdPlan` builder. The Go function returns a pointer to the root it has
built, which is never `nil`; the result here is that root. -/
def phaseBuilder.etcdPlan (r : phaseBuilder) (leadMaster : storage.Server)
    (otherMasters workers : List storage.Server)
    (currentVersion desiredVersion : String) : Phase :=
  let root := RootPhase { Phases := [], ID := etcdPhaseName,
                          Description := "Upgrade etcd " ++ currentVersion ++ " to " ++ desiredVersion }
  let root := if currentVersion = "" then
      { root with Description := "Upgrade etcd to " ++ desiredVersion }
    else root
  -- Backup etcd on each master server
  let backupEtcd : Phase := { Phases := [], ID := root.ChildLiteral "backup", Description := "Backup etcd data" }
  let backupEtcd := backupEtcd.AddParallel [r.etcdBackupNode leadMaster backupEtcd]
  let backupEtcd := otherMasters.foldl
    (fun backupEtcd server => backupEtcd.AddParallel [r.etcdBackupNode server backupEtcd]) backupEtcd
  let root := root.AddSequential [backupEtcd]
  -- Shutdown etcd
  let shutdownEtcd : Phase := { Phases := [], ID := root.ChildLiteral "shutdown", Description := "Shutdown etcd cluster" }
  let shutdownEtcd := shutdownEtcd.AddWithDependency
    (DependencyForServer backupEtcd leadMaster)
    [r.etcdShutdownNode leadMaster shutdownEtcd true]
  let shutdownEtcd := otherMasters.foldl
    (fun shutdownEtcd server =>
      shutdownEtcd.AddWithDependency (DependencyForServer backupEtcd server)
        [r.etcdShutdownNode server shutdownEtcd false]) shutdownEtcd
  let shutdownEtcd := workers.foldl
    (fun shutdownEtcd server => shutdownEtcd.Add [r.etcdShutdownNode server shutdownEtcd false])
    shutdownEtcd
  let root := root.Add [shutdownEtcd]
  -- Upgrade servers
  let upgradeServers : Phase := { Phases := [], ID := root.ChildLiteral "upgrade", Description := "Upgrade etcd servers" }
  let upgradeServers := upgradeServers.AddWithDependency
    (DependencyForServer shutdownEtcd leadMaster)
    [r.etcdUpgrade leadMaster upgradeServers]
  let upgradeServers := otherMasters.foldl
    (fun upgradeServers server =>
      upgradeServers.AddWithDependency (DependencyForServer shutdownEtcd server)
        [r.etcdUpgrade server upgradeServers]) upgradeServers
  let upgradeServers := workers.foldl
    (fun upgradeServers server =>
      upgradeServers.AddWithDependency (DependencyForServer shutdownEtcd server)
        [r.etcdUpgrade server upgradeServers]) upgradeServers
  let root := root.Add [upgradeServers]
  -- Restore kubernetes data
  let restoreData : Phase := { Phases := [], ID := root.ChildLiteral "restore",
                               Description := "Restore etcd data from backup",
                               Executor := some Executor.updateEtcdRestore,
                               Data := some { Server := some leadMaster } }
  let root := root.AddSequential [restoreData]
  -- restart master servers
  let restartMasters : Phase := { Phases := [], ID := root.ChildLiteral "restart", Description := "Restart etcd servers" }
  let restartMasters := restartMasters.AddWithDependency
    (DependencyForServer restoreData leadMaster)
    [r.etcdRestart leadMaster restartMasters]
  let restartMasters := otherMasters.foldl
    (fun restartMasters server =>
      restartMasters.AddWithDependency (DependencyForServer upgradeServers server)
        [r.etcdRestart server restartMasters]) restartMasters
  let restartMasters := workers.foldl
    (fun restartMasters server =>
      restartMasters.AddWithDependency (DependencyForServer upgradeServers server)
        [r.etcdRestart server restartMasters]) restartMasters
  -- also restart gravity-site, so that elections get unbroken
  let restartMasters := restartMasters.AddParallel
    [{ Phases := [], ID := restartMasters.ChildLiteral constants.GravityServiceName,
       Description := "Restart " ++ constants.GravityServiceName ++ " service",
       Executor := some Executor.updateEtcdRestartGravity,
       Data := some { Server := some leadMaster } }]
  let root := root.Add [restartMasters]
  root

/-- The root of the etcd sub-plan before any stage is added. -/
def etcdRoot : Phase := { Phases := [], ID := etcdPhaseName }

/-- The backup stage as `etcdPlan` leaves it after its backup steps. -/
def backupLoop (r : phaseBuilder) (lead : storage.Server) (others : List storage.Server) : Phase :=
  let hdr : Phase := { Phases := [], ID := etcdRoot.ChildLiteral "backup", Description := "Backup etcd data" }
  others.foldl (fun b s => b.AddParallel [r.etcdBackupNode s b]) (hdr.AddParallel [r.etcdBackupNode lead hdr])

/-- The shutdown stage as `etcdPlan` leaves it, given the finished backup stage. -/
def shutdownLoop (r : phaseBuilder) (lead : storage.Server) (others workers : List storage.Server)
    (backupEtcd : Phase) : Phase :=
  let hdr : Phase := { Phases := [], ID := etcdRoot.ChildLiteral "shutdown", Description := "Shutdown etcd cluster" }
  workers.foldl (fun b s => b.Add [r.etcdShutdownNode s b false])
    (others.foldl (fun b s => b.AddWithDependency (DependencyForServer backupEtcd s) [r.etcdShutdownNode s b false])
      (hdr.AddWithDependency (DependencyForServer backupEtcd lead) [r.etcdShutdownNode lead hdr true]))

/-- The upgrade stage as `etcdPlan` leaves it, given the finished shutdown stage. -/
def upgradeLoop (r : phaseBuilder) (lead : storage.Server) (others workers : List storage.Server)
    (shutdownEtcd : Phase) : Phase :=
  let hdr : Phase := { Phases := [], ID := etcdRoot.ChildLiteral "upgrade", Description := "Upgrade etcd servers" }
  workers.foldl (fun b s => b.AddWithDependency (DependencyForServer shutdownEtcd s) [r.etcdUpgrade s b])
    (others.foldl (fun b s => b.AddWithDependency (DependencyForServer shutdownEtcd s) [r.etcdUpgrade s b])
      (hdr.AddWithDependency (DependencyForServer shutdownEtcd lead) [r.etcdUpgrade lead hdr]))

/-- The restore phase as `etcdPlan` declares it, before it is added to the root. -/
def restoreLeaf (lead : storage.Server) : Phase :=
  { Phases := [], ID := etcdRoot.ChildLiteral "restore", Description := "Restore etcd data from backup",
    Executor := some Executor.updateEtcdRestore, Data := some { Server := some lead } }

/-- The restart stage as `etcdPlan` leaves it, given the restore phase and the
finished upgrade stage. -/
def restartLoop (r : phaseBuilder) (lead : storage.Server) (others workers : List storage.Server)
    (restoreData upgradeServers : Phase) : Phase :=
  let hdr : Phase := { Phases := [], ID := etcdRoot.ChildLiteral "restart", Description := "Restart etcd servers" }
  let b := workers.foldl (fun b s => b.AddWithDependency (DependencyForServer upgradeServers s) [r.etcdRestart s b])
    (others.foldl (fun b s => b.AddWithDependency (DependencyForServer upgradeServers s) [r.etcdRestart s b])
      (hdr.AddWithDependency (DependencyForServer restoreData lead) [r.etcdRestart lead hdr]));
  b.AddParallel
    [{ Phases := [], ID := b.ChildLiteral constants.GravityServiceName,
       Description := "Restart " ++ constants.GravityServiceName ++ " service",
       Executor := some Executor.updateEtcdRestartGravity,
       Data := some { Server := some lead } }]

end cluster

namespace update

mutual
/-- The phases of a tree in pre-order: the phase, then the subtrees of its
children from first to last. -/
def Phase.flatten : Phase → List Phase
  | ⟨id, ex, de, da, ps, rq⟩ => ⟨id, ex, de, da, ps, rq⟩ :: flattenAll ps
/-- The phases of a list of trees, tree after tree. -/
def flattenAll : List Phase → List Phase
  | [] => []
  | p :: ps => p.flatten ++ flattenAll ps
end

end update

namespace cluster
open update

/-- The backup phase of one server, in closed form. -/
def backupChild (s : storage.Server) : Phase :=
  { Phases := [], ID := "etcd.backup." ++ s.Hostname,
    Description := "Backup etcd on node " ++ quote s.Hostname,
    Executor := some Executor.updateEtcdBackup,
    Data := some { Server := some s } }

/-- The shutdown phase of one server, in closed form, with its requirements. -/
def shutdownChild (s : storage.Server) (isLeader : Bool) (req : List String) : Phase :=
  { Phases := [], ID := "etcd.shutdown." ++ s.Hostname,
    Description := "Shutdown etcd on node " ++ quote s.Hostname,
    Executor := some Executor.updateEtcdShutdown,
    Data := some { Server := some s, Data := FormatBool isLeader },
    Requires := req }

/-- The upgrade phase of one server, in closed form, with its requirements. -/
def upgradeChild (s : storage.Server) (req : List String) : Phase :=
  { Phases := [], ID := "etcd.upgrade." ++ s.Hostname,
    Description := "Upgrade etcd on node " ++ quote s.Hostname,
    Executor := some Executor.updateEtcdMaster,
    Data := some { Server := some s },
    Requires := req }

/-- The restart phase of one server, in closed form, with its requirements. -/
def restartChild (s : storage.Server) (req : List String) : Phase :=
  { Phases := [], ID := "etcd.restart." ++ s.Hostname,
    Description := "Restart etcd on node " ++ quote s.Hostname,
    Executor := some Executor.updateEtcdRestart,
    Data := some { Server := some s },
    Requires := req }

/-- The restart phase of the management service, in closed form. -/
def gravityChild (lead : storage.Server) : Phase :=
  { Phases := [], ID := "etcd.restart." ++ constants.GravityServiceName,
    Description := "Restart " ++ constants.GravityServiceName ++ " service",
    Executor := some Executor.updateEtcdRestartGravity,
    Data := some { Server := some lead } }

/-- The backup stage in closed form. -/
def backupStage (lead : storage.Server) (others : List storage.Server) : Phase :=
  { ID := "etcd.backup", Description := "Backup etcd data",
    Phases := (lead :: others).map backupChild }

/-- The shutdown stage with the requirements `x` of the lead master's phase and
`y s` of the phase of the other master `s`. -/
def shutdownStageWith (lead : storage.Server) (others workers : List storage.Server)
    (x : List String) (y : storage.Server → List String) : Phase :=
  { ID := "etcd.shutdown", Description := "Shutdown etcd cluster",
    Phases := shutdownChild lead true x
      :: (others.map (fun s => shutdownChild s false (y s))
          ++ workers.map (fun s => shutdownChild s false [])) }

/-- The upgrade stage with the requirements `y s` of the phase of server `s`. -/
def upgradeStageWith (lead : storage.Server) (others workers : List storage.Server)
    (y : storage.Server → List String) : Phase :=
  { ID := "etcd.upgrade", Description := "Upgrade etcd servers",
    Phases := (lead :: (others ++ workers)).map (fun s => upgradeChild s (y s)) }

/-- The restart stage with the requirements `x` of the lead master's phase and
`y s` of the phase of any other server `s`. -/
def restartStageWith (lead : storage.Server) (others workers : List storage.Server)
    (x : List String) (y : storage.Server → List String) : Phase :=
  { ID := "etcd.restart", Description := "Restart etcd servers",
    Phases := restartChild lead x
      :: ((others ++ workers).map (fun s => restartChild s (y s)) ++ [gravityChild lead]) }

/-- The shutdown stage in closed form. -/
def shutdownStage (lead : storage.Server) (others workers : List storage.Server) : Phase :=
  shutdownStageWith lead others workers ["etcd.backup." ++ lead.Hostname]
    (fun s => ["etcd.backup." ++ s.Hostname])

/-- The upgrade stage in closed form. -/
def upgradeStage (lead : storage.Server) (others workers : List storage.Server) : Phase :=
  upgradeStageWith lead others workers (fun s => ["etcd.shutdown." ++ s.Hostname])

/-- The restore phase in closed form. -/
def restoreStage (lead : storage.Server) : Phase :=
  { ID := "etcd.restore", Description := "Restore etcd data from backup",
    Executor := some Executor.updateEtcdRestore,
    Data := some { Server := some lead },
    Phases := [], Requires := ["etcd.upgrade"] }

/-- The restart stage in closed form. -/
def restartStage (lead : storage.Server) (others workers : List storage.Server) : Phase :=
  restartStageWith lead others workers ["etcd.restore"] (fun s => ["etcd.upgrade." ++ s.Hostname])

/-- The five stages of the etcd sub-plan in closed form: every loop is a map
over its servers and every dependency reference is resolved. -/
def etcdStages (lead : storage.Server) (others workers : List storage.Server) : List Phase :=
  [ backupStage lead others, shutdownStage lead others workers, upgradeStage lead others workers,
    restoreStage lead, restartStage lead others workers ]

end cluster

namespace update

/-- The direct dependency edge of a plan, on identifiers: some phase of the tree
with identifier `a` lists `b` among the phases it requires. -/
def Phase.requires (plan : Phase) (a b : String) : Prop :=
  ∃ p ∈ plan.flatten, p.ID = a ∧ b ∈ p.Requires

/-- The tree edge of a plan, on identifiers: some phase of the tree with
identifier `a` has a child with identifier `b`. -/
def Phase.hasChild (plan : Phase) (a b : String) : Prop :=
  ∃ p ∈ plan.flatten, p.ID = a ∧ ∃ c ∈ p.Phases, c.ID = b

/-- The phase `a` depends on `b`, directly or transitively, through the
requirements recorded in the plan. -/
def Phase.dependsOn (plan : Phase) : String → String → Prop :=
  Relation.TransGen plan.requires

/-- The phase `a` cannot complete before `b` has: `b` is reached from `a` through
requirements and through the step from a grouping phase to one of its children
(a group is complete only when all its children are). -/
def Phase.waitsFor (plan : Phase) : String → String → Prop :=
  Relation.TransGen (fun a b => plan.requires a b ∨ plan.hasChild a b)

/-- The phases at stage `k` of a plan: the `k`-th child of the root together
with its own children. -/
def Phase.stagePhases (plan : Phase) (k : Nat) : List Phase :=
  match plan.Phases.get? k with
  | some st => st :: st.Phases
  | none => []

/-- The `k`-th child of a phase, counted from zero (the empty phase when there
is none). -/
def Phase.stage (plan : Phase) (k : Nat) : Phase :=
  plan.Phases.getD k { Phases := [] }

/-- What the dependency claims read off a phase: the server it targets, its
identifier and the identifiers it requires. -/
def Phase.summary (p : Phase) : Option storage.Server × String × List String :=
  (p.server, p.ID, p.Requires)

end update

namespace cluster

/-- A sample topology: the lead master. -/
def sampleLead : storage.Server := { AdvertiseIP := "10.0.0.1", Hostname := "master-1" }

/-- A sample topology: the other masters. -/
def sampleMasters : List storage.Server :=
  [{ AdvertiseIP := "10.0.0.2", Hostname := "master-2" }, { AdvertiseIP := "10.0.0.3", Hostname := "master-3" }]

/-- A sample topology: the workers. -/
def sampleWorkers : List storage.Server :=
  [{ AdvertiseIP := "10.0.0.4", Hostname := "worker-1" }]

/-- The etcd sub-plan of the sample topology. -/
def samplePlan : update.Phase :=
  ({} : phaseBuilder).etcdPlan sampleLead sampleMasters sampleWorkers "3.3.11" "3.4.9"

end cluster

namespace cluster

/-- A rank for the identifiers of the etcd sub-plan, read off the characters of
the identifier: the root ranks highest, every stage ranks above its own children
and above everything in the stages before it. -/
def etcdRankChars (cs : List Char) : Nat :=
  if cs = "etcd".data then 10
  else if cs = "etcd.restart".data then 9
  else if "etcd.restart.".data <+: cs then 8
  else if cs = "etcd.restore".data then 7
  else if cs = "etcd.upgrade".data then 5
  else if "etcd.upgrade.".data <+: cs then 4
  else if cs = "etcd.shutdown".data then 3
  else if "etcd.shutdown.".data <+: cs then 2
  else if cs = "etcd.backup".data then 1
  else 0

/-- The rank of an identifier of the etcd sub-plan. -/
def etcdRank (id : String) : Nat := etcdRankChars id.data

end cluster

namespace cluster

open update

/-- Expands the first `%q` verb of a format with the (already quoted) argument. -/
def expandVerb : List Char → List Char → List Char
  | [], _ => []
  | '%' :: 'q' :: rest, arg => arg ++ rest
  | c :: rest, arg => c :: expandVerb rest arg

/-- The result of `fmt.Sprintf(format, arg)` for a format that carries one `%q`
verb and a string argument, as the builder calls it. -/
def Sprintf (format arg : String) : String :=
  String.mk (expandVerb format.data (quote arg).data)

/-- The `serversToStorage` helper: the servers of the update servers, in order. -/
def serversToStorage (updates : List storage.UpdateServer) : List storage.Server :=
  updates.foldl (fun result update => result ++ [update.Server]) []

/-- The variable `disable`, an alias of `serversToStorage`. -/
def disable : List storage.UpdateServer → List storage.Server := serversToStorage

/-- The variable `enable`, an alias of `serversToStorage`. -/
def enable : List storage.UpdateServer → List storage.Server := serversToStorage

/-- The `setLeaderElection` phase: `fmt.Sprintf("%s-%s", key, server.Hostname)`
is the key, a dash and the host name. -/
def setLeaderElection (enable disable : List storage.Server) (server : storage.UpdateServer)
    (key msg : String) : Phase :=
  { Phases := [], ID := key ++ "-" ++ server.Server.Hostname,
    Executor := some Executor.electionStatus,
    Description := Sprintf msg server.Server.Hostname,
    Data := some { Server := some server.Server,
                   ElectionChange := some { EnableServers := enable, DisableServers := disable } } }

/-- The `node` builder: a grouping phase named after the server under `parent`. -/
def phaseBuilder.node (_r : phaseBuilder) (server : storage.Server) (parent : Phase)
    (format : String) : Phase :=
  { Phases := [], ID := parent.ChildLiteral server.Hostname,
    Description := Sprintf format server.Hostname }

/-- The `commonNode` builder: the operations any node needs to upgrade its system
software. -/
def phaseBuilder.commonNode (_r : phaseBuilder) (server leadMaster : storage.UpdateServer)
    (supportsTaints : Bool) (waitsForEndpoints : Bool) : List Phase :=
  let phases : List Phase :=
    [ { Phases := [], ID := "drain",
        Executor := some Executor.drainNode,
        Description := "Drain node " ++ quote server.Server.Hostname,
        Data := some { Server := some server.Server, ExecServer := some leadMaster.Server } },
      { Phases := [], ID := "system-upgrade",
        Executor := some Executor.updateSystem,
        Description := "Update system software on node " ++ quote server.Server.Hostname,
        Data := some { ExecServer := some server.Server,
                       Update := some { Servers := [server] } } } ]
  let phases :=
    if supportsTaints then
      phases ++ [{ Phases := [], ID := "taint",
                   Executor := some Executor.taintNode,
                   Description := "Taint node " ++ quote server.Server.Hostname,
                   Data := some { Server := some server.Server,
                                  ExecServer := some leadMaster.Server } }]
    else phases
  let phases := phases ++
    [{ Phases := [], ID := "uncordon",
       Executor := some Executor.uncordonNode,
       Description := "Uncordon node " ++ quote server.Server.Hostname,
       Data := some { Server := some server.Server, ExecServer := some leadMaster.Server } }]
  let phases :=
    if waitsForEndpoints then
      phases ++ [{ Phases := [], ID := "endpoints",
                   Executor := some Executor.endpoints,
                   Description := "Wait for DNS/cluster endpoints on " ++ quote server.Server.Hostname,
                   Data := some { Server := some server.Server,
                                  ExecServer := some leadMaster.Server } }]
    else phases
  let phases :=
    if supportsTaints then
      phases ++ [{ Phases := [], ID := "untaint",
                   Executor := some Executor.untaintNode,
                   Description := "Remove taint from node " ++ quote server.Server.Hostname,
                   Data := some { Server := some server.Server,
                                  ExecServer := some leadMaster.Server } }]
    else phases
  phases

/-- The `masters` builder. `leadMaster` is the master that is upgraded first,
`otherMasters` lists the rest of the masters (possibly none). -/
def phaseBuilder.masters (r : phaseBuilder) (leadMaster : storage.UpdateServer)
    (otherMasters : List storage.UpdateServer) (supportsTaints : Bool) : Phase :=
  let root := RootPhase { Phases := [], ID := "masters", Description := "Update master nodes" }
  let node := r.node leadMaster.Server root "Update system software on master node %q"
  let node :=
    if otherMasters.length ≠ 0 then
      let node := node.AddSequential
        [{ Phases := [], ID := "kubelet-permissions",
           Executor := some Executor.kubeletPermissions,
           Description := "Add permissions to kubelet on " ++ quote leadMaster.Server.Hostname,
           Data := some { Server := some leadMaster.Server } }]
      -- election - stepdown first node we will upgrade
      node.AddSequential
        [setLeaderElection (enable []) (disable [leadMaster]) leadMaster "stepdown"
          "Step down %q as Kubernetes leader"]
    else node
  let node := node.AddSequential
    (r.commonNode leadMaster leadMaster supportsTaints (decide (otherMasters.length = 0)))
  let root := root.AddSequential [node]
  let root :=
    if otherMasters.length ≠ 0 then
      -- election - force election to first upgraded node
      root.AddSequential
        [setLeaderElection (enable [leadMaster]) (disable otherMasters) leadMaster "elect"
          "Make node %q Kubernetes leader"]
    else root
  let root := otherMasters.foldl
    (fun root server =>
      let node := r.node server.Server root "Update system software on master node %q"
      let node := node.AddSequential (r.commonNode server leadMaster supportsTaints true)
      -- election - enable election on the upgraded node
      let node := node.AddSequential
        [setLeaderElection (enable [server]) (disable []) server "enable"
          "Enable leader election on node %q"]
      root.AddSequential [node]) root
  root

/-- The `nodes` builder: one branch per regular node. -/
def phaseBuilder.nodes (r : phaseBuilder) (leadMaster : storage.UpdateServer)
    (nodes : List storage.UpdateServer) (supportsTaints : Bool) : Phase :=
  let root := RootPhase { Phases := [], ID := "nodes", Description := "Update regular nodes" }
  let root := nodes.foldl
    (fun root server =>
      let node := r.node server.Server root "Update system software on node %q"
      let node := node.AddSequential (r.commonNode server leadMaster supportsTaints true)
      root.AddParallel [node]) root
  root

/-- A sample topology: the lead master as an update server. -/
def sampleLeadU : storage.UpdateServer := { Server := sampleLead }

/-- A sample topology: the other masters as update servers. -/
def sampleMastersU : List storage.UpdateServer := sampleMasters.map (fun s => { Server := s })

/-- A sample topology: the workers as update servers. -/
def sampleWorkersU : List storage.UpdateServer := sampleWorkers.map (fun s => { Server := s })

end cluster

namespace update

/-- The phases `sub` as a sequential chain, in closed form: every phase gets a
requirement on the identifier of the phase before it, the first one on `prev`
when there is one. -/
def chain : Option String → List Phase → List Phase
  | _, [] => []
  | none, s :: rest => s :: chain (some s.ID) rest
  | some id, s :: rest => { s with Requires := s.Requires ++ [id] } :: chain (some s.ID) rest

end update

namespace cluster

open update

/-- The root of the `masters` phase before any branch is added. -/
def mastersRoot : Phase :=
  { Phases := [], ID := "masters", Description := "Update master nodes" }

/-- The kubelet permissions phase of the lead master's branch. -/
def kubeletPermissionsPhase (leadMaster : storage.UpdateServer) : Phase :=
  { Phases := [], ID := "kubelet-permissions",
    Executor := some Executor.kubeletPermissions,
    Description := "Add permissions to kubelet on " ++ quote leadMaster.Server.Hostname,
    Data := some { Server := some leadMaster.Server } }

/-- The phases `masters` puts in the lead master's branch, before they are
chained. -/
def leadBranchSubs (r : phaseBuilder) (leadMaster : storage.UpdateServer)
    (otherMasters : List storage.UpdateServer) (supportsTaints : Bool) : List Phase :=
  (if otherMasters.length ≠ 0 then
      [kubeletPermissionsPhase leadMaster,
       setLeaderElection (enable []) (disable [leadMaster]) leadMaster "stepdown"
         "Step down %q as Kubernetes leader"]
    else []) ++
  r.commonNode leadMaster leadMaster supportsTaints (decide (otherMasters.length = 0))

/-- The lead master's branch as `masters` builds it, before it is added to the
root. -/
def leadBranch (r : phaseBuilder) (leadMaster : storage.UpdateServer)
    (otherMasters : List storage.UpdateServer) (supportsTaints : Bool) : Phase :=
  (r.node leadMaster.Server mastersRoot "Update system software on master node %q").AddSequential
    (leadBranchSubs r leadMaster otherMasters supportsTaints)

/-- The phase that forces the election to the lead master. -/
def electPhase (leadMaster : storage.UpdateServer) (otherMasters : List storage.UpdateServer) :
    Phase :=
  setLeaderElection (enable [leadMaster]) (disable otherMasters) leadMaster "elect"
    "Make node %q Kubernetes leader"

/-- The branch of another master as the loop of `masters` builds it under
`root`, before it is added to the root. -/
def otherBranch (r : phaseBuilder) (leadMaster : storage.UpdateServer) (supportsTaints : Bool)
    (root : Phase) (server : storage.UpdateServer) : Phase :=
  ((r.node server.Server root "Update system software on master node %q").AddSequential
      (r.commonNode server leadMaster supportsTaints true)).AddSequential
    [setLeaderElection (enable [server]) (disable []) server "enable"
      "Enable leader election on node %q"]

/-- The top-level phases of `masters` in the order they are added, before they
are chained. -/
def mastersTop (r : phaseBuilder) (leadMaster : storage.UpdateServer)
    (otherMasters : List storage.UpdateServer) (supportsTaints : Bool) : List Phase :=
  leadBranch r leadMaster otherMasters supportsTaints ::
    ((if otherMasters.length ≠ 0 then [electPhase leadMaster otherMasters] else []) ++
      otherMasters.map (otherBranch r leadMaster supportsTaints mastersRoot))

/-- The root of the `nodes` phase before any branch is added. -/
def nodesRoot : Phase :=
  { Phases := [], ID := "nodes", Description := "Update regular nodes" }

/-- The branch of a regular node as the loop of `nodes` builds it under `root`. -/
def nodeBranch (r : phaseBuilder) (leadMaster : storage.UpdateServer) (supportsTaints : Bool)
    (root : Phase) (server : storage.UpdateServer) : Phase :=
  (r.node server.Server root "Update system software on node %q").AddSequential
    (r.commonNode server leadMaster supportsTaints true)

end cluster

namespace cluster

open update

/-- The sub-phases `migration` collects, in closed form. -/
def migrationSubphases (r : phaseBuilder) (NeedMigrateRoles : List Role → Bool)
    (leadMaster : storage.Server) : List Phase :=
  (if r.planConfig.links.length ≠ 0 ∧ r.planConfig.trustedClusters.length = 0 then
    [{ Phases := [], ID := "migration" ++ "." ++ "links",
       Description := "Migrate remote Gravity Hub links to trusted clusters",
       Executor := some Executor.migrateLinks }]
   else []) ++
  [{ Phases := [], ID := "migration" ++ "." ++ "labels",
     Description := "Update node labels",
     Executor := some Executor.updateLabels }] ++
  (if NeedMigrateRoles r.planConfig.roles = true then
    [{ Phases := [], ID := "migration" ++ "." ++ "roles",
       Description := "Migrate cluster roles to a new format",
       Executor := some Executor.migrateRoles,
       Data := some { ExecServer := some leadMaster } }]
   else [])

end cluster

namespace constants

/-- Modelled from the spec: `constants.BootstrapConfigPackage` is declared
outside the given sources; it names the package that provides the baseline
(access control) configuration. The value stands in for the declared one, and
no proof reads it. -/
def BootstrapConfigPackage : String := "rbac-app"

end constants

namespace cluster
open update

/-- The `bootstrapSELinux` builder: one parallel child per server of the plan
configuration. -/
def phaseBuilder.bootstrapSELinux (r : phaseBuilder) : Phase :=
  let root := RootPhase
    { Phases := [], ID := "selinux-bootstrap",
      Description := "Configure SELinux on nodes" }
  r.planConfig.servers.foldl (fun root server =>
    root.AddParallel
      [{ Phases := [], ID := root.ChildLiteral server.Server.Hostname,
         Executor := some Executor.updateBootstrapSELinux,
         Description := "Configure SELinux on node " ++ quote server.Server.Hostname,
         Data := some { ExecServer := some server.Server,
                        Package := some r.planConfig.updateApp.Package,
                        InstalledPackage := some r.planConfig.installedApp.Package,
                        Update := some { Servers := [server] } } }]) root

/-- The `bootstrap` builder: one parallel child per server of the plan
configuration. -/
def phaseBuilder.bootstrap (r : phaseBuilder) : Phase :=
  let root := RootPhase
    { Phases := [], ID := "bootstrap",
      Description := "Bootstrap update operation on nodes" }
  r.planConfig.servers.foldl (fun root server =>
    root.AddParallel
      [{ Phases := [], ID := root.ChildLiteral server.Server.Hostname,
         Executor := some Executor.updateBootstrap,
         Description := "Bootstrap node " ++ quote server.Server.Hostname,
         Data := some { ExecServer := some server.Server,
                        Package := some r.planConfig.updateApp.Package,
                        InstalledPackage := some r.planConfig.installedApp.Package,
                        Update := some { Servers := [server] } } }]) root

/-- The `app` builder: one parallel child per package update. The values of
the operation, `r.operation.Vars().Values`, are the `values` of the plan
configuration. -/
def phaseBuilder.app (r : phaseBuilder) (updates : List storage.Locator) : Phase :=
  let root := RootPhase
    { Phases := [], ID := "app",
      Description := "Update installed application" }
  updates.foldl (fun root loc =>
    root.AddParallel
      [{ Phases := [], ID := loc.Name,
         Executor := some Executor.updateApp,
         Description := "Update application " ++ quote loc.Name ++ " to " ++ loc.Version,
         Data := some { Package := some loc,
                        Values := r.planConfig.values } }]) root

/-- The comparison `runtime` sorts with: a package comes before another one
when it is the bootstrap configuration package, whatever the other one is. -/
def runtimeLess (a _b : storage.Locator) : Bool :=
  a.Name == constants.BootstrapConfigPackage

/-- The `runtime` builder: the updates are sorted, then one sequential child is
added per update. `sortSlice` is `sort.Slice` of the Go library, which lives
outside the given sources and is taken as a parameter: it is given the
comparison on elements and the list, and returns the list as it stands after
sorting. -/
def phaseBuilder.runtime (_r : phaseBuilder)
    (sortSlice : (storage.Locator → storage.Locator → Bool) → List storage.Locator →
      List storage.Locator)
    (updates : List storage.Locator) : Phase :=
  let root := RootPhase
    { Phases := [], ID := "runtime",
      Description := "Update application runtime" }
  let updates := sortSlice runtimeLess updates
  updates.foldl (fun root loc =>
    let phase : Phase :=
      { Phases := [], ID := loc.Name,
        Executor := some Executor.updateApp,
        Description := "Update system application " ++ quote loc.Name ++ " to " ++ loc.Version,
        Data := some { Package := some loc } }
    let phase := { phase with ID := root.Child phase }
    root.AddSequential [phase]) root

/-- One pass of the insertion sort of the Go library: the element `x` is moved
towards the front of the sorted part, kept here back to front, while it is less
than the element before it. -/
def insertBack (less : storage.Locator → storage.Locator → Bool) (x : storage.Locator) :
    List storage.Locator → List storage.Locator
  | [] => [x]
  | y :: sorted => if less x y then y :: insertBack less x sorted else x :: y :: sorted

/-- The insertion sort that `sort.Slice` of the Go library runs on a short
slice: the elements are inserted one by one, from the front, into the sorted
part before them. It is a sample of the `sortSlice` parameter of `runtime`. -/
def insertionSort (less : storage.Locator → storage.Locator → Bool)
    (data : List storage.Locator) : List storage.Locator :=
  (data.foldl (fun sorted x => insertBack less x sorted) []).reverse

/-- The closed form of the child that `runtime` adds for the package `loc`,
with its requirements. -/
def runtimeChild (loc : storage.Locator) (req : List String) : Phase :=
  { Phases := [], ID := "runtime." ++ loc.Name,
    Executor := some Executor.updateApp,
    Description := "Update system application " ++ quote loc.Name ++ " to " ++ loc.Version,
    Data := some { Package := some loc },
    Requires := req }

/-- The package a phase carries, if its payload names one. -/
def packageOf (p : Phase) : Option storage.Locator :=
  p.Data.bind (fun d => d.Package)

/-- A sample list of runtime updates with the bootstrap configuration package
in the middle. -/
def sampleUpdates : List storage.Locator :=
  [{ Repository := "gravitational.io", Name := "dns-app", Version := "0.4.1" },
   { Repository := "gravitational.io", Name := constants.BootstrapConfigPackage, Version := "7.0.0" },
   { Repository := "gravitational.io", Name := "site", Version := "7.0.0" }]

/-- A sample plan configuration with four servers and the two application
packages. -/
def sampleConfig : planConfig :=
  { servers := sampleLeadU :: (sampleMastersU ++ sampleWorkersU),
    updateApp := { Package := { Repository := "gravitational.io", Name := "telekube", Version := "7.0.0" } },
    installedApp := { Package := { Repository := "gravitational.io", Name := "telekube", Version := "6.1.0" } },
    values := "replicas: 3" }

end cluster

namespace storage

/-- Modelled from the spec: `Locator.SemVer` parses the version of the locator
as a semantic version. -/
def Locator.SemVer {V : Type} (sv : semver.Library V) (l : Locator) : Except String V :=
  sv.NewVersion l.Version

/-- Modelled from the spec: the text of a locator, as it is printed in
messages. -/
def Locator.String (l : Locator) : String :=
  l.Repository ++ "/" ++ l.Name ++ ":" ++ l.Version

end storage

namespace cluster
open update

/-- The loop of `getEtcdVersion` over the labels of the manifest: the first
label named `searchLabel` decides the result, and a not-found error is returned
when the loop ends without one. -/
def getEtcdVersionLabels {V : Type} (sv : semver.Library V) (searchLabel : String)
    (locator : storage.Locator) : List pack.Label → Except trace.Error V
  | [] =>
    Except.error (trace.NotFound
      ("package manifest for " ++ quote locator.String ++ " does not have label " ++ searchLabel))
  | label :: rest =>
    if label.Name = searchLabel then
      let versionS := strings.TrimPrefix label.Value "v"
      match sv.NewVersion versionS with
      | Except.error err => Except.error (trace.Wrap (trace.Error.other err))
      | Except.ok version => Except.ok version
    else getEtcdVersionLabels sv searchLabel locator rest

/-- The function `getEtcdVersion`: the version that the label `searchLabel` of
the manifest of the package `locator` holds. The Go function returns a version
or an error, never both. -/
def getEtcdVersion {V : Type} (sv : semver.Library V) (searchLabel : String)
    (locator : storage.Locator) (packageService : pack.PackageService) : Except trace.Error V :=
  match pack.GetPackageManifest packageService locator with
  | Except.error err => Except.error (trace.Wrap err)
  | Except.ok manifest => getEtcdVersionLabels sv searchLabel locator manifest.Labels

/-- The function `shouldUpdateEtcd`. The result is the four values the Go
function returns: `updateEtcd`, `installedEtcdVersion`, `updateEtcdVersion`
and the error, `none` for `nil`. A step that returns early in the Go function
gives its result as the error side of an `Except`. -/
def shouldUpdateEtcd {V : Type} (sv : semver.Library V) (p : planConfig) :
    Bool × String × String × Option trace.Error :=
  let runtimePackage : Except (Bool × String × String × Option trace.Error) storage.Locator :=
    match p.installedRuntime.Manifest.DefaultRuntimePackage with
    | Except.ok runtimePackage => Except.ok runtimePackage
    | Except.error err =>
      if !trace.IsNotFound err then
        Except.error (false, "", "", some (trace.Wrap err))
      else
        match p.installedRuntime.Manifest.Dependencies.ByName storage.LegacyPlanetMaster.Name with
        | Except.error _ =>
          Except.error (false, "", "", some (trace.NotFound "runtime package not found"))
        | Except.ok runtimePackage => Except.ok runtimePackage
  match runtimePackage with
  | Except.error result => result
  | Except.ok runtimePackage =>
    let installed : Except (Bool × String × String × Option trace.Error) (Option V × Bool) :=
      match getEtcdVersion sv "version-etcd" runtimePackage p.packageService with
      | Except.ok installedVersion => Except.ok (some installedVersion, false)
      | Except.error err =>
        if !trace.IsNotFound err then
          Except.error (false, "", "", some (trace.Wrap err))
        else
          Except.ok (none, true)
    match installed with
    | Except.error result => result
    | Except.ok (installedVersion, updateEtcd) =>
      match p.updateRuntime.Manifest.DefaultRuntimePackage with
      | Except.error err => (false, "", "", some (trace.Wrap err))
      | Except.ok runtimePackage =>
        match getEtcdVersion sv "version-etcd" runtimePackage p.packageService with
        | Except.error err => (false, "", "", some (trace.Wrap err))
        | Except.ok updateVersion =>
          let updateEtcd :=
            match installedVersion with
            | none => true
            | some installedVersion =>
              if sv.Compare installedVersion updateVersion < 0 then true else updateEtcd
          let installedEtcdVersion :=
            match installedVersion with
            | some installedVersion => sv.String installedVersion
            | none => ""
          let updateEtcdVersion := sv.String updateVersion
          (updateEtcd, installedEtcdVersion, updateEtcdVersion, none)

/-- The installed runtime package as `shouldUpdateEtcd` resolves it: the
default runtime package of the installed runtime application, or the legacy
runtime package among its dependencies when the default one is not found. -/
def installedRuntimePackage (p : planConfig) (runtimePackage : storage.Locator) : Prop :=
  p.installedRuntime.Manifest.DefaultRuntimePackage = Except.ok runtimePackage ∨
  ∃ err, p.installedRuntime.Manifest.DefaultRuntimePackage = Except.error err ∧
    trace.IsNotFound err = true ∧
    p.installedRuntime.Manifest.Dependencies.ByName storage.LegacyPlanetMaster.Name =
      Except.ok runtimePackage

/-- The function `supportsTaints`. `BaseTaintsVersion` is
`defaults.BaseTaintsVersion`, which is declared outside the given sources and
is taken as a parameter. The result is the pair the Go function returns, with
`none` for a `nil` error. -/
def supportsTaints {V : Type} (sv : semver.Library V) (BaseTaintsVersion : V)
    (gravityPackage : storage.Locator) : Bool × Option trace.Error :=
  match gravityPackage.SemVer sv with
  | Except.error err => (false, some (trace.Wrap (trace.Error.other err)))
  | Except.ok ver => (decide (sv.Compare BaseTaintsVersion ver ≤ 0), none)

end cluster

namespace semver

/-- The value of a decimal digit. -/
def digit (c : Char) : Option Nat :=
  if c.isDigit then some (c.toNat - 48) else none

/-- The number that a non-empty list of decimal digits spells. -/
def number : List Char → Option Nat
  | [] => none
  | c :: cs => (c :: cs).foldl (fun acc d =>
      match acc, digit d with
      | some n, some k => some (10 * n + k)
      | _, _ => none) (some 0)

/-- The parts of a text between its dots. -/
def parts : List Char → List (List Char)
  | [] => [[]]
  | c :: cs =>
    if c = '.' then [] :: parts cs
    else
      match parts cs with
      | [] => [[c]]
      | w :: ws => (c :: w) :: ws

/-- A sample version: the major, minor and patch numbers. -/
structure Triple where
  Major : Nat
  Minor : Nat
  Patch : Nat
deriving DecidableEq, Repr

/-- The comparison of two sample versions: by the major, then the minor, then
the patch number. -/
def Triple.compare (a b : Triple) : Int :=
  if a.Major < b.Major then -1
  else if b.Major < a.Major then 1
  else if a.Minor < b.Minor then -1
  else if b.Minor < a.Minor then 1
  else if a.Patch < b.Patch then -1
  else if b.Patch < a.Patch then 1
  else 0

/-- A sample of the semantic-version library: versions of three dotted numbers
without pre-release or build parts, in lexicographic order. -/
def sample : Library Triple where
  NewVersion := fun s =>
    match (parts s.data).map number with
    | [some major, some minor, some patch] =>
      Except.ok { Major := major, Minor := minor, Patch := patch }
    | _ => Except.error (s ++ " is not in dotted-tri format")
  Compare := Triple.compare
  String := fun v => toString v.Major ++ "." ++ toString v.Minor ++ "." ++ toString v.Patch

end semver

namespace cluster

/-- A sample package service: the runtime package of version 5.0.0 carries the
label `version-etcd` with the value `v3.3.11`, the one of version 7.0.0 the
value `v3.4.9`, and the one of version 4.0.0 has no such label. -/
def samplePackages : pack.PackageService :=
  { Manifests := fun l =>
      if l.Name = "planet" ∧ l.Version = "5.0.0" then
        Except.ok { Labels := [{ Name := "purpose", Value := "runtime" },
                               { Name := "version-etcd", Value := "v3.3.11" },
                               { Name := "version-etcd", Value := "broken" }] }
      else if l.Name = "planet" ∧ l.Version = "7.0.0" then
        Except.ok { Labels := [{ Name := "version-etcd", Value := "v3.4.9" }] }
      else if l.Name = "planet" ∧ l.Version = "4.0.0" then
        Except.ok { Labels := [{ Name := "purpose", Value := "runtime" }] }
      else Except.error (trace.NotFound ("package " ++ l.Name ++ " not found")) }

/-- A sample runtime application whose default runtime package is the package
`planet` of the given version. -/
def sampleRuntime (version : String) : Application :=
  { Package := { Repository := "gravitational.io", Name := "kubernetes", Version := version },
    Manifest :=
      { DefaultRuntimePackage :=
          Except.ok { Repository := "gravitational.io", Name := "planet", Version := version } } }

/-- A sample plan configuration: an update of the runtime from 5.0.0 to 7.0.0. -/
def sampleEtcdConfig : planConfig :=
  { installedRuntime := sampleRuntime "5.0.0", updateRuntime := sampleRuntime "7.0.0",
    packageService := samplePackages }

/-- A sample plan configuration: an update of a runtime without an etcd version
label, 4.0.0, to 7.0.0. -/
def sampleLegacyConfig : planConfig :=
  { installedRuntime := sampleRuntime "4.0.0", updateRuntime := sampleRuntime "7.0.0",
    packageService := samplePackages }

end cluster

namespace constants

/-- Modelled from the spec: `constants.ClusterConfigurationMap` is declared
outside the given sources; it names the cluster configuration resource. The
value stands in for the declared one, and no proof reads it. -/
def ClusterConfigurationMap : String := "cluster-configuration"

end constants

namespace defaults

/-- Modelled from the spec: `defaults.KubeSystemNamespace` is declared outside
the given sources. The value stands in for the declared one, and no proof reads
it. -/
def KubeSystemNamespace : String := "kube-system"

end defaults

/-! ## Cluster configuration (`lib/storage/clusterconfig/clusterconfig.go`)

A Go map is embedded as an optional list of entries: `none` is the `nil` map,
which reads as an empty map and fails on a write, and `some entries` is a map
with these entries, in the order in which a `range` loop visits them. A Go
slice is embedded as a list, a `nil` slice as the empty list. A function that
can fail at run time returns `Except`, with the message of the Go runtime as
the error. -/

namespace clusterconfig

/-- The type `Kubelet`: the configuration of the kubelet. The raw JSON message
`Config` is embedded as its text. -/
structure Kubelet where
  ExtraArgs : List String := []
  Config : String := ""
deriving DecidableEq, Repr

/-- The type `ComponentConfigs`. -/
structure ComponentConfigs where
  Kubelet : Option clusterconfig.Kubelet := none
deriving DecidableEq, Repr

/-- The type `Global`: the global configuration. -/
structure Global where
  CloudProvider : String := ""
  CloudConfig : String := ""
  ServiceCIDR : String := ""
  ServiceNodePortRange : String := ""
  PodCIDR : String := ""
  ProxyPortRange : String := ""
  FeatureGates : Option (List (String × Bool)) := none
deriving DecidableEq, Repr

/-- The type `Spec`; the component configurations are an embedded struct. -/
structure Spec where
  ComponentConfigs : clusterconfig.ComponentConfigs := {}
  Global : clusterconfig.Global := {}
deriving DecidableEq, Repr

/-- Modelled from the spec: the metadata of a resource is declared outside the
given sources; `newEmpty` sets its name and its namespace. -/
structure Metadata where
  Name : String := ""
  Namespace : String := ""
deriving DecidableEq, Repr

/-- The type `Resource`: the cluster configuration resource. -/
structure Resource where
  Kind : String := ""
  Version : String := ""
  Metadata : clusterconfig.Metadata := {}
  Spec : clusterconfig.Spec := {}
deriving DecidableEq, Repr

/-- The constant `Kind`. -/
def Kind : String := "clusterconfiguration"

/-- The part of the type `Interface` that `MergeFrom` calls: the results of
`GetKubeletConfig` and of `GetGlobalConfig`. -/
structure Interface where
  GetKubeletConfig : Option Kubelet := none
  GetGlobalConfig : Global := {}
deriving DecidableEq, Repr

/-- The method `GetKubeletConfig`. -/
def Resource.GetKubeletConfig (r : Resource) : Option Kubelet :=
  r.Spec.ComponentConfigs.Kubelet

/-- The method `GetGlobalConfig`. -/
def Resource.GetGlobalConfig (r : Resource) : Global :=
  r.Spec.Global

/-- A resource as a value of the type `Interface`. -/
def Resource.asInterface (r : Resource) : Interface :=
  { GetKubeletConfig := r.GetKubeletConfig, GetGlobalConfig := r.GetGlobalConfig }

/-- The function `newEmpty`. The feature gates of the new resource are the
`nil` map. -/
def newEmpty : Resource :=
  { Kind := Kind,
    Version := "v1",
    Metadata := { Name := constants.ClusterConfigurationMap,
                  Namespace := defaults.KubeSystemNamespace } }

/-- The function `NewEmpty`. -/
def NewEmpty : Resource :=
  let res := newEmpty
  res

/-- The number of entries of a Go map, `len(m)`: zero for the `nil` map. -/
def len (m : Option (List (String × Bool))) : Nat :=
  match m with
  | none => 0
  | some entries => entries.length

/-- The entries of a map after the assignment `m[k] = v`: the value of the key
is replaced where the map holds the key, and the entry is added otherwise. -/
def assign (entries : List (String × Bool)) (k : String) (v : Bool) : List (String × Bool) :=
  if entries.any (fun e => e.1 == k) then
    entries.map (fun e => if e.1 = k then (k, v) else e)
  else
    entries ++ [(k, v)]

/-- The assignment `m[k] = v` of Go: it fails on the `nil` map. -/
def mapassign (m : Option (List (String × Bool))) (k : String) (v : Bool) :
    Except String (Option (List (String × Bool))) :=
  match m with
  | none => Except.error "assignment to entry in nil map"
  | some entries => Except.ok (some (assign entries k v))

/-- The loop `for k, v := range globalConfig.FeatureGates` of `MergeFrom`, over
the entries in the order the loop visits them: every entry is assigned to the
map `gates` of the receiver. -/
def mergeFeatureGates (gates : Option (List (String × Bool))) :
    List (String × Bool) → Except String (Option (List (String × Bool)))
  | [] => Except.ok gates
  | (k, v) :: rest =>
    match mapassign gates k v with
    | Except.error err => Except.error err
    | Except.ok gates => mergeFeatureGates gates rest

/-- The method `MergeFrom`: the receiver after the call, or the failure of the
Go runtime. The fields of the receiver that the method assigns are local
variables here: an assignment under a condition gives the variable its new
value, and the receiver is put together from the variables at each return. -/
def Resource.MergeFrom (r : Resource) (other : Interface) : Except String Resource :=
  let globalConfig := other.GetGlobalConfig
  let serviceCIDR :=
    if globalConfig.ServiceCIDR ≠ "" then globalConfig.ServiceCIDR else r.Spec.Global.ServiceCIDR
  let podCIDR :=
    if globalConfig.PodCIDR ≠ "" then globalConfig.PodCIDR else r.Spec.Global.PodCIDR
  let podCIDR :=
    if globalConfig.PodCIDR ≠ "" then globalConfig.PodCIDR else podCIDR
  let cloudConfig :=
    if globalConfig.CloudConfig ≠ "" then globalConfig.CloudConfig else r.Spec.Global.CloudConfig
  let proxyPortRange :=
    if globalConfig.ProxyPortRange ≠ "" then globalConfig.ProxyPortRange
    else r.Spec.Global.ProxyPortRange
  let serviceNodePortRange :=
    if globalConfig.ServiceNodePortRange ≠ "" then globalConfig.ServiceNodePortRange
    else r.Spec.Global.ServiceNodePortRange
  let featureGates : Except String (Option (List (String × Bool))) :=
    if len globalConfig.FeatureGates ≠ 0 then
      mergeFeatureGates r.Spec.Global.FeatureGates (globalConfig.FeatureGates.getD [])
    else Except.ok r.Spec.Global.FeatureGates
  match featureGates with
  | Except.error err => Except.error err
  | Except.ok featureGates =>
    let global : Global :=
      { CloudProvider := r.Spec.Global.CloudProvider,
        CloudConfig := cloudConfig,
        ServiceCIDR := serviceCIDR,
        ServiceNodePortRange := serviceNodePortRange,
        PodCIDR := podCIDR,
        ProxyPortRange := proxyPortRange,
        FeatureGates := featureGates }
    let kubeletConfig := other.GetKubeletConfig
    match kubeletConfig with
    | none =>
      Except.ok { Kind := r.Kind, Version := r.Version, Metadata := r.Metadata,
                  Spec := { ComponentConfigs := r.Spec.ComponentConfigs, Global := global } }
    | some kubeletConfig =>
      let kubelet : Kubelet :=
        match r.Spec.ComponentConfigs.Kubelet with
        | none => {}
        | some kubelet => kubelet
      let extraArgs :=
        if kubeletConfig.ExtraArgs.length ≠ 0 then kubeletConfig.ExtraArgs else kubelet.ExtraArgs
      let config :=
        if kubeletConfig.Config.length ≠ 0 then kubeletConfig.Config else kubelet.Config
      Except.ok { Kind := r.Kind, Version := r.Version, Metadata := r.Metadata,
                  Spec := { ComponentConfigs := { Kubelet := some { ExtraArgs := extraArgs,
                                                                    Config := config } },
                            Global := global } }

/-- The entries of a map after the entries `es` were assigned to it one by
one. -/
def mergeEntries (entries es : List (String × Bool)) : List (String × Bool) :=
  es.foldl (fun m e => assign m e.1 e.2) entries

/-- The value that the last entry of the key `k` in `es` holds, if there is
one. -/
def lastValue : List (String × Bool) → String → Option Bool
  | [], _ => none
  | (k', v) :: es, k =>
    match lastValue es k with
    | some x => some x
    | none => if k' = k then some v else none

/-- The value of a field after a merge: the new value unless it is empty. -/
def override (new old : String) : String :=
  if new ≠ "" then new else old

/-- The kubelet configuration after a merge from `other`, in closed form. -/
def mergeKubelet (kubelet other : Option Kubelet) : Option Kubelet :=
  match other with
  | none => kubelet
  | some kubeletConfig =>
    some { ExtraArgs :=
             if kubeletConfig.ExtraArgs.length ≠ 0 then kubeletConfig.ExtraArgs
             else (kubelet.getD {}).ExtraArgs,
           Config :=
             if kubeletConfig.Config.length ≠ 0 then kubeletConfig.Config
             else (kubelet.getD {}).Config }

/-- The receiver after a merge from `other` that completes, in closed form:
`gates` are its feature gates after the merge. -/
def merged (r : Resource) (other : Interface) (gates : Option (List (String × Bool))) : Resource :=
  { Kind := r.Kind, Version := r.Version, Metadata := r.Metadata,
    Spec :=
      { ComponentConfigs :=
          { Kubelet := mergeKubelet r.Spec.ComponentConfigs.Kubelet other.GetKubeletConfig },
        Global :=
          { CloudProvider := r.Spec.Global.CloudProvider,
            CloudConfig := override other.GetGlobalConfig.CloudConfig r.Spec.Global.CloudConfig,
            ServiceCIDR := override other.GetGlobalConfig.ServiceCIDR r.Spec.Global.ServiceCIDR,
            ServiceNodePortRange :=
              override other.GetGlobalConfig.ServiceNodePortRange r.Spec.Global.ServiceNodePortRange,
            PodCIDR := override other.GetGlobalConfig.PodCIDR r.Spec.Global.PodCIDR,
            ProxyPortRange :=
              override other.GetGlobalConfig.ProxyPortRange r.Spec.Global.ProxyPortRange,
            FeatureGates := gates } } }

/-- A sample receiver with feature gates. -/
def sampleResource : Resource :=
  { newEmpty with
    Spec := { Global := { CloudProvider := "generic", ServiceCIDR := "10.100.0.0/16",
                          PodCIDR := "10.244.0.0/16",
                          FeatureGates := some [("FeatureA", true), ("FeatureB", false)] } } }

/-- A sample configuration to merge from. -/
def sampleOther : Interface :=
  { GetGlobalConfig := { CloudProvider := "aws", ServiceCIDR := "10.200.0.0/16",
                         ProxyPortRange := "30000-32767",
                         FeatureGates := some [("FeatureB", true), ("FeatureC", true)] },
    GetKubeletConfig := some { ExtraArgs := ["--v=2"] } }

end clusterconfig

namespace clusterconfig

/-- A JSON value of the global configuration: a string, or an object whose
values are booleans. -/
inductive Value where
  | string (s : String)
  | booleans (fields : List (String × Bool))
deriving DecidableEq, Repr

/-- What the schema asks of a property of the global configuration: a string
(`{"type": "string"}`), or an object whose properties of a matching name are
booleans. -/
inductive PropertyType where
  | string
  | booleans
deriving DecidableEq, Repr

/-- The properties that `specSchemaTemplate` declares for `spec.global`, with
their types, in the order of the template. -/
def globalSchemaProperties : List (String × PropertyType) :=
  [("cloudProvider", PropertyType.string),
   ("cloudConfig", PropertyType.string),
   ("serviceCIDR", PropertyType.string),
   ("serviceNodePortRange", PropertyType.string),
   ("poxyPortRange", PropertyType.string),
   ("podCIDR", PropertyType.string),
   ("featureGates", PropertyType.booleans)]

/-- The JSON names of the fields of the type `Global`, from their tags, in the
order of the fields. -/
def globalFieldNames : List String :=
  ["cloudProvider", "cloudConfig", "serviceCIDR", "serviceNodePortRange", "podCIDR",
   "proxyPortRange", "featureGates"]

/-- The properties that `Marshal` emits for a global configuration: every field
is tagged `omitempty`, so a field is emitted unless it is empty. -/
def Global.Marshal (g : Global) : List (String × Value) :=
  (if g.CloudProvider ≠ "" then [("cloudProvider", Value.string g.CloudProvider)] else []) ++
  (if g.CloudConfig ≠ "" then [("cloudConfig", Value.string g.CloudConfig)] else []) ++
  (if g.ServiceCIDR ≠ "" then [("serviceCIDR", Value.string g.ServiceCIDR)] else []) ++
  (if g.ServiceNodePortRange ≠ ""
    then [("serviceNodePortRange", Value.string g.ServiceNodePortRange)] else []) ++
  (if g.PodCIDR ≠ "" then [("podCIDR", Value.string g.PodCIDR)] else []) ++
  (if g.ProxyPortRange ≠ "" then [("proxyPortRange", Value.string g.ProxyPortRange)] else []) ++
  (if len g.FeatureGates ≠ 0
    then [("featureGates", Value.booleans (g.FeatureGates.getD []))] else [])

end clusterconfig

/-! ## The interrupt handler of the installer client (`tool/gravity/cli/install.go`)

The handler is a loop around a `select` statement. It is embedded as a step
function on the state at the head of the loop, run on the events the `select`
receives, in order. -/

namespace cli

/-- The events that the `select` of `clientTerminationHandler` waits for: an
interrupt signal, the expiry of the timer, and the end of the interrupt
handler. -/
inductive Event where
  | interrupt
  | timer
  | done
deriving DecidableEq, Repr

/-- The local state of `clientTerminationHandler` at the head of its loop: the
number of consecutive interrupts, and whether `timerC` is a running timer
(`true`) or `nil` (`false`). -/
structure State where
  interrupts : Nat := 0
  timerC : Bool := false
deriving DecidableEq, Repr

/-- How far the handler is: at the head of the loop in a state, returned after
a call of `interrupt.Abort()`, or returned because the interrupt handler is
done. -/
inductive Progress where
  | loop (s : State)
  | aborted
  | returned
deriving DecidableEq, Repr

/-- One turn of the loop of `clientTerminationHandler` on the event `e`. A
`nil` channel never delivers: the expiry of the timer is not received while
`timerC` is `nil`, and the state stays as it is. -/
def step (s : State) (e : Event) : Progress :=
  match e with
  | Event.interrupt =>
    let interrupts := s.interrupts + 1
    if interrupts > 1 then
      Progress.aborted
    else
      Progress.loop { interrupts := interrupts, timerC := true }
  | Event.timer =>
    if s.timerC then
      Progress.loop { interrupts := 0, timerC := false }
    else
      Progress.loop s
  | Event.done => Progress.returned

/-- The handler from a given progress on the events `events`: once it has
returned, no event is received any more. -/
def run : Progress → List Event → Progress
  | p, [] => p
  | Progress.loop s, e :: events => run (step s e) events
  | Progress.aborted, _ :: _ => Progress.aborted
  | Progress.returned, _ :: _ => Progress.returned

/-- The function `clientTerminationHandler` on the events `events`: the loop is
entered with no interrupt counted and `timerC` `nil`. -/
def clientTerminationHandler (events : List Event) : Progress :=
  run (Progress.loop { interrupts := 0, timerC := false }) events

/-- The states at the heads of the loop while the events are received, the
first one included. -/
def loopHeads : Progress → List Event → List State
  | Progress.loop s, [] => [s]
  | Progress.loop s, e :: events => s :: loopHeads (step s e) events
  | Progress.aborted, _ => []
  | Progress.returned, _ => []

end cli

/-! ## Lemmas on the builder helpers -/

namespace update

theorem foldl_append_child (g : String → storage.Server → Phase) (l : List storage.Server) (b0 : Phase) :
    l.foldl (fun b s => ({ b with Phases := b.Phases ++ [g b.ID s] } : Phase)) b0
      = { b0 with Phases := b0.Phases ++ l.map (g b0.ID) } := by
  induction l generalizing b0 with
  | nil => cases b0; simp
  | cons a t ih => simp [ih]

end update

namespace cluster
open update

theorem etcdPlan_stages (r : phaseBuilder) (lead : storage.Server) (others workers : List storage.Server)
    (cur des : String) :
    r.etcdPlan lead others workers cur des =
      { ID := "etcd",
        Description := if cur = "" then "Upgrade etcd to " ++ des else "Upgrade etcd " ++ cur ++ " to " ++ des,
        Phases :=
          [ backupLoop r lead others,
            shutdownLoop r lead others workers (backupLoop r lead others),
            upgradeLoop r lead others workers (shutdownLoop r lead others workers (backupLoop r lead others)),
            { restoreLeaf lead with Requires := [(upgradeLoop r lead others workers (shutdownLoop r lead others workers (backupLoop r lead others))).ID] },
            restartLoop r lead others workers (restoreLeaf lead)
              (upgradeLoop r lead others workers (shutdownLoop r lead others workers (backupLoop r lead others))) ] } := by
  by_cases h : cur = ""
  · unfold phaseBuilder.etcdPlan
    simp only [if_pos h]
    rfl
  · unfold phaseBuilder.etcdPlan
    simp only [if_neg h]
    rfl

end cluster
namespace update

theorem DependencyForServer_keyed (p : Phase) (pre : String) (s : storage.Server)
    (hk : ∀ c ∈ p.Phases, ∃ t, c.server = some t ∧ c.ID = pre ++ t.Hostname)
    (hs : ∃ c ∈ p.Phases, c.server = some s) :
    DependencyForServer p s = pre ++ s.Hostname := by
  unfold DependencyForServer
  cases hf : p.Phases.find? (fun sub => decide (sub.server = some s)) with
  | none =>
    obtain ⟨c, hc, hcs⟩ := hs
    have := List.find?_eq_none.mp hf c hc
    simp [hcs] at this
  | some c =>
    have hc := List.mem_of_find?_eq_some hf
    have hp := List.find?_some hf
    obtain ⟨t, ht, hid⟩ := hk c hc
    simp only [decide_eq_true_eq] at hp
    rw [hp] at ht
    cases ht
    simpa using hid

theorem DependencyForServer_leaf (p : Phase) (s : storage.Server) (h : p.Phases = []) :
    DependencyForServer p s = p.ID := by
  simp [DependencyForServer, h]

end update

namespace cluster
open update

theorem backupLoop_eq (r : phaseBuilder) (lead : storage.Server) (others : List storage.Server) :
    backupLoop r lead others = backupStage lead others := by
  unfold backupLoop
  simp only [Phase.AddParallel, phaseBuilder.etcdBackupNode, Phase.ChildLiteral]
  rw [foldl_append_child (fun id s =>
      { Phases := [], ID := id ++ "." ++ s.Hostname,
        Description := "Backup etcd on node " ++ quote s.Hostname,
        Executor := some Executor.updateEtcdBackup,
        Data := some { Server := some s } })]
  have e : etcdRoot.ID ++ "." ++ "backup" = "etcd.backup" := by decide
  have e2 : ("etcd.backup" ++ "." : String) = "etcd.backup." := by decide
  simp only [e, e2, List.nil_append, List.map_cons, List.singleton_append, backupChild]
  rfl

theorem shutdownLoop_eq (r : phaseBuilder) (lead : storage.Server) (others workers : List storage.Server)
    (b : Phase) :
    shutdownLoop r lead others workers b =
      shutdownStageWith lead others workers [DependencyForServer b lead]
        (fun s => [DependencyForServer b s]) := by
  unfold shutdownLoop
  simp only [Phase.AddWithDependency, Phase.Add, phaseBuilder.etcdShutdownNode, Phase.ChildLiteral,
    List.map_cons, List.map_nil]
  rw [foldl_append_child (fun id s =>
      { Phases := [], ID := id ++ "." ++ s.Hostname,
        Description := "Shutdown etcd on node " ++ quote s.Hostname,
        Executor := some Executor.updateEtcdShutdown,
        Data := some { Server := some s, Data := FormatBool false },
        Requires := [] ++ [DependencyForServer b s] })]
  rw [foldl_append_child (fun id s =>
      { Phases := [], ID := id ++ "." ++ s.Hostname,
        Description := "Shutdown etcd on node " ++ quote s.Hostname,
        Executor := some Executor.updateEtcdShutdown,
        Data := some { Server := some s, Data := FormatBool false } })]
  have e : etcdRoot.ID ++ "." ++ "shutdown" = "etcd.shutdown" := by decide
  have e2 : ("etcd.shutdown" ++ "." : String) = "etcd.shutdown." := by decide
  simp only [e, e2, List.nil_append, List.singleton_append, List.cons_append, List.append_assoc]
  rfl

theorem upgradeLoop_eq (r : phaseBuilder) (lead : storage.Server) (others workers : List storage.Server)
    (b : Phase) :
    upgradeLoop r lead others workers b =
      upgradeStageWith lead others workers (fun s => [DependencyForServer b s]) := by
  unfold upgradeLoop
  simp only [Phase.AddWithDependency, phaseBuilder.etcdUpgrade, Phase.ChildLiteral,
    List.map_cons, List.map_nil]
  rw [foldl_append_child (fun id s =>
      { Phases := [], ID := id ++ "." ++ s.Hostname,
        Description := "Upgrade etcd on node " ++ quote s.Hostname,
        Executor := some Executor.updateEtcdMaster,
        Data := some { Server := some s },
        Requires := [] ++ [DependencyForServer b s] })]
  rw [foldl_append_child (fun id s =>
      { Phases := [], ID := id ++ "." ++ s.Hostname,
        Description := "Upgrade etcd on node " ++ quote s.Hostname,
        Executor := some Executor.updateEtcdMaster,
        Data := some { Server := some s },
        Requires := [] ++ [DependencyForServer b s] })]
  have e : etcdRoot.ID ++ "." ++ "upgrade" = "etcd.upgrade" := by decide
  have e2 : ("etcd.upgrade" ++ "." : String) = "etcd.upgrade." := by decide
  simp only [e, e2, List.nil_append, List.singleton_append, List.cons_append, List.append_assoc,
    List.map_append, List.map_cons, upgradeStageWith]
  rfl

theorem restartLoop_eq (r : phaseBuilder) (lead : storage.Server) (others workers : List storage.Server)
    (rs b : Phase) :
    restartLoop r lead others workers rs b =
      restartStageWith lead others workers [DependencyForServer rs lead]
        (fun s => [DependencyForServer b s]) := by
  unfold restartLoop
  simp only [Phase.AddWithDependency, Phase.AddParallel, phaseBuilder.etcdRestart, Phase.ChildLiteral,
    List.map_cons, List.map_nil]
  rw [foldl_append_child (fun id s =>
      { Phases := [], ID := id ++ "." ++ s.Hostname,
        Description := "Restart etcd on node " ++ quote s.Hostname,
        Executor := some Executor.updateEtcdRestart,
        Data := some { Server := some s },
        Requires := [] ++ [DependencyForServer b s] })]
  rw [foldl_append_child (fun id s =>
      { Phases := [], ID := id ++ "." ++ s.Hostname,
        Description := "Restart etcd on node " ++ quote s.Hostname,
        Executor := some Executor.updateEtcdRestart,
        Data := some { Server := some s },
        Requires := [] ++ [DependencyForServer b s] })]
  have e : etcdRoot.ID ++ "." ++ "restart" = "etcd.restart" := by decide
  have e2 : ("etcd.restart" ++ "." : String) = "etcd.restart." := by decide
  simp only [e, e2, List.nil_append, List.singleton_append, List.cons_append, List.append_assoc,
    List.map_append, List.map_cons, restartStageWith]
  rfl
end cluster
namespace cluster
open update

theorem dep_backup (lead : storage.Server) (others : List storage.Server) (s : storage.Server)
    (hs : s ∈ lead :: others) :
    DependencyForServer (backupStage lead others) s = "etcd.backup." ++ s.Hostname := by
  apply DependencyForServer_keyed
  · intro c hc
    obtain ⟨t, _, rfl⟩ := List.mem_map.mp hc
    exact ⟨t, rfl, rfl⟩
  · exact ⟨backupChild s, List.mem_map_of_mem _ hs, rfl⟩

theorem dep_shutdown (lead : storage.Server) (others workers : List storage.Server)
    (x : List String) (y : storage.Server → List String) (s : storage.Server)
    (hs : s ∈ lead :: (others ++ workers)) :
    DependencyForServer (shutdownStageWith lead others workers x y) s
      = "etcd.shutdown." ++ s.Hostname := by
  apply DependencyForServer_keyed
  · intro c hc
    simp only [shutdownStageWith, List.mem_cons, List.mem_append, List.mem_map] at hc
    rcases hc with rfl | ⟨t, _, rfl⟩ | ⟨t, _, rfl⟩
    · exact ⟨lead, rfl, rfl⟩
    · exact ⟨t, rfl, rfl⟩
    · exact ⟨t, rfl, rfl⟩
  · simp only [List.mem_cons, List.mem_append] at hs
    rcases hs with rfl | hs | hs
    · exact ⟨_, List.mem_cons_self _ _, rfl⟩
    · exact ⟨shutdownChild s false (y s),
        List.mem_cons_of_mem _ (List.mem_append_left _ (List.mem_map_of_mem _ hs)), rfl⟩
    · exact ⟨shutdownChild s false [],
        List.mem_cons_of_mem _ (List.mem_append_right _ (List.mem_map_of_mem _ hs)), rfl⟩

theorem dep_upgrade (lead : storage.Server) (others workers : List storage.Server)
    (y : storage.Server → List String) (s : storage.Server)
    (hs : s ∈ lead :: (others ++ workers)) :
    DependencyForServer (upgradeStageWith lead others workers y) s
      = "etcd.upgrade." ++ s.Hostname := by
  apply DependencyForServer_keyed
  · intro c hc
    obtain ⟨t, _, rfl⟩ := List.mem_map.mp hc
    exact ⟨t, rfl, rfl⟩
  · exact ⟨upgradeChild s (y s), List.mem_map_of_mem _ hs, rfl⟩

theorem shutdownStageWith_congr (lead : storage.Server) (others workers : List storage.Server)
    (x x' : List String) (y y' : storage.Server → List String)
    (hx : x = x') (hy : ∀ s ∈ others, y s = y' s) :
    shutdownStageWith lead others workers x y = shutdownStageWith lead others workers x' y' := by
  subst hx
  unfold shutdownStageWith
  rw [List.map_congr_left (fun s hs => by rw [hy s hs])]

theorem upgradeStageWith_congr (lead : storage.Server) (others workers : List storage.Server)
    (y y' : storage.Server → List String)
    (hy : ∀ s ∈ lead :: (others ++ workers), y s = y' s) :
    upgradeStageWith lead others workers y = upgradeStageWith lead others workers y' := by
  unfold upgradeStageWith
  rw [List.map_congr_left (fun s hs => by rw [hy s hs])]

theorem restartStageWith_congr (lead : storage.Server) (others workers : List storage.Server)
    (x x' : List String) (y y' : storage.Server → List String)
    (hx : x = x') (hy : ∀ s ∈ others ++ workers, y s = y' s) :
    restartStageWith lead others workers x y = restartStageWith lead others workers x' y' := by
  subst hx
  unfold restartStageWith
  rw [List.map_congr_left (fun s hs => by rw [hy s hs])]

/-- The closed form of `etcdPlan`. -/
theorem etcdPlan_closed (r : phaseBuilder) (lead : storage.Server) (others workers : List storage.Server)
    (cur des : String) :
    r.etcdPlan lead others workers cur des =
      { ID := "etcd",
        Description := if cur = "" then "Upgrade etcd to " ++ des else "Upgrade etcd " ++ cur ++ " to " ++ des,
        Phases := etcdStages lead others workers } := by
  rw [etcdPlan_stages, backupLoop_eq, shutdownLoop_eq, upgradeLoop_eq, restartLoop_eq]
  have hS : shutdownStageWith lead others workers [DependencyForServer (backupStage lead others) lead]
      (fun s => [DependencyForServer (backupStage lead others) s]) = shutdownStage lead others workers := by
    apply shutdownStageWith_congr
    · rw [dep_backup _ _ _ (List.mem_cons_self _ _)]
    · intro s hs
      rw [dep_backup _ _ _ (List.mem_cons_of_mem _ hs)]
  rw [hS]
  have hU : upgradeStageWith lead others workers
      (fun s => [DependencyForServer (shutdownStage lead others workers) s]) = upgradeStage lead others workers := by
    apply upgradeStageWith_congr
    intro s hs
    rw [shutdownStage, dep_shutdown _ _ _ _ _ _ hs]
  rw [hU]
  have hR : restartStageWith lead others workers [DependencyForServer (restoreLeaf lead) lead]
      (fun s => [DependencyForServer (upgradeStage lead others workers) s]) = restartStage lead others workers := by
    apply restartStageWith_congr
    · rw [DependencyForServer_leaf _ _ rfl]
      have e : (restoreLeaf lead).ID = "etcd.restore" :=
        show etcdRoot.ID ++ "." ++ "restore" = "etcd.restore" by decide
      rw [e]
    · intro s hs
      rw [upgradeStage, dep_upgrade _ _ _ _ _ (List.mem_cons_of_mem _ hs)]
  rw [hR]
  have e : etcdRoot.ID ++ "." ++ "restore" = "etcd.restore" := by decide
  have e3 : (upgradeStage lead others workers).ID = "etcd.upgrade" := rfl
  simp only [restoreLeaf, Phase.ChildLiteral, e, e3, etcdStages, restoreStage]
end cluster
namespace cluster
open update

/-! ## The etcd sub-plan -/

/-- C6: the root returned by `etcdPlan` has identifier `etcd` and exactly five
children, whose identifiers are the child paths `backup`, `shutdown`, `upgrade`,
`restore`, `restart` of the root, in this order. -/
theorem etcdPlan_five_stages (r : phaseBuilder) (leadMaster : storage.Server)
    (otherMasters workers : List storage.Server) (currentVersion desiredVersion : String) :
    (r.etcdPlan leadMaster otherMasters workers currentVersion desiredVersion).ID = "etcd" ∧
    (r.etcdPlan leadMaster otherMasters workers currentVersion desiredVersion).Phases.length = 5 ∧
    (r.etcdPlan leadMaster otherMasters workers currentVersion desiredVersion).Phases.map (fun p => p.ID) =
      ["backup", "shutdown", "upgrade", "restore", "restart"].map
        (r.etcdPlan leadMaster otherMasters workers currentVersion desiredVersion).ChildLiteral := by
  rw [etcdPlan_closed]
  refine ⟨rfl, rfl, ?_⟩
  simp only [etcdStages, List.map_cons, List.map_nil, Phase.ChildLiteral, backupStage, shutdownStage,
    shutdownStageWith, upgradeStage, upgradeStageWith, restoreStage, restartStage, restartStageWith]
  decide

end cluster
namespace cluster
open update

theorem etcdPlan_stage0 (r : phaseBuilder) (lead : storage.Server) (others workers : List storage.Server)
    (cur des : String) :
    (r.etcdPlan lead others workers cur des).stage 0 = backupStage lead others := by
  rw [etcdPlan_closed]; rfl

theorem etcdPlan_stage1 (r : phaseBuilder) (lead : storage.Server) (others workers : List storage.Server)
    (cur des : String) :
    (r.etcdPlan lead others workers cur des).stage 1 = shutdownStage lead others workers := by
  rw [etcdPlan_closed]; rfl

theorem etcdPlan_stage2 (r : phaseBuilder) (lead : storage.Server) (others workers : List storage.Server)
    (cur des : String) :
    (r.etcdPlan lead others workers cur des).stage 2 = upgradeStage lead others workers := by
  rw [etcdPlan_closed]; rfl

theorem etcdPlan_stage3 (r : phaseBuilder) (lead : storage.Server) (others workers : List storage.Server)
    (cur des : String) :
    (r.etcdPlan lead others workers cur des).stage 3 = restoreStage lead := by
  rw [etcdPlan_closed]; rfl

theorem etcdPlan_stage4 (r : phaseBuilder) (lead : storage.Server) (others workers : List storage.Server)
    (cur des : String) :
    (r.etcdPlan lead others workers cur des).stage 4 = restartStage lead others workers := by
  rw [etcdPlan_closed]; rfl

theorem backup_childLiteral (lead : storage.Server) (others : List storage.Server) (h : String) :
    (backupStage lead others).ChildLiteral h = "etcd.backup." ++ h := by
  show "etcd.backup" ++ "." ++ h = "etcd.backup." ++ h
  rw [show ("etcd.backup" ++ "." : String) = "etcd.backup." by decide]

theorem shutdown_childLiteral (lead : storage.Server) (others workers : List storage.Server) (h : String) :
    (shutdownStage lead others workers).ChildLiteral h = "etcd.shutdown." ++ h := by
  show "etcd.shutdown" ++ "." ++ h = "etcd.shutdown." ++ h
  rw [show ("etcd.shutdown" ++ "." : String) = "etcd.shutdown." by decide]

theorem upgrade_childLiteral (lead : storage.Server) (others workers : List storage.Server) (h : String) :
    (upgradeStage lead others workers).ChildLiteral h = "etcd.upgrade." ++ h := by
  show "etcd.upgrade" ++ "." ++ h = "etcd.upgrade." ++ h
  rw [show ("etcd.upgrade" ++ "." : String) = "etcd.upgrade." by decide]

theorem restart_childLiteral (lead : storage.Server) (others workers : List storage.Server) (h : String) :
    (restartStage lead others workers).ChildLiteral h = "etcd.restart." ++ h := by
  show "etcd.restart" ++ "." ++ h = "etcd.restart." ++ h
  rw [show ("etcd.restart" ++ "." : String) = "etcd.restart." by decide]

theorem string_append_left_cancel (p a b : String) (h : p ++ a = p ++ b) : a = b := by
  have h2 := congrArg String.data h
  simp only [String.data_append] at h2
  exact String.ext (List.append_cancel_left h2)

theorem hostname_inj_of_nodup (l : List storage.Server)
    (hd : (l.map (fun s => s.Hostname)).Nodup) :
    ∀ s ∈ l, ∀ t ∈ l, t.Hostname = s.Hostname → t = s := by
  intro s hs t ht h
  exact List.inj_on_of_nodup_map hd ht hs h

/-- C3: for pairwise distinct servers (no two share a host name), every child of
the upgrade stage built by `etcdPlan` targets one server of the fleet, in fleet
order, and has exactly one dependency: the shutdown phase of that same server.
The shutdown phase of a different server has a different identifier. -/
theorem etcdPlan_upgrade_requires_own_shutdown (r : phaseBuilder) (leadMaster : storage.Server)
    (otherMasters workers : List storage.Server) (currentVersion desiredVersion : String)
    (hd : ((leadMaster :: (otherMasters ++ workers)).map (fun s => s.Hostname)).Nodup) :
    (((r.etcdPlan leadMaster otherMasters workers currentVersion desiredVersion).stage 2).Phases.map
        Phase.summary
      = (leadMaster :: (otherMasters ++ workers)).map (fun s =>
          (some s,
           ((r.etcdPlan leadMaster otherMasters workers currentVersion desiredVersion).stage 2).ChildLiteral
              s.Hostname,
           [((r.etcdPlan leadMaster otherMasters workers currentVersion desiredVersion).stage 1).ChildLiteral
              s.Hostname]))) ∧
    (((r.etcdPlan leadMaster otherMasters workers currentVersion desiredVersion).stage 1).Phases.map
        (fun c => (c.server, c.ID))
      = (leadMaster :: (otherMasters ++ workers)).map (fun s =>
          (some s,
           ((r.etcdPlan leadMaster otherMasters workers currentVersion desiredVersion).stage 1).ChildLiteral
              s.Hostname))) ∧
    (∀ s ∈ leadMaster :: (otherMasters ++ workers), ∀ t ∈ leadMaster :: (otherMasters ++ workers),
      ((r.etcdPlan leadMaster otherMasters workers currentVersion desiredVersion).stage 1).ChildLiteral t.Hostname
        = ((r.etcdPlan leadMaster otherMasters workers currentVersion desiredVersion).stage 1).ChildLiteral
            s.Hostname → t = s) := by
  rw [etcdPlan_stage1, etcdPlan_stage2]
  simp only [upgrade_childLiteral, shutdown_childLiteral]
  refine ⟨?_, ?_, ?_⟩
  · simp [upgradeStage, upgradeStageWith, Phase.summary, Phase.server, upgradeChild, Function.comp_def]
  · simp [shutdownStage, shutdownStageWith, Phase.server, shutdownChild, Function.comp_def]
  · intro s hs t ht h
    exact hostname_inj_of_nodup _ hd s hs t ht (string_append_left_cancel _ _ _ h)

end cluster
namespace update

theorem Phase.flatten_eq (p : Phase) : p.flatten = p :: flattenAll p.Phases := by
  cases p; simp [Phase.flatten]

theorem flattenAll_nil : flattenAll [] = [] := by simp [flattenAll]

theorem flattenAll_cons (p : Phase) (ps : List Phase) :
    flattenAll (p :: ps) = p.flatten ++ flattenAll ps := by simp [flattenAll]

theorem flattenAll_append (ps qs : List Phase) :
    flattenAll (ps ++ qs) = flattenAll ps ++ flattenAll qs := by
  induction ps with
  | nil => simp [flattenAll_nil]
  | cons a t ih => simp [flattenAll_cons, ih]

theorem flattenAll_leaves (ps : List Phase) (h : ∀ c ∈ ps, c.Phases = []) : flattenAll ps = ps := by
  induction ps with
  | nil => exact flattenAll_nil
  | cons a t ih =>
    rw [flattenAll_cons, Phase.flatten_eq, h a (List.mem_cons_self _ _), flattenAll_nil,
      ih (fun c hc => h c (List.mem_cons_of_mem _ hc))]
    rfl

theorem Phase.self_mem_flatten (p : Phase) : p ∈ p.flatten := by
  rw [Phase.flatten_eq]; exact List.mem_cons_self _ _

theorem mem_flattenAll (ps : List Phase) (c q : Phase) (hc : c ∈ ps) (hq : q ∈ c.flatten) :
    q ∈ flattenAll ps := by
  induction ps with
  | nil => cases hc
  | cons a t ih =>
    rw [flattenAll_cons]
    rcases List.mem_cons.mp hc with rfl | h
    · exact List.mem_append_left _ hq
    · exact List.mem_append_right _ (ih h)

theorem Phase.child_mem_flatten (p c : Phase) (hc : c ∈ p.Phases) : c ∈ p.flatten := by
  rw [Phase.flatten_eq]
  exact List.mem_cons_of_mem _ (mem_flattenAll _ c c hc c.self_mem_flatten)

theorem Phase.grandchild_mem_flatten (p c d : Phase) (hc : c ∈ p.Phases) (hd : d ∈ c.Phases) :
    d ∈ p.flatten := by
  rw [Phase.flatten_eq]
  exact List.mem_cons_of_mem _ (mem_flattenAll _ c d hc (c.child_mem_flatten d hd))

theorem transGen_closed {α : Type} (e : α → α → Prop) (S : α → Prop)
    (hS : ∀ a b, S a → e a b → S b) {a b : α} (h : Relation.TransGen e a b) (ha : S a) : S b := by
  induction h with
  | single h => exact hS _ _ ha h
  | tail _ h ih => exact hS _ _ ih h

theorem Phase.waitsFor_of_dependsOn (plan : Phase) (a b : String) (h : plan.dependsOn a b) :
    plan.waitsFor a b :=
  Relation.TransGen.mono (fun _ _ h => Or.inl h) h

end update

namespace cluster
open update

/-- C4: for pairwise distinct servers (no two share a host name), in the restart
stage built by `etcdPlan` the lead master's restart phase requires the restore
phase and nothing else, and the restart phase of every other master and every
worker requires exactly the upgrade phase of that same server; the upgrade phase
of a different server has a different identifier. The last child is the restart
of the management service, which requires nothing. -/
theorem etcdPlan_restart_requires (r : phaseBuilder) (leadMaster : storage.Server)
    (otherMasters workers : List storage.Server) (currentVersion desiredVersion : String)
    (hd : ((leadMaster :: (otherMasters ++ workers)).map (fun s => s.Hostname)).Nodup) :
    (((r.etcdPlan leadMaster otherMasters workers currentVersion desiredVersion).stage 4).Phases.map
        Phase.summary
      = (some leadMaster,
         ((r.etcdPlan leadMaster otherMasters workers currentVersion desiredVersion).stage 4).ChildLiteral
            leadMaster.Hostname,
         [((r.etcdPlan leadMaster otherMasters workers currentVersion desiredVersion).stage 3).ID])
        :: ((otherMasters ++ workers).map (fun s =>
          (some s,
           ((r.etcdPlan leadMaster otherMasters workers currentVersion desiredVersion).stage 4).ChildLiteral
              s.Hostname,
           [((r.etcdPlan leadMaster otherMasters workers currentVersion desiredVersion).stage 2).ChildLiteral
              s.Hostname]))
          ++ [(some leadMaster,
               ((r.etcdPlan leadMaster otherMasters workers currentVersion desiredVersion).stage 4).ChildLiteral
                  constants.GravityServiceName,
               [])])) ∧
    (((r.etcdPlan leadMaster otherMasters workers currentVersion desiredVersion).stage 2).Phases.map
        (fun c => (c.server, c.ID))
      = (leadMaster :: (otherMasters ++ workers)).map (fun s =>
          (some s,
           ((r.etcdPlan leadMaster otherMasters workers currentVersion desiredVersion).stage 2).ChildLiteral
              s.Hostname))) ∧
    (∀ s ∈ leadMaster :: (otherMasters ++ workers), ∀ t ∈ leadMaster :: (otherMasters ++ workers),
      ((r.etcdPlan leadMaster otherMasters workers currentVersion desiredVersion).stage 2).ChildLiteral t.Hostname
        = ((r.etcdPlan leadMaster otherMasters workers currentVersion desiredVersion).stage 2).ChildLiteral
            s.Hostname → t = s) := by
  rw [etcdPlan_stage2, etcdPlan_stage3, etcdPlan_stage4]
  simp only [upgrade_childLiteral, restart_childLiteral]
  refine ⟨?_, ?_, ?_⟩
  · simp [restartStage, restartStageWith, restoreStage, Phase.summary, Phase.server, restartChild,
      gravityChild, Function.comp_def]
  · simp [upgradeStage, upgradeStageWith, Phase.server, upgradeChild, Function.comp_def]
  · intro s hs t ht h
    exact hostname_inj_of_nodup _ hd s hs t ht (string_append_left_cancel _ _ _ h)

/-- C2 (as the code has it): in the shutdown stage built by `etcdPlan` the lead
master's shutdown phase and the shutdown phase of every other master require
exactly the backup phase of that same server, and the shutdown phases of the
workers require nothing; the backup stage has one phase per master and none for
a worker. -/
theorem etcdPlan_shutdown_requires (r : phaseBuilder) (leadMaster : storage.Server)
    (otherMasters workers : List storage.Server) (currentVersion desiredVersion : String) :
    (((r.etcdPlan leadMaster otherMasters workers currentVersion desiredVersion).stage 1).Phases.map
        Phase.summary
      = (leadMaster :: otherMasters).map (fun s =>
          (some s,
           ((r.etcdPlan leadMaster otherMasters workers currentVersion desiredVersion).stage 1).ChildLiteral
              s.Hostname,
           [((r.etcdPlan leadMaster otherMasters workers currentVersion desiredVersion).stage 0).ChildLiteral
              s.Hostname]))
        ++ workers.map (fun s =>
          (some s,
           ((r.etcdPlan leadMaster otherMasters workers currentVersion desiredVersion).stage 1).ChildLiteral
              s.Hostname,
           []))) ∧
    (((r.etcdPlan leadMaster otherMasters workers currentVersion desiredVersion).stage 0).Phases.map
        (fun c => (c.server, c.ID))
      = (leadMaster :: otherMasters).map (fun s =>
          (some s,
           ((r.etcdPlan leadMaster otherMasters workers currentVersion desiredVersion).stage 0).ChildLiteral
              s.Hostname))) := by
  rw [etcdPlan_stage0, etcdPlan_stage1]
  simp only [backup_childLiteral, shutdown_childLiteral]
  refine ⟨?_, ?_⟩
  · simp [shutdownStage, shutdownStageWith, Phase.summary, Phase.server, shutdownChild,
      Function.comp_def]
  · simp [backupStage, Phase.server, backupChild, Function.comp_def]

/-- C2, counterexample: in the sample topology the worker has a shutdown phase
that carries no dependency at all, so not every shutdown phase depends on a
backup phase of its own server. -/
theorem etcdPlan_worker_shutdown_counterexample :
    ((sampleLead :: (sampleMasters ++ sampleWorkers)).map (fun s => s.Hostname)).Nodup ∧
    ¬ (∀ c ∈ (samplePlan.stage 1).Phases, ∃ b ∈ (samplePlan.stage 0).Phases,
        b.server = c.server ∧ b.ID ∈ c.Requires) := by
  decide

end cluster
namespace cluster
open update

/-- C3, witness: the sample topology has pairwise distinct host names. -/
theorem etcdPlan_upgrade_requires_own_shutdown_witness :
    ((sampleLead :: (sampleMasters ++ sampleWorkers)).map (fun s => s.Hostname)).Nodup ∧
    ((samplePlan.stage 2).Phases.map Phase.summary
      = (sampleLead :: (sampleMasters ++ sampleWorkers)).map (fun s =>
          (some s, (samplePlan.stage 2).ChildLiteral s.Hostname,
           [(samplePlan.stage 1).ChildLiteral s.Hostname]))) ∧
    ((samplePlan.stage 1).Phases.map (fun c => (c.server, c.ID))
      = (sampleLead :: (sampleMasters ++ sampleWorkers)).map (fun s =>
          (some s, (samplePlan.stage 1).ChildLiteral s.Hostname))) ∧
    (∀ s ∈ sampleLead :: (sampleMasters ++ sampleWorkers),
      ∀ t ∈ sampleLead :: (sampleMasters ++ sampleWorkers),
      (samplePlan.stage 1).ChildLiteral t.Hostname = (samplePlan.stage 1).ChildLiteral s.Hostname →
        t = s) :=
  ⟨by decide,
   etcdPlan_upgrade_requires_own_shutdown {} sampleLead sampleMasters sampleWorkers "3.3.11" "3.4.9"
     (by decide)⟩

/-- C4, witness: the sample topology has pairwise distinct host names. -/
theorem etcdPlan_restart_requires_witness :
    ((sampleLead :: (sampleMasters ++ sampleWorkers)).map (fun s => s.Hostname)).Nodup ∧
    ((samplePlan.stage 4).Phases.map Phase.summary
      = (some sampleLead, (samplePlan.stage 4).ChildLiteral sampleLead.Hostname,
         [(samplePlan.stage 3).ID])
        :: ((sampleMasters ++ sampleWorkers).map (fun s =>
          (some s, (samplePlan.stage 4).ChildLiteral s.Hostname,
           [(samplePlan.stage 2).ChildLiteral s.Hostname]))
          ++ [(some sampleLead, (samplePlan.stage 4).ChildLiteral constants.GravityServiceName,
               [])])) ∧
    ((samplePlan.stage 2).Phases.map (fun c => (c.server, c.ID))
      = (sampleLead :: (sampleMasters ++ sampleWorkers)).map (fun s =>
          (some s, (samplePlan.stage 2).ChildLiteral s.Hostname))) ∧
    (∀ s ∈ sampleLead :: (sampleMasters ++ sampleWorkers),
      ∀ t ∈ sampleLead :: (sampleMasters ++ sampleWorkers),
      (samplePlan.stage 2).ChildLiteral t.Hostname = (samplePlan.stage 2).ChildLiteral s.Hostname →
        t = s) :=
  ⟨by decide,
   etcdPlan_restart_requires {} sampleLead sampleMasters sampleWorkers "3.3.11" "3.4.9"
     (by decide)⟩

/-- C1 (as the code has it): in the tree returned by `etcdPlan` the lead
master's restart phase requires the restore phase and nothing else, so it
depends on restore; the restart phase of every other master and of every worker
requires only the upgrade phase of its own server. -/
theorem etcdPlan_lead_restart_after_restore (r : phaseBuilder) (leadMaster : storage.Server)
    (otherMasters workers : List storage.Server) (currentVersion desiredVersion : String) :
    (((r.etcdPlan leadMaster otherMasters workers currentVersion desiredVersion).stage 4).Phases.head?.map
        Phase.summary
      = some (some leadMaster,
          ((r.etcdPlan leadMaster otherMasters workers currentVersion desiredVersion).stage 4).ChildLiteral
            leadMaster.Hostname,
          [((r.etcdPlan leadMaster otherMasters workers currentVersion desiredVersion).stage 3).ID])) ∧
    (r.etcdPlan leadMaster otherMasters workers currentVersion desiredVersion).dependsOn
      (((r.etcdPlan leadMaster otherMasters workers currentVersion desiredVersion).stage 4).ChildLiteral
        leadMaster.Hostname)
      ((r.etcdPlan leadMaster otherMasters workers currentVersion desiredVersion).stage 3).ID ∧
    ((((r.etcdPlan leadMaster otherMasters workers currentVersion desiredVersion).stage 4).Phases.tail.take
        (otherMasters ++ workers).length).map Phase.summary
      = (otherMasters ++ workers).map (fun s =>
          (some s,
           ((r.etcdPlan leadMaster otherMasters workers currentVersion desiredVersion).stage 4).ChildLiteral
              s.Hostname,
           [((r.etcdPlan leadMaster otherMasters workers currentVersion desiredVersion).stage 2).ChildLiteral
              s.Hostname]))) := by
  have hmem : restartChild leadMaster ["etcd.restore"] ∈
      (r.etcdPlan leadMaster otherMasters workers currentVersion desiredVersion).flatten := by
    apply Phase.grandchild_mem_flatten _ (restartStage leadMaster otherMasters workers)
    · rw [etcdPlan_closed]; simp [etcdStages]
    · simp [restartStage, restartStageWith]
  refine ⟨?_, ?_, ?_⟩
  · rw [etcdPlan_stage3, etcdPlan_stage4]
    simp only [restart_childLiteral]
    simp [restartStage, restartStageWith, restoreStage, Phase.summary, Phase.server, restartChild]
  · rw [etcdPlan_stage3, etcdPlan_stage4]
    simp only [restart_childLiteral]
    exact Relation.TransGen.single ⟨_, hmem, rfl, by simp [restartChild, restoreStage]⟩
  · rw [etcdPlan_stage2, etcdPlan_stage4]
    simp only [restart_childLiteral, upgrade_childLiteral]
    have hl : ((otherMasters ++ workers).map
        (fun s => restartChild s ["etcd.upgrade." ++ s.Hostname])).length
          = (otherMasters ++ workers).length := by simp
    simp only [restartStage, restartStageWith, List.tail_cons]
    rw [← hl, List.take_left]
    simp [Phase.summary, Phase.server, restartChild, Function.comp_def]

/-- C1, counterexample: in the sample topology the restart phase of the other
master `master-2` does not reach the restore phase, neither through requirements
alone nor with the steps from a group to its children added; its only
requirement chain is its own upgrade, shutdown and backup phase. -/
theorem etcdPlan_restart_other_master_counterexample :
    ((sampleLead :: (sampleMasters ++ sampleWorkers)).map (fun s => s.Hostname)).Nodup ∧
    ∃ c ∈ (samplePlan.stage 4).Phases,
      c.server = some { AdvertiseIP := "10.0.0.2", Hostname := "master-2" } ∧
      c.Executor = some Executor.updateEtcdRestart ∧
      ¬ samplePlan.dependsOn c.ID (samplePlan.stage 3).ID ∧
      ¬ samplePlan.waitsFor c.ID (samplePlan.stage 3).ID := by
  have key : ¬ samplePlan.waitsFor "etcd.restart.master-2" "etcd.restore" := by
    intro h
    have hS := transGen_closed _
      (fun x => x ∈ ["etcd.restart.master-2", "etcd.upgrade.master-2", "etcd.shutdown.master-2",
        "etcd.backup.master-2"]) ?_ h (by decide)
    · revert hS; decide
    · intro a b ha hab
      have hall : ∀ p ∈ samplePlan.flatten,
          p.ID ∈ ["etcd.restart.master-2", "etcd.upgrade.master-2", "etcd.shutdown.master-2",
            "etcd.backup.master-2"] →
          (∀ q ∈ p.Requires, q ∈ ["etcd.restart.master-2", "etcd.upgrade.master-2",
            "etcd.shutdown.master-2", "etcd.backup.master-2"]) ∧
          (∀ c ∈ p.Phases, c.ID ∈ ["etcd.restart.master-2", "etcd.upgrade.master-2",
            "etcd.shutdown.master-2", "etcd.backup.master-2"]) := by
        decide
      rcases hab with ⟨p, hp, rfl, hb⟩ | ⟨p, hp, rfl, c, hc, rfl⟩
      · exact (hall p hp ha).1 b hb
      · exact (hall p hp ha).2 c hc
  have e1 : (restartChild { AdvertiseIP := "10.0.0.2", Hostname := "master-2" }
      ["etcd.upgrade.master-2"]).ID = "etcd.restart.master-2" := by decide
  have e2 : (samplePlan.stage 3).ID = "etcd.restore" := by decide
  have hm : restartChild { AdvertiseIP := "10.0.0.2", Hostname := "master-2" }
      ["etcd.upgrade.master-2"] ∈ (samplePlan.stage 4).Phases := by
    rw [samplePlan, etcdPlan_stage4]
    simp [restartStage, restartStageWith, sampleMasters]
  refine ⟨by decide, _, hm, rfl, rfl, ?_, ?_⟩
  · rw [e1, e2]
    intro h
    exact key (samplePlan.waitsFor_of_dependsOn _ _ h)
  · rw [e1, e2]
    exact key

end cluster
namespace cluster
open update

theorem mem_backup_ids (lead : storage.Server) (others : List storage.Server) (s : storage.Server)
    (hs : s ∈ lead :: others) :
    "etcd.backup." ++ s.Hostname ∈ (backupStage lead others).Phases.map (fun p => p.ID) :=
  List.mem_map.mpr ⟨backupChild s, List.mem_map_of_mem _ hs, rfl⟩

theorem mem_shutdown_ids (lead : storage.Server) (others workers : List storage.Server)
    (s : storage.Server) (hs : s ∈ lead :: (others ++ workers)) :
    "etcd.shutdown." ++ s.Hostname ∈ (shutdownStage lead others workers).Phases.map (fun p => p.ID) := by
  simp only [List.mem_cons, List.mem_append] at hs
  simp only [shutdownStage, shutdownStageWith, List.map_cons, List.map_append, List.map_map,
    List.mem_cons, List.mem_append, List.mem_map, Function.comp_def]
  rcases hs with rfl | hs | hs
  · exact Or.inl rfl
  · exact Or.inr (Or.inl ⟨s, hs, rfl⟩)
  · exact Or.inr (Or.inr ⟨s, hs, rfl⟩)

theorem mem_upgrade_ids (lead : storage.Server) (others workers : List storage.Server)
    (s : storage.Server) (hs : s ∈ lead :: (others ++ workers)) :
    "etcd.upgrade." ++ s.Hostname ∈ (upgradeStage lead others workers).Phases.map (fun p => p.ID) :=
  List.mem_map.mpr ⟨upgradeChild s ["etcd.shutdown." ++ s.Hostname], List.mem_map_of_mem _ hs, rfl⟩

theorem etcdPlan_stagePhases (r : phaseBuilder) (lead : storage.Server)
    (others workers : List storage.Server) (cur des : String) (k : Nat) :
    (r.etcdPlan lead others workers cur des).stagePhases k =
      match (etcdStages lead others workers).get? k with
      | some st => st :: st.Phases
      | none => [] := by
  rw [etcdPlan_closed]; rfl

/-- Every requirement of a phase at stage `k` of the etcd sub-plan names a phase
at a strictly earlier stage. -/
theorem etcdPlan_requires_earlier (r : phaseBuilder) (lead : storage.Server)
    (others workers : List storage.Server) (cur des : String) (k : Nat) (p : Phase)
    (hp : p ∈ (r.etcdPlan lead others workers cur des).stagePhases k) (q : String)
    (hq : q ∈ p.Requires) :
    ∃ j, j < k ∧ q ∈ ((r.etcdPlan lead others workers cur des).stagePhases j).map (fun t => t.ID) := by
  rw [etcdPlan_stagePhases] at hp
  rcases k with _ | _ | _ | _ | _ | k
  · simp only [etcdStages, List.get?_cons_zero, backupStage, List.mem_cons, List.mem_map] at hp
    rcases hp with rfl | ⟨s, _, rfl⟩ <;> simp [backupChild] at hq
  · simp only [etcdStages, List.get?_cons_succ, List.get?_cons_zero, shutdownStage, shutdownStageWith,
      List.mem_cons, List.mem_append, List.mem_map] at hp
    refine ⟨0, by omega, ?_⟩
    rw [etcdPlan_stagePhases]
    simp only [etcdStages, List.get?_cons_zero, List.map_cons]
    apply List.mem_cons_of_mem
    rcases hp with rfl | rfl | ⟨s, hs, rfl⟩ | ⟨s, _, rfl⟩
    · simp at hq
    · simp only [shutdownChild, List.mem_singleton] at hq
      subst hq
      exact mem_backup_ids _ _ _ (List.mem_cons_self _ _)
    · simp only [shutdownChild, List.mem_singleton] at hq
      subst hq
      exact mem_backup_ids _ _ _ (List.mem_cons_of_mem _ hs)
    · simp [shutdownChild] at hq
  · simp only [etcdStages, List.get?_cons_succ, List.get?_cons_zero, upgradeStage, upgradeStageWith,
      List.mem_cons, List.mem_map] at hp
    refine ⟨1, by omega, ?_⟩
    rw [etcdPlan_stagePhases]
    simp only [etcdStages, List.get?_cons_succ, List.get?_cons_zero, List.map_cons]
    apply List.mem_cons_of_mem
    rcases hp with rfl | ⟨s, hs, rfl⟩
    · simp at hq
    · simp only [upgradeChild, List.mem_singleton] at hq
      subst hq
      exact mem_shutdown_ids _ _ _ _ (by simpa using hs)
  · simp only [etcdStages, List.get?_cons_succ, List.get?_cons_zero, restoreStage,
      List.mem_cons, List.mem_singleton, List.not_mem_nil, or_false] at hp
    refine ⟨2, by omega, ?_⟩
    rw [etcdPlan_stagePhases]
    simp only [etcdStages, List.get?_cons_succ, List.get?_cons_zero, List.map_cons]
    subst hp
    simp only [List.mem_singleton] at hq
    subst hq
    exact List.mem_cons_self _ _
  · simp only [etcdStages, List.get?_cons_succ, List.get?_cons_zero, restartStage, restartStageWith,
      List.mem_cons, List.mem_append, List.mem_map, List.mem_singleton, List.not_mem_nil, or_false] at hp
    rcases hp with rfl | rfl | ⟨s, hs, rfl⟩ | rfl
    · simp at hq
    · refine ⟨3, by omega, ?_⟩
      rw [etcdPlan_stagePhases]
      simp only [restartChild, List.mem_singleton] at hq
      subst hq
      simp [etcdStages, restoreStage]
    · refine ⟨2, by omega, ?_⟩
      rw [etcdPlan_stagePhases]
      simp only [etcdStages, List.get?_cons_succ, List.get?_cons_zero, List.map_cons]
      apply List.mem_cons_of_mem
      simp only [restartChild, List.mem_singleton] at hq
      subst hq
      exact mem_upgrade_ids _ _ _ _ (List.mem_cons_of_mem _ (by simpa using hs))
    · simp [gravityChild] at hq
  · simp [etcdStages] at hp

end cluster
namespace update

theorem Phase.stagePhases_subset_flatten (plan : Phase) (k : Nat) (p : Phase)
    (hp : p ∈ plan.stagePhases k) : p ∈ plan.flatten := by
  unfold Phase.stagePhases at hp
  cases hg : plan.Phases.get? k with
  | none =>
    rw [hg] at hp
    exact absurd hp (List.not_mem_nil _)
  | some st =>
    rw [hg] at hp
    have hst : st ∈ plan.Phases := List.get?_mem hg
    rcases List.mem_cons.mp hp with rfl | h
    · exact plan.child_mem_flatten _ hst
    · exact plan.grandchild_mem_flatten st p hst h

end update

namespace cluster
open update

theorem backupStage_leaves (lead : storage.Server) (others : List storage.Server) :
    ∀ c ∈ (backupStage lead others).Phases, c.Phases = [] := by
  intro c hc
  obtain ⟨s, _, rfl⟩ := List.mem_map.mp hc
  rfl

theorem shutdownStage_leaves (lead : storage.Server) (others workers : List storage.Server) :
    ∀ c ∈ (shutdownStage lead others workers).Phases, c.Phases = [] := by
  intro c hc
  simp only [shutdownStage, shutdownStageWith, List.mem_cons, List.mem_append, List.mem_map] at hc
  rcases hc with rfl | ⟨s, _, rfl⟩ | ⟨s, _, rfl⟩ <;> rfl

theorem upgradeStage_leaves (lead : storage.Server) (others workers : List storage.Server) :
    ∀ c ∈ (upgradeStage lead others workers).Phases, c.Phases = [] := by
  intro c hc
  obtain ⟨s, _, rfl⟩ := List.mem_map.mp hc
  rfl

theorem restartStage_leaves (lead : storage.Server) (others workers : List storage.Server) :
    ∀ c ∈ (restartStage lead others workers).Phases, c.Phases = [] := by
  intro c hc
  simp only [restartStage, restartStageWith, List.mem_cons, List.mem_append, List.mem_map,
    List.not_mem_nil, or_false] at hc
  rcases hc with rfl | ⟨s, _, rfl⟩ | rfl <;> rfl

/-- The pre-order listing of the etcd sub-plan: the root, then every stage
followed by its children. -/
theorem etcdPlan_flatten (r : phaseBuilder) (lead : storage.Server)
    (others workers : List storage.Server) (cur des : String) :
    (r.etcdPlan lead others workers cur des).flatten =
      r.etcdPlan lead others workers cur des ::
        ((backupStage lead others :: (backupStage lead others).Phases) ++
         ((shutdownStage lead others workers :: (shutdownStage lead others workers).Phases) ++
          ((upgradeStage lead others workers :: (upgradeStage lead others workers).Phases) ++
           (restoreStage lead ::
            (restartStage lead others workers :: (restartStage lead others workers).Phases))))) := by
  rw [Phase.flatten_eq]
  congr 1
  rw [etcdPlan_closed]
  simp only [etcdStages, flattenAll_cons, flattenAll_nil, Phase.flatten_eq, List.append_nil,
    flattenAll_leaves _ (backupStage_leaves lead others),
    flattenAll_leaves _ (shutdownStage_leaves lead others workers),
    flattenAll_leaves _ (upgradeStage_leaves lead others workers),
    flattenAll_leaves _ (restartStage_leaves lead others workers)]
  rfl

theorem etcdPlan_mem_flatten (r : phaseBuilder) (lead : storage.Server)
    (others workers : List storage.Server) (cur des : String) (p : Phase)
    (hp : p ∈ (r.etcdPlan lead others workers cur des).flatten) :
    p = r.etcdPlan lead others workers cur des ∨
      ∃ k, k < 5 ∧ p ∈ (r.etcdPlan lead others workers cur des).stagePhases k := by
  rw [etcdPlan_flatten] at hp
  simp only [List.mem_cons, List.mem_append] at hp
  simp only [etcdPlan_stagePhases]
  rcases hp with h | (h | h) | (h | h) | (h | h) | h | h | h
  · exact Or.inl h
  · exact Or.inr ⟨0, by omega, by simp [etcdStages, h]⟩
  · exact Or.inr ⟨0, by omega, by simp [etcdStages, h]⟩
  · exact Or.inr ⟨1, by omega, by simp [etcdStages, h]⟩
  · exact Or.inr ⟨1, by omega, by simp [etcdStages, h]⟩
  · exact Or.inr ⟨2, by omega, by simp [etcdStages, h]⟩
  · exact Or.inr ⟨2, by omega, by simp [etcdStages, h]⟩
  · exact Or.inr ⟨3, by omega, by simp [etcdStages, h]⟩
  · exact Or.inr ⟨4, by omega, by simp [etcdStages, h]⟩
  · exact Or.inr ⟨4, by omega, by simp [etcdStages, h]⟩

/-- C8: every dependency reference attached to a phase of the tree returned by
`etcdPlan` is the identifier of a phase present in that tree. -/
theorem etcdPlan_requires_present (r : phaseBuilder) (leadMaster : storage.Server)
    (otherMasters workers : List storage.Server) (currentVersion desiredVersion : String) :
    ∀ p ∈ (r.etcdPlan leadMaster otherMasters workers currentVersion desiredVersion).flatten,
      ∀ q ∈ p.Requires,
        ∃ t ∈ (r.etcdPlan leadMaster otherMasters workers currentVersion desiredVersion).flatten,
          t.ID = q := by
  intro p hp q hq
  rcases etcdPlan_mem_flatten _ _ _ _ _ _ p hp with rfl | ⟨k, _, hk⟩
  · rw [etcdPlan_closed] at hq
    simp at hq
  · obtain ⟨j, _, hj⟩ := etcdPlan_requires_earlier _ _ _ _ _ _ k p hk q hq
    obtain ⟨t, ht, rfl⟩ := List.mem_map.mp hj
    exact ⟨t, Phase.stagePhases_subset_flatten _ j t ht, rfl⟩

end cluster
namespace cluster
open update

/-- C5: in the tree returned by `etcdPlan` the restore phase is one leaf phase
(no children) that targets the lead master, the shutdown stage has one child per
server (lead master, other masters, workers), and restore cannot start before
any of them has completed: every child of the shutdown stage is reached from
restore through requirements and through the step from a group to its
children. -/
theorem etcdPlan_restore_after_shutdown (r : phaseBuilder) (leadMaster : storage.Server)
    (otherMasters workers : List storage.Server) (currentVersion desiredVersion : String) :
    ((r.etcdPlan leadMaster otherMasters workers currentVersion desiredVersion).stage 3).Phases = [] ∧
    ((r.etcdPlan leadMaster otherMasters workers currentVersion desiredVersion).stage 3).Executor
      = some Executor.updateEtcdRestore ∧
    ((r.etcdPlan leadMaster otherMasters workers currentVersion desiredVersion).stage 3).server
      = some leadMaster ∧
    ((r.etcdPlan leadMaster otherMasters workers currentVersion desiredVersion).flatten.filter
      (fun p => decide (p.Executor = some Executor.updateEtcdRestore))).length = 1 ∧
    ((r.etcdPlan leadMaster otherMasters workers currentVersion desiredVersion).stage 1).Phases.map
      (fun c => c.server) = (leadMaster :: (otherMasters ++ workers)).map some ∧
    ∀ c ∈ ((r.etcdPlan leadMaster otherMasters workers currentVersion desiredVersion).stage 1).Phases,
      (r.etcdPlan leadMaster otherMasters workers currentVersion desiredVersion).waitsFor
        ((r.etcdPlan leadMaster otherMasters workers currentVersion desiredVersion).stage 3).ID c.ID := by
  refine ⟨?_, ?_, ?_, ?_, ?_, ?_⟩
  · rw [etcdPlan_stage3]; rfl
  · rw [etcdPlan_stage3]; rfl
  · rw [etcdPlan_stage3]; rfl
  · rw [etcdPlan_flatten, etcdPlan_closed]
    simp [List.filter_cons, List.filter_append, List.filter_map, backupStage, shutdownStage,
      shutdownStageWith, upgradeStage, upgradeStageWith, restoreStage, restartStage,
      restartStageWith, backupChild, shutdownChild, upgradeChild, restartChild, gravityChild,
      Function.comp_def]
  · rw [etcdPlan_stage1]
    simp [shutdownStage, shutdownStageWith, Phase.server, shutdownChild, Function.comp_def]
  · intro c hc
    rw [etcdPlan_stage1] at hc
    rw [etcdPlan_stage3]
    -- the shutdown child belongs to some server of the fleet
    have hs : ∃ s ∈ leadMaster :: (otherMasters ++ workers), c.ID = "etcd.shutdown." ++ s.Hostname := by
      simp only [shutdownStage, shutdownStageWith, List.mem_cons, List.mem_append, List.mem_map] at hc
      rcases hc with rfl | ⟨s, hs, rfl⟩ | ⟨s, hs, rfl⟩
      · exact ⟨leadMaster, List.mem_cons_self _ _, rfl⟩
      · exact ⟨s, List.mem_cons_of_mem _ (List.mem_append_left _ hs), rfl⟩
      · exact ⟨s, List.mem_cons_of_mem _ (List.mem_append_right _ hs), rfl⟩
    obtain ⟨s, hs, hid⟩ := hs
    rw [hid]
    have hstages : ∀ st ∈ etcdStages leadMaster otherMasters workers,
        st ∈ (r.etcdPlan leadMaster otherMasters workers currentVersion desiredVersion).Phases := by
      intro st hst
      rw [etcdPlan_closed]; exact hst
    have hrestore : restoreStage leadMaster ∈
        (r.etcdPlan leadMaster otherMasters workers currentVersion desiredVersion).flatten :=
      Phase.child_mem_flatten _ _ (hstages _ (by simp [etcdStages]))
    have hupgrade : upgradeStage leadMaster otherMasters workers ∈
        (r.etcdPlan leadMaster otherMasters workers currentVersion desiredVersion).flatten :=
      Phase.child_mem_flatten _ _ (hstages _ (by simp [etcdStages]))
    have hchild : upgradeChild s ["etcd.shutdown." ++ s.Hostname] ∈
        (upgradeStage leadMaster otherMasters workers).Phases :=
      List.mem_map_of_mem _ hs
    have hchildf : upgradeChild s ["etcd.shutdown." ++ s.Hostname] ∈
        (r.etcdPlan leadMaster otherMasters workers currentVersion desiredVersion).flatten :=
      Phase.grandchild_mem_flatten _ _ _ (hstages _ (by simp [etcdStages])) hchild
    -- restore requires the upgrade stage, whose child for `s` requires the shutdown of `s`
    have e1 : (r.etcdPlan leadMaster otherMasters workers currentVersion desiredVersion).requires
        (restoreStage leadMaster).ID "etcd.upgrade" :=
      ⟨_, hrestore, rfl, by simp [restoreStage]⟩
    have e2 : (r.etcdPlan leadMaster otherMasters workers currentVersion desiredVersion).hasChild
        "etcd.upgrade" ("etcd.upgrade." ++ s.Hostname) :=
      ⟨_, hupgrade, rfl, _, hchild, rfl⟩
    have e3 : (r.etcdPlan leadMaster otherMasters workers currentVersion desiredVersion).requires
        ("etcd.upgrade." ++ s.Hostname) ("etcd.shutdown." ++ s.Hostname) :=
      ⟨_, hchildf, rfl, by simp [upgradeChild]⟩
    exact Relation.TransGen.tail (Relation.TransGen.tail (Relation.TransGen.single (Or.inl e1))
      (Or.inr e2)) (Or.inl e3)

end cluster
namespace cluster
open update

/-! ## The migration sub-plan -/

/-- What `migration` returns when there are no legacy links to migrate (links
empty, or trusted clusters already defined) and `NeedMigrateRoles` reports that
no role migration is needed: a grouping phase all the same, the phase
`migration` with no executor, whose only child is the labels sub-phase. -/
theorem migration_labels_only (r : phaseBuilder) (NeedMigrateRoles : List Role → Bool)
    (leadMaster : storage.Server)
    (hlinks : r.planConfig.links = [] ∨ r.planConfig.trustedClusters ≠ [])
    (hroles : NeedMigrateRoles r.planConfig.roles = false) :
    ∃ root, r.migration NeedMigrateRoles leadMaster = some root ∧
      root.ID = "migration" ∧ root.Executor = none ∧
      root.Phases.map (fun p => (p.ID, p.Executor, p.Requires))
        = [(root.ChildLiteral "labels", some Executor.updateLabels, [])] := by
  have hc : ¬ (r.planConfig.links.length ≠ 0 ∧ r.planConfig.trustedClusters.length = 0) := by
    rintro ⟨h1, h2⟩
    rcases hlinks with h | h
    · exact h1 (by simp [h])
    · exact h (List.length_eq_zero.mp h2)
  have hm : r.migration NeedMigrateRoles leadMaster =
      some { ID := "migration", Description := "Perform system database migration",
             Phases := [{ Phases := [], ID := "migration" ++ "." ++ "labels",
                          Description := "Update node labels",
                          Executor := some Executor.updateLabels }] } := by
    unfold phaseBuilder.migration
    simp only [hc, hroles, if_false, List.nil_append, List.length_singleton]
    rfl
  exact ⟨_, hm, rfl, rfl, rfl⟩

/-- The empty configuration has no links and needs no role migration, and
`migration` returns the grouping phase with the labels sub-phase for it. -/
theorem migration_labels_only_witness :
    ((({} : phaseBuilder).planConfig.links = [] ∨ ({} : phaseBuilder).planConfig.trustedClusters ≠ []) ∧
      (fun _ => false) ({} : phaseBuilder).planConfig.roles = false) ∧
    ∃ root, ({} : phaseBuilder).migration (fun _ => false) sampleLead = some root ∧
      root.ID = "migration" ∧ root.Executor = none ∧
      root.Phases.map (fun p => (p.ID, p.Executor, p.Requires))
        = [(root.ChildLiteral "labels", some Executor.updateLabels, [])] :=
  ⟨⟨Or.inl rfl, rfl⟩, migration_labels_only {} (fun _ => false) sampleLead (Or.inl rfl) rfl⟩

/-- C10: with no links, no trusted clusters, no roles and a `NeedMigrateRoles`
that reports no migration, there is no migration to perform, and yet
`migration` does not return an absent phase: it returns the grouping phase
with the single child `migration.labels`, because the labels sub-phase is
appended without a condition. -/
theorem migration_not_absent :
    (({} : phaseBuilder).planConfig.links = [] ∨ ({} : phaseBuilder).planConfig.trustedClusters ≠ []) ∧
    (fun _ => false) ({} : phaseBuilder).planConfig.roles = false ∧
    (({} : phaseBuilder).migration (fun _ => false) sampleLead).isSome = true ∧
    ((({} : phaseBuilder).migration (fun _ => false) sampleLead).map
      (fun root => root.Phases.map (fun p => p.ID))) = some ["migration.labels"] := by
  refine ⟨Or.inl rfl, rfl, ?_, ?_⟩ <;> decide

end cluster
namespace cluster
open update

/-! ## Ranks of the identifiers of the etcd sub-plan -/

theorem rank_root : etcdRank "etcd" = 10 := by decide
theorem rank_backup : etcdRank "etcd.backup" = 1 := by decide
theorem rank_shutdown : etcdRank "etcd.shutdown" = 3 := by decide
theorem rank_upgrade : etcdRank "etcd.upgrade" = 5 := by decide
theorem rank_restore : etcdRank "etcd.restore" = 7 := by decide
theorem rank_restart : etcdRank "etcd.restart" = 9 := by decide

theorem rank_restart_child (h : String) : etcdRank ("etcd.restart." ++ h) = 8 := by
  unfold etcdRank etcdRankChars
  rw [String.data_append]
  have d0 : "etcd".data = ['e','t','c','d'] := by decide
  have d1 : "etcd.restart".data = ['e','t','c','d','.','r','e','s','t','a','r','t'] := by decide
  have d2 : "etcd.restart.".data = ['e','t','c','d','.','r','e','s','t','a','r','t','.'] := by decide
  simp [d0, d1, d2]

theorem rank_upgrade_child (h : String) : etcdRank ("etcd.upgrade." ++ h) = 4 := by
  unfold etcdRank etcdRankChars
  rw [String.data_append]
  have d0 : "etcd".data = ['e','t','c','d'] := by decide
  have d1 : "etcd.restart".data = ['e','t','c','d','.','r','e','s','t','a','r','t'] := by decide
  have d2 : "etcd.restart.".data = ['e','t','c','d','.','r','e','s','t','a','r','t','.'] := by decide
  have d3 : "etcd.restore".data = ['e','t','c','d','.','r','e','s','t','o','r','e'] := by decide
  have d4 : "etcd.upgrade".data = ['e','t','c','d','.','u','p','g','r','a','d','e'] := by decide
  have d5 : "etcd.upgrade.".data = ['e','t','c','d','.','u','p','g','r','a','d','e','.'] := by decide
  simp [d0, d1, d2, d3, d4, d5]

theorem rank_shutdown_child (h : String) : etcdRank ("etcd.shutdown." ++ h) = 2 := by
  unfold etcdRank etcdRankChars
  rw [String.data_append]
  have d0 : "etcd".data = ['e','t','c','d'] := by decide
  have d1 : "etcd.restart".data = ['e','t','c','d','.','r','e','s','t','a','r','t'] := by decide
  have d2 : "etcd.restart.".data = ['e','t','c','d','.','r','e','s','t','a','r','t','.'] := by decide
  have d3 : "etcd.restore".data = ['e','t','c','d','.','r','e','s','t','o','r','e'] := by decide
  have d4 : "etcd.upgrade".data = ['e','t','c','d','.','u','p','g','r','a','d','e'] := by decide
  have d5 : "etcd.upgrade.".data = ['e','t','c','d','.','u','p','g','r','a','d','e','.'] := by decide
  have d6 : "etcd.shutdown".data = ['e','t','c','d','.','s','h','u','t','d','o','w','n'] := by decide
  have d7 : "etcd.shutdown.".data = ['e','t','c','d','.','s','h','u','t','d','o','w','n','.'] := by decide
  simp [d0, d1, d2, d3, d4, d5, d6, d7]

theorem rank_backup_child (h : String) : etcdRank ("etcd.backup." ++ h) = 0 := by
  unfold etcdRank etcdRankChars
  rw [String.data_append]
  have d0 : "etcd".data = ['e','t','c','d'] := by decide
  have d1 : "etcd.restart".data = ['e','t','c','d','.','r','e','s','t','a','r','t'] := by decide
  have d2 : "etcd.restart.".data = ['e','t','c','d','.','r','e','s','t','a','r','t','.'] := by decide
  have d3 : "etcd.restore".data = ['e','t','c','d','.','r','e','s','t','o','r','e'] := by decide
  have d4 : "etcd.upgrade".data = ['e','t','c','d','.','u','p','g','r','a','d','e'] := by decide
  have d5 : "etcd.upgrade.".data = ['e','t','c','d','.','u','p','g','r','a','d','e','.'] := by decide
  have d6 : "etcd.shutdown".data = ['e','t','c','d','.','s','h','u','t','d','o','w','n'] := by decide
  have d7 : "etcd.shutdown.".data = ['e','t','c','d','.','s','h','u','t','d','o','w','n','.'] := by decide
  have d8 : "etcd.backup".data = ['e','t','c','d','.','b','a','c','k','u','p'] := by decide
  have d9 : "etcd.backup.".data = ['e','t','c','d','.','b','a','c','k','u','p','.'] := by decide
  simp [d0, d1, d2, d3, d4, d5, d6, d7, d8, d9]

end cluster
namespace cluster
open update

/-- The shapes a phase of the etcd sub-plan can have. -/
theorem etcdPlan_phase_cases (r : phaseBuilder) (lead : storage.Server)
    (others workers : List storage.Server) (cur des : String) (p : Phase)
    (hp : p ∈ (r.etcdPlan lead others workers cur des).flatten) :
    p = r.etcdPlan lead others workers cur des ∨
    p = backupStage lead others ∨
    (∃ s, p = backupChild s) ∨
    p = shutdownStage lead others workers ∨
    (∃ s b, p = shutdownChild s b ["etcd.backup." ++ s.Hostname]) ∨
    (∃ s, p = shutdownChild s false []) ∨
    p = upgradeStage lead others workers ∨
    (∃ s, p = upgradeChild s ["etcd.shutdown." ++ s.Hostname]) ∨
    p = restoreStage lead ∨
    p = restartStage lead others workers ∨
    p = restartChild lead ["etcd.restore"] ∨
    (∃ s, p = restartChild s ["etcd.upgrade." ++ s.Hostname]) ∨
    p = gravityChild lead := by
  rw [etcdPlan_flatten] at hp
  simp only [List.mem_cons, List.mem_append, backupStage, shutdownStage, shutdownStageWith,
    upgradeStage, upgradeStageWith, restartStage, restartStageWith, List.mem_map,
    List.not_mem_nil, or_false] at hp
  rcases hp with h | (h | ⟨s, _, h⟩) | (h | h | ⟨s, _, h⟩ | ⟨s, _, h⟩) | (h | ⟨s, _, h⟩) | h | h |
    h | ⟨s, _, h⟩ | h
  · exact Or.inl h
  · exact Or.inr (Or.inl h)
  · exact Or.inr (Or.inr (Or.inl ⟨s, h.symm⟩))
  · exact Or.inr (Or.inr (Or.inr (Or.inl h)))
  · exact Or.inr (Or.inr (Or.inr (Or.inr (Or.inl ⟨lead, true, h⟩))))
  · exact Or.inr (Or.inr (Or.inr (Or.inr (Or.inl ⟨s, false, h.symm⟩))))
  · exact Or.inr (Or.inr (Or.inr (Or.inr (Or.inr (Or.inl ⟨s, h.symm⟩)))))
  · exact Or.inr (Or.inr (Or.inr (Or.inr (Or.inr (Or.inr (Or.inl h))))))
  · exact Or.inr (Or.inr (Or.inr (Or.inr (Or.inr (Or.inr (Or.inr (Or.inl ⟨s, h.symm⟩)))))))
  · exact Or.inr (Or.inr (Or.inr (Or.inr (Or.inr (Or.inr (Or.inr (Or.inr (Or.inl h))))))))
  · exact Or.inr (Or.inr (Or.inr (Or.inr (Or.inr (Or.inr (Or.inr (Or.inr (Or.inr (Or.inl h)))))))))
  · exact Or.inr (Or.inr (Or.inr (Or.inr (Or.inr (Or.inr (Or.inr (Or.inr (Or.inr
      (Or.inr (Or.inl h))))))))))
  · exact Or.inr (Or.inr (Or.inr (Or.inr (Or.inr (Or.inr (Or.inr (Or.inr (Or.inr
      (Or.inr (Or.inr (Or.inl ⟨s, h.symm⟩)))))))))))
  · exact Or.inr (Or.inr (Or.inr (Or.inr (Or.inr (Or.inr (Or.inr (Or.inr (Or.inr
      (Or.inr (Or.inr (Or.inr h)))))))))))

/-- A requirement ranks strictly below the phase that requires it. -/
theorem etcdPlan_requires_rank (r : phaseBuilder) (lead : storage.Server)
    (others workers : List storage.Server) (cur des : String) (a b : String)
    (h : (r.etcdPlan lead others workers cur des).requires a b) : etcdRank b < etcdRank a := by
  obtain ⟨p, hp, rfl, hb⟩ := h
  rcases etcdPlan_phase_cases _ _ _ _ _ _ p hp with rfl | rfl | ⟨s, rfl⟩ | rfl | ⟨s, b', rfl⟩ |
    ⟨s, rfl⟩ | rfl | ⟨s, rfl⟩ | rfl | rfl | rfl | ⟨s, rfl⟩ | rfl
  · rw [etcdPlan_closed] at hb; simp at hb
  · simp [backupStage] at hb
  · simp [backupChild] at hb
  · simp [shutdownStage, shutdownStageWith] at hb
  · simp only [shutdownChild, List.mem_singleton] at hb
    subst hb
    simp [shutdownChild, rank_backup_child, rank_shutdown_child]
  · simp [shutdownChild] at hb
  · simp [upgradeStage, upgradeStageWith] at hb
  · simp only [upgradeChild, List.mem_singleton] at hb
    subst hb
    simp [upgradeChild, rank_shutdown_child, rank_upgrade_child]
  · simp only [restoreStage, List.mem_singleton] at hb
    subst hb
    simp [restoreStage, rank_upgrade, rank_restore]
  · simp [restartStage, restartStageWith] at hb
  · simp only [restartChild, List.mem_singleton] at hb
    subst hb
    simp [restartChild, rank_restore, rank_restart_child]
  · simp only [restartChild, List.mem_singleton] at hb
    subst hb
    simp [restartChild, rank_upgrade_child, rank_restart_child]
  · simp [gravityChild] at hb

/-- A child ranks strictly below its parent. -/
theorem etcdPlan_hasChild_rank (r : phaseBuilder) (lead : storage.Server)
    (others workers : List storage.Server) (cur des : String) (a b : String)
    (h : (r.etcdPlan lead others workers cur des).hasChild a b) : etcdRank b < etcdRank a := by
  obtain ⟨p, hp, rfl, c, hc, rfl⟩ := h
  rcases etcdPlan_phase_cases _ _ _ _ _ _ p hp with rfl | rfl | ⟨s, rfl⟩ | rfl | ⟨s, b', rfl⟩ |
    ⟨s, rfl⟩ | rfl | ⟨s, rfl⟩ | rfl | rfl | rfl | ⟨s, rfl⟩ | rfl
  · rw [etcdPlan_closed] at hc ⊢
    simp only [etcdStages, List.mem_cons, List.not_mem_nil, or_false] at hc
    rcases hc with rfl | rfl | rfl | rfl | rfl
    · simp [backupStage, rank_backup, rank_root]
    · simp [shutdownStage, shutdownStageWith, rank_shutdown, rank_root]
    · simp [upgradeStage, upgradeStageWith, rank_upgrade, rank_root]
    · simp [restoreStage, rank_restore, rank_root]
    · simp [restartStage, restartStageWith, rank_restart, rank_root]
  · obtain ⟨s, _, rfl⟩ := List.mem_map.mp hc
    simp [backupStage, backupChild, rank_backup, rank_backup_child]
  · simp [backupChild] at hc
  · simp only [shutdownStage, shutdownStageWith, List.mem_cons, List.mem_append, List.mem_map] at hc
    rcases hc with rfl | ⟨s, _, rfl⟩ | ⟨s, _, rfl⟩ <;>
      simp [shutdownStage, shutdownStageWith, shutdownChild, rank_shutdown, rank_shutdown_child]
  · simp [shutdownChild] at hc
  · simp [shutdownChild] at hc
  · obtain ⟨s, _, rfl⟩ := List.mem_map.mp hc
    simp [upgradeStage, upgradeStageWith, upgradeChild, rank_upgrade, rank_upgrade_child]
  · simp [upgradeChild] at hc
  · simp [restoreStage] at hc
  · simp only [restartStage, restartStageWith, List.mem_cons, List.mem_append, List.mem_map,
      List.not_mem_nil, or_false] at hc
    rcases hc with rfl | ⟨s, _, rfl⟩ | rfl <;>
      simp [restartStage, restartStageWith, restartChild, gravityChild, rank_restart,
        rank_restart_child]
  · simp [restartChild] at hc
  · simp [restartChild] at hc
  · simp [gravityChild] at hc

/-- C7: in the tree returned by `etcdPlan` every requirement of a phase at stage
`k` (the stage or one of its children, stages counted from zero in the order
backup, shutdown, upgrade, restore, restart) names a phase at a strictly earlier
stage; and the tree edges together with the requirements have no cycle: no
phase is reached from itself. -/
theorem etcdPlan_acyclic (r : phaseBuilder) (leadMaster : storage.Server)
    (otherMasters workers : List storage.Server) (currentVersion desiredVersion : String) :
    (∀ k, ∀ p ∈ (r.etcdPlan leadMaster otherMasters workers currentVersion desiredVersion).stagePhases k,
      ∀ q ∈ p.Requires, ∃ j, j < k ∧
        q ∈ ((r.etcdPlan leadMaster otherMasters workers currentVersion desiredVersion).stagePhases j).map
          (fun t => t.ID)) ∧
    (∀ a, ¬ Relation.TransGen
      (fun a b =>
        (r.etcdPlan leadMaster otherMasters workers currentVersion desiredVersion).requires a b ∨
        (r.etcdPlan leadMaster otherMasters workers currentVersion desiredVersion).hasChild a b) a a) := by
  refine ⟨fun k p hp q hq => etcdPlan_requires_earlier _ _ _ _ _ _ k p hp q hq, ?_⟩
  intro a h
  have hlt : ∀ x y, Relation.TransGen
      (fun a b =>
        (r.etcdPlan leadMaster otherMasters workers currentVersion desiredVersion).requires a b ∨
        (r.etcdPlan leadMaster otherMasters workers currentVersion desiredVersion).hasChild a b) x y →
      etcdRank y < etcdRank x := by
    intro x y hxy
    induction hxy with
    | single e =>
      rcases e with e | e
      · exact etcdPlan_requires_rank _ _ _ _ _ _ _ _ e
      · exact etcdPlan_hasChild_rank _ _ _ _ _ _ _ _ e
    | tail _ e ih =>
      rcases e with e | e
      · exact lt_trans (etcdPlan_requires_rank _ _ _ _ _ _ _ _ e) ih
      · exact lt_trans (etcdPlan_hasChild_rank _ _ _ _ _ _ _ _ e) ih
  exact lt_irrefl _ (hlt a a h)

end cluster
namespace cluster
open update

/-- The identifiers of the etcd sub-plan in pre-order. -/
theorem etcdPlan_ids (r : phaseBuilder) (lead : storage.Server)
    (others workers : List storage.Server) (cur des : String) :
    (r.etcdPlan lead others workers cur des).flatten.map (fun p => p.ID) =
      "etcd" ::
        (("etcd.backup" :: ((lead :: others).map (fun s => s.Hostname)).map (fun h => "etcd.backup." ++ h)) ++
         (("etcd.shutdown" ::
            ((lead :: (others ++ workers)).map (fun s => s.Hostname)).map (fun h => "etcd.shutdown." ++ h)) ++
          (("etcd.upgrade" ::
            ((lead :: (others ++ workers)).map (fun s => s.Hostname)).map (fun h => "etcd.upgrade." ++ h)) ++
           ("etcd.restore" :: "etcd.restart" ::
            (((lead :: (others ++ workers)).map (fun s => s.Hostname)) ++
              [constants.GravityServiceName]).map (fun h => "etcd.restart." ++ h))))) := by
  rw [etcdPlan_flatten]
  have e : (r.etcdPlan lead others workers cur des).ID = "etcd" := by rw [etcdPlan_closed]
  simp [e, backupStage, shutdownStage, shutdownStageWith, upgradeStage, upgradeStageWith,
    restoreStage, restartStage, restartStageWith, backupChild, shutdownChild, upgradeChild,
    restartChild, gravityChild, Function.comp_def]

theorem nodup_map_append_left (pre : String) (hs : List String) (h : hs.Nodup) :
    (hs.map (fun x => pre ++ x)).Nodup :=
  List.Nodup.map (fun _ _ e => string_append_left_cancel pre _ _ e) h

theorem disjoint_of_rank (l1 l2 : List String) (n : Nat)
    (h1 : ∀ x ∈ l1, etcdRank x < n) (h2 : ∀ y ∈ l2, n ≤ etcdRank y) : l1.Disjoint l2 := by
  intro x hx1 hx2
  have a := h1 x hx1
  have b := h2 x hx2
  omega

/-- C9 (as the code has it): when the host names of the lead master, the other
masters and the workers are pairwise distinct and none of them is
`constants.GravityServiceName`, all phases of the tree returned by `etcdPlan`
(the root, the five stages and every child of a stage, the restart of the
management service included) have pairwise distinct identifiers. -/
theorem etcdPlan_ids_nodup (r : phaseBuilder) (leadMaster : storage.Server)
    (otherMasters workers : List storage.Server) (currentVersion desiredVersion : String)
    (hd : ((leadMaster :: (otherMasters ++ workers)).map (fun s => s.Hostname)).Nodup)
    (hg : constants.GravityServiceName ∉
      (leadMaster :: (otherMasters ++ workers)).map (fun s => s.Hostname)) :
    ((r.etcdPlan leadMaster otherMasters workers currentVersion desiredVersion).flatten.map
      (fun p => p.ID)).Nodup := by
  rw [etcdPlan_ids]
  have hm : ((leadMaster :: otherMasters).map (fun s => s.Hostname)).Nodup := by
    have hsub : List.Sublist ((leadMaster :: otherMasters).map (fun s => s.Hostname))
        ((leadMaster :: (otherMasters ++ workers)).map (fun s => s.Hostname)) :=
      List.Sublist.map _ (List.Sublist.cons₂ _ (List.sublist_append_left _ _))
    exact hd.sublist hsub
  have hr : (((leadMaster :: (otherMasters ++ workers)).map (fun s => s.Hostname)) ++
      [constants.GravityServiceName]).Nodup := by
    rw [List.nodup_append]
    refine ⟨hd, List.nodup_singleton _, ?_⟩
    intro x hx hx2
    rw [List.mem_singleton] at hx2
    subst hx2
    exact hg hx
  -- ranks of the members of each segment
  have rB : ∀ x ∈ "etcd.backup" ::
      ((leadMaster :: otherMasters).map (fun s => s.Hostname)).map (fun h => "etcd.backup." ++ h),
      etcdRank x < 2 := by
    intro x hx
    rcases List.mem_cons.mp hx with rfl | hx
    · rw [rank_backup]; omega
    · obtain ⟨h, _, rfl⟩ := List.mem_map.mp hx
      rw [rank_backup_child]; omega
  have rS : ∀ x ∈ "etcd.shutdown" ::
      ((leadMaster :: (otherMasters ++ workers)).map (fun s => s.Hostname)).map
        (fun h => "etcd.shutdown." ++ h), 2 ≤ etcdRank x ∧ etcdRank x < 4 := by
    intro x hx
    rcases List.mem_cons.mp hx with rfl | hx
    · rw [rank_shutdown]; omega
    · obtain ⟨h, _, rfl⟩ := List.mem_map.mp hx
      rw [rank_shutdown_child]; omega
  have rU : ∀ x ∈ "etcd.upgrade" ::
      ((leadMaster :: (otherMasters ++ workers)).map (fun s => s.Hostname)).map
        (fun h => "etcd.upgrade." ++ h), 4 ≤ etcdRank x ∧ etcdRank x < 6 := by
    intro x hx
    rcases List.mem_cons.mp hx with rfl | hx
    · rw [rank_upgrade]; omega
    · obtain ⟨h, _, rfl⟩ := List.mem_map.mp hx
      rw [rank_upgrade_child]; omega
  have rR : ∀ x ∈ (((leadMaster :: (otherMasters ++ workers)).map (fun s => s.Hostname)) ++
      [constants.GravityServiceName]).map (fun h => "etcd.restart." ++ h), etcdRank x = 8 := by
    intro x hx
    obtain ⟨h, _, rfl⟩ := List.mem_map.mp hx
    exact rank_restart_child h
  have rT : ∀ x ∈ "etcd.restore" :: "etcd.restart" ::
      (((leadMaster :: (otherMasters ++ workers)).map (fun s => s.Hostname)) ++
        [constants.GravityServiceName]).map (fun h => "etcd.restart." ++ h),
      6 ≤ etcdRank x ∧ etcdRank x < 10 := by
    intro x hx
    rcases List.mem_cons.mp hx with rfl | hx
    · rw [rank_restore]; omega
    · rcases List.mem_cons.mp hx with rfl | hx
      · rw [rank_restart]; omega
      · rw [rR x hx]; omega
  -- each segment has no duplicate
  have nB : ("etcd.backup" ::
      ((leadMaster :: otherMasters).map (fun s => s.Hostname)).map (fun h => "etcd.backup." ++ h)).Nodup := by
    refine List.nodup_cons.mpr ⟨?_, nodup_map_append_left _ _ hm⟩
    intro hx
    obtain ⟨h, _, e⟩ := List.mem_map.mp hx
    have := rank_backup_child h
    rw [e, rank_backup] at this
    omega
  have nS : ("etcd.shutdown" ::
      ((leadMaster :: (otherMasters ++ workers)).map (fun s => s.Hostname)).map
        (fun h => "etcd.shutdown." ++ h)).Nodup := by
    refine List.nodup_cons.mpr ⟨?_, nodup_map_append_left _ _ hd⟩
    intro hx
    obtain ⟨h, _, e⟩ := List.mem_map.mp hx
    have := rank_shutdown_child h
    rw [e, rank_shutdown] at this
    omega
  have nU : ("etcd.upgrade" ::
      ((leadMaster :: (otherMasters ++ workers)).map (fun s => s.Hostname)).map
        (fun h => "etcd.upgrade." ++ h)).Nodup := by
    refine List.nodup_cons.mpr ⟨?_, nodup_map_append_left _ _ hd⟩
    intro hx
    obtain ⟨h, _, e⟩ := List.mem_map.mp hx
    have := rank_upgrade_child h
    rw [e, rank_upgrade] at this
    omega
  have nT : ("etcd.restore" :: "etcd.restart" ::
      (((leadMaster :: (otherMasters ++ workers)).map (fun s => s.Hostname)) ++
        [constants.GravityServiceName]).map (fun h => "etcd.restart." ++ h)).Nodup := by
    refine List.nodup_cons.mpr ⟨?_, List.nodup_cons.mpr ⟨?_, nodup_map_append_left _ _ hr⟩⟩
    · intro hx
      rcases List.mem_cons.mp hx with e | hx
      · exact absurd e (by decide)
      · have := rR _ hx
        rw [rank_restore] at this
        omega
    · intro hx
      have := rR _ hx
      rw [rank_restart] at this
      omega
  -- the segments are pairwise disjoint and the root is in none of them
  have nUT := List.nodup_append.mpr ⟨nU, nT,
    disjoint_of_rank _ _ 6 (fun x hx => (rU x hx).2) (fun y hy => (rT y hy).1)⟩
  have rUT : ∀ x ∈ ("etcd.upgrade" ::
      ((leadMaster :: (otherMasters ++ workers)).map (fun s => s.Hostname)).map
        (fun h => "etcd.upgrade." ++ h)) ++
      ("etcd.restore" :: "etcd.restart" ::
        (((leadMaster :: (otherMasters ++ workers)).map (fun s => s.Hostname)) ++
          [constants.GravityServiceName]).map (fun h => "etcd.restart." ++ h)),
      4 ≤ etcdRank x ∧ etcdRank x < 10 := by
    intro x hx
    rcases List.mem_append.mp hx with hx | hx
    · have := rU x hx; omega
    · have := rT x hx; omega
  have nSUT := List.nodup_append.mpr ⟨nS, nUT,
    disjoint_of_rank _ _ 4 (fun x hx => (rS x hx).2) (fun y hy => (rUT y hy).1)⟩
  have rSUT : ∀ x ∈ ("etcd.shutdown" ::
      ((leadMaster :: (otherMasters ++ workers)).map (fun s => s.Hostname)).map
        (fun h => "etcd.shutdown." ++ h)) ++
      (("etcd.upgrade" ::
        ((leadMaster :: (otherMasters ++ workers)).map (fun s => s.Hostname)).map
          (fun h => "etcd.upgrade." ++ h)) ++
       ("etcd.restore" :: "etcd.restart" ::
        (((leadMaster :: (otherMasters ++ workers)).map (fun s => s.Hostname)) ++
          [constants.GravityServiceName]).map (fun h => "etcd.restart." ++ h))),
      2 ≤ etcdRank x ∧ etcdRank x < 10 := by
    intro x hx
    rcases List.mem_append.mp hx with hx | hx
    · have := rS x hx; omega
    · have := rUT x hx; omega
  have nAll := List.nodup_append.mpr ⟨nB, nSUT,
    disjoint_of_rank _ _ 2 rB (fun y hy => (rSUT y hy).1)⟩
  refine List.nodup_cons.mpr ⟨?_, nAll⟩
  intro hx
  rcases List.mem_append.mp hx with hx | hx
  · have := rB _ hx
    rw [rank_root] at this
    omega
  · have := (rSUT _ hx).2
    rw [rank_root] at this
    omega

/-- C9, witness: the host names of the sample topology are pairwise distinct
and none of them is the name of the management service. -/
theorem etcdPlan_ids_nodup_witness :
    (((sampleLead :: (sampleMasters ++ sampleWorkers)).map (fun s => s.Hostname)).Nodup ∧
      constants.GravityServiceName ∉
        (sampleLead :: (sampleMasters ++ sampleWorkers)).map (fun s => s.Hostname)) ∧
    (samplePlan.flatten.map (fun p => p.ID)).Nodup :=
  ⟨by decide,
   etcdPlan_ids_nodup {} sampleLead sampleMasters sampleWorkers "3.3.11" "3.4.9"
     (by decide) (by decide)⟩

/-- C9, counterexample: a lone lead master whose host name is the name of the
management service. The host names are pairwise distinct, yet the lead master's
restart phase and the restart phase of the management service share one
identifier. -/
theorem etcdPlan_ids_clash_counterexample :
    ((({ AdvertiseIP := "10.0.0.1", Hostname := constants.GravityServiceName } : storage.Server)
        :: (([] : List storage.Server) ++ [])).map (fun s => s.Hostname)).Nodup ∧
    ¬ ((({} : phaseBuilder).etcdPlan
        { AdvertiseIP := "10.0.0.1", Hostname := constants.GravityServiceName } [] []
        "3.3.11" "3.4.9").flatten.map (fun p => p.ID)).Nodup := by
  decide

end cluster
namespace cluster
open update

/-- C8, witness: in the sample topology the upgrade phase of `master-2` is a
phase of the tree, it requires the shutdown phase of `master-2`, and that
identifier belongs to a phase of the tree. -/
theorem etcdPlan_requires_present_witness :
    (upgradeChild { AdvertiseIP := "10.0.0.2", Hostname := "master-2" } ["etcd.shutdown.master-2"]
        ∈ samplePlan.flatten ∧
      "etcd.shutdown.master-2" ∈
        (upgradeChild { AdvertiseIP := "10.0.0.2", Hostname := "master-2" }
          ["etcd.shutdown.master-2"]).Requires) ∧
    ∃ t ∈ samplePlan.flatten, t.ID = "etcd.shutdown.master-2" :=
  have hp : upgradeChild { AdvertiseIP := "10.0.0.2", Hostname := "master-2" }
      ["etcd.shutdown.master-2"] ∈ samplePlan.flatten := by
    apply Phase.grandchild_mem_flatten _ (upgradeStage sampleLead sampleMasters sampleWorkers)
    · rw [samplePlan, etcdPlan_closed]; simp [etcdStages]
    · simp [upgradeStage, upgradeStageWith, sampleMasters]
  have hq : "etcd.shutdown.master-2" ∈
      (upgradeChild { AdvertiseIP := "10.0.0.2", Hostname := "master-2" }
        ["etcd.shutdown.master-2"]).Requires := List.mem_singleton.mpr rfl
  ⟨⟨hp, hq⟩,
   etcdPlan_requires_present {} sampleLead sampleMasters sampleWorkers "3.3.11" "3.4.9" _ hp _ hq⟩

end cluster
namespace update

theorem Phase.addSequentialOne_eq (p s : Phase) :
    p.addSequentialOne s =
      { p with Phases := p.Phases ++ chain (p.Phases.getLast?.map (fun q => q.ID)) [s] } := by
  unfold Phase.addSequentialOne
  cases h : p.Phases.getLast? with
  | none => simp [chain]
  | some prev => simp [chain]

/-- `AddSequential` in closed form. -/
theorem Phase.AddSequential_eq (p : Phase) (sub : List Phase) :
    p.AddSequential sub =
      { p with Phases := p.Phases ++ chain (p.Phases.getLast?.map (fun q => q.ID)) sub } := by
  induction sub generalizing p with
  | nil => cases p; simp [Phase.AddSequential, chain]
  | cons s rest ih =>
    have hstep : p.AddSequential (s :: rest) = (p.addSequentialOne s).AddSequential rest := rfl
    rw [hstep, ih, Phase.addSequentialOne_eq]
    cases h : p.Phases.getLast? with
    | none => simp [chain]
    | some prev => simp [chain]

theorem Phase.AddSequential_ID (p : Phase) (sub : List Phase) : (p.AddSequential sub).ID = p.ID := by
  rw [Phase.AddSequential_eq]

theorem Phase.AddSequential_append (p : Phase) (a b : List Phase) :
    (p.AddSequential a).AddSequential b = p.AddSequential (a ++ b) := by
  simp [Phase.AddSequential, List.foldl_append]

theorem foldl_AddSequential (α : Type) (g : String → α → Phase) (l : List α) (root : Phase) :
    l.foldl (fun root s => root.AddSequential [g root.ID s]) root
      = root.AddSequential (l.map (g root.ID)) := by
  induction l generalizing root with
  | nil => rfl
  | cons a t ih =>
    rw [List.foldl_cons, ih, Phase.AddSequential_ID, Phase.AddSequential_append]
    rfl

theorem foldl_AddParallel (α : Type) (g : String → α → Phase) (l : List α) (root : Phase) :
    l.foldl (fun root s => root.AddParallel [g root.ID s]) root
      = root.AddParallel (l.map (g root.ID)) := by
  induction l generalizing root with
  | nil => cases root; simp [Phase.AddParallel]
  | cons a t ih =>
    rw [List.foldl_cons, ih]
    simp [Phase.AddParallel]

theorem chain_map_ID (prev : Option String) (sub : List Phase) :
    (chain prev sub).map (fun q => q.ID) = sub.map (fun q => q.ID) := by
  induction sub generalizing prev with
  | nil => cases prev <;> simp [chain]
  | cons s rest ih => cases prev <;> simp [chain, ih]

theorem chain_length (prev : Option String) (sub : List Phase) :
    (chain prev sub).length = sub.length := by
  have := congrArg List.length (chain_map_ID prev sub)
  simpa using this

/-- A chain leaves everything but the requirements as it was. -/
theorem chain_map_payload (prev : Option String) (sub : List Phase) :
    (chain prev sub).map (fun q => (q.ID, q.Executor, q.Data, q.Phases))
      = sub.map (fun q => (q.ID, q.Executor, q.Data, q.Phases)) := by
  induction sub generalizing prev with
  | nil => cases prev <;> simp [chain]
  | cons s rest ih => cases prev <;> simp [chain, ih]

/-- In a chain of phases that start without requirements, every phase after the
first requires exactly the phase right before it. -/
theorem chain_chain' (prev : Option String) (sub : List Phase)
    (h : ∀ s ∈ sub, s.Requires = []) :
    List.Chain' (fun a b => b.Requires = [a.ID]) (chain prev sub) := by
  induction sub generalizing prev with
  | nil => cases prev <;> simp [chain]
  | cons s rest ih =>
    have ih' := ih (some s.ID) (fun t ht => h t (List.mem_cons_of_mem _ ht))
    cases rest with
    | nil => cases prev <;> simp [chain]
    | cons t rest' =>
      have ht : t.Requires = [] := h t (by simp)
      cases prev <;> simp only [chain] at ih' ⊢ <;> rw [List.chain'_cons] <;>
        exact ⟨by simp [ht], ih'⟩

theorem chain_none_head (sub : List Phase) :
    (chain none sub).head? = sub.head? := by
  cases sub <;> simp [chain]

end update
namespace update

theorem foldl_AddSequential_of_ID (α : Type) (f : Phase → α → Phase)
    (hf : ∀ a b s, a.ID = b.ID → f a s = f b s) (l : List α) (root : Phase) :
    l.foldl (fun root s => root.AddSequential [f root s]) root
      = root.AddSequential (l.map (f root)) := by
  induction l generalizing root with
  | nil => rfl
  | cons a t ih =>
    rw [List.foldl_cons, ih, Phase.AddSequential_append]
    have e : f (root.AddSequential [f root a]) = f root :=
      funext (fun s => hf _ _ s (Phase.AddSequential_ID _ _))
    rw [e]
    rfl

theorem foldl_AddParallel_of_ID (α : Type) (f : Phase → α → Phase)
    (hf : ∀ a b s, a.ID = b.ID → f a s = f b s) (l : List α) (root : Phase) :
    l.foldl (fun root s => root.AddParallel [f root s]) root
      = root.AddParallel (l.map (f root)) := by
  induction l generalizing root with
  | nil => cases root; simp [Phase.AddParallel]
  | cons a t ih =>
    rw [List.foldl_cons, ih]
    have e : f (root.AddParallel [f root a]) = f root :=
      funext (fun s => hf _ _ s rfl)
    rw [e]
    simp [Phase.AddParallel]

end update

namespace cluster
open update

theorem node_of_ID (r : phaseBuilder) (s : storage.Server) (a b : Phase) (fmt : String)
    (h : a.ID = b.ID) : r.node s a fmt = r.node s b fmt := by
  simp [phaseBuilder.node, Phase.ChildLiteral, h]

theorem otherBranch_of_ID (r : phaseBuilder) (lead : storage.UpdateServer) (t : Bool)
    (a b : Phase) (h : a.ID = b.ID) : otherBranch r lead t a = otherBranch r lead t b :=
  funext (fun s => by simp [otherBranch, node_of_ID r s.Server a b _ h])

theorem nodeBranch_of_ID (r : phaseBuilder) (lead : storage.UpdateServer) (t : Bool)
    (a b : Phase) (h : a.ID = b.ID) : nodeBranch r lead t a = nodeBranch r lead t b :=
  funext (fun s => by simp [nodeBranch, node_of_ID r s.Server a b _ h])

/-- What `masters` returns: the root with its top-level phases added in
sequence. -/
theorem masters_eq (r : phaseBuilder) (lead : storage.UpdateServer)
    (others : List storage.UpdateServer) (t : Bool) :
    r.masters lead others t = mastersRoot.AddSequential (mastersTop r lead others t) := by
  have hfold := foldl_AddSequential_of_ID storage.UpdateServer (otherBranch r lead t)
    (fun a b s h => by rw [otherBranch_of_ID r lead t a b h]) others
  have hbody : (fun (root : Phase) (server : storage.UpdateServer) =>
      root.AddSequential [otherBranch r lead t root server]) =
      (fun root server =>
        let node := r.node server.Server root "Update system software on master node %q"
        let node := node.AddSequential (r.commonNode server lead t true)
        let node := node.AddSequential
          [setLeaderElection (enable [server]) (disable []) server "enable"
            "Enable leader election on node %q"]
        root.AddSequential [node]) := rfl
  unfold phaseBuilder.masters
  simp only [← hbody, hfold]
  by_cases h : others.length ≠ 0
  · have h0 : decide (others.length = 0) = false := by simpa using h
    simp only [if_pos h, h0]
    rw [otherBranch_of_ID r lead t _ mastersRoot (by simp only [Phase.AddSequential_ID]; rfl)]
    simp only [Phase.AddSequential_append, mastersTop, leadBranch, leadBranchSubs, if_pos h, h0]
    rfl
  · have h0 : decide (others.length = 0) = true := by simpa using h
    simp only [if_neg h, h0]
    rw [otherBranch_of_ID r lead t _ mastersRoot (by simp only [Phase.AddSequential_ID]; rfl)]
    simp only [Phase.AddSequential_append, mastersTop, leadBranch, leadBranchSubs, if_neg h, h0]
    rfl

/-- What `nodes` returns: the root with one branch per node added in parallel. -/
theorem nodes_eq (r : phaseBuilder) (lead : storage.UpdateServer)
    (nodes : List storage.UpdateServer) (t : Bool) :
    r.nodes lead nodes t = nodesRoot.AddParallel (nodes.map (nodeBranch r lead t nodesRoot)) := by
  have hfold := foldl_AddParallel_of_ID storage.UpdateServer (nodeBranch r lead t)
    (fun a b s h => by rw [nodeBranch_of_ID r lead t a b h]) nodes
  have hbody : (fun (root : Phase) (server : storage.UpdateServer) =>
      root.AddParallel [nodeBranch r lead t root server]) =
      (fun root server =>
        let node := r.node server.Server root "Update system software on node %q"
        let node := node.AddSequential (r.commonNode server lead t true)
        root.AddParallel [node]) := rfl
  unfold phaseBuilder.nodes
  simp only [← hbody, hfold]
  rfl

end cluster
namespace cluster
open update

/-- What `migration` returns, in closed form. -/
theorem migration_eq (r : phaseBuilder) (NeedMigrateRoles : List Role → Bool)
    (leadMaster : storage.Server) :
    r.migration NeedMigrateRoles leadMaster =
      some { ID := "migration", Description := "Perform system database migration",
             Phases := migrationSubphases r NeedMigrateRoles leadMaster } := by
  unfold phaseBuilder.migration migrationSubphases
  by_cases h1 : r.planConfig.links.length ≠ 0 ∧ r.planConfig.trustedClusters.length = 0 <;>
    by_cases h2 : NeedMigrateRoles r.planConfig.roles = true
  · simp only [if_pos h1, h2, if_true]; rfl
  · simp only [if_pos h1, if_neg h2]; rfl
  · simp only [if_neg h1, h2, if_true]; rfl
  · simp only [if_neg h1, if_neg h2]; rfl

/-- C11: for every builder configuration `migration` returns the grouping phase
`migration`, whose children are, in order: the links sub-phase if and only if
links is non-empty and trustedClusters is empty; then the labels sub-phase,
always; then the roles sub-phase if and only if `NeedMigrateRoles` holds of the
roles. The children are parallel: none of them carries a requirement. -/
theorem migration_children (r : phaseBuilder) (NeedMigrateRoles : List Role → Bool)
    (leadMaster : storage.Server) :
    ∃ root, r.migration NeedMigrateRoles leadMaster = some root ∧
      root.ID = "migration" ∧ root.Executor = none ∧
      root.Phases.map (fun p => (p.ID, p.Executor, p.Requires)) =
        (if r.planConfig.links.length ≠ 0 ∧ r.planConfig.trustedClusters.length = 0 then
          [(root.ChildLiteral "links", some Executor.migrateLinks, [])] else []) ++
        [(root.ChildLiteral "labels", some Executor.updateLabels, [])] ++
        (if NeedMigrateRoles r.planConfig.roles = true then
          [(root.ChildLiteral "roles", some Executor.migrateRoles, [])] else []) := by
  refine ⟨_, migration_eq r NeedMigrateRoles leadMaster, rfl, rfl, ?_⟩
  simp only [migrationSubphases]
  by_cases h1 : r.planConfig.links.length ≠ 0 ∧ r.planConfig.trustedClusters.length = 0 <;>
    by_cases h2 : NeedMigrateRoles r.planConfig.roles = true
  · simp only [if_pos h1, h2, if_true]; rfl
  · simp only [if_pos h1, if_neg h2]; rfl
  · simp only [if_neg h1, h2, if_true]; rfl
  · simp only [if_neg h1, if_neg h2]; rfl

/-- The identifiers of the phases `commonNode` returns. -/
theorem commonNode_ids_eq (r : phaseBuilder) (server leadMaster : storage.UpdateServer)
    (t w : Bool) :
    (r.commonNode server leadMaster t w).map (fun p => p.ID) =
      ["drain", "system-upgrade"] ++ (if t then ["taint"] else []) ++ ["uncordon"] ++
        (if w then ["endpoints"] else []) ++ (if t then ["untaint"] else []) := by
  cases t <;> cases w <;> rfl

/-- C12: the identifiers of the phases returned by `commonNode` are exactly
drain, system-upgrade, then taint iff `supportsTaints`, then uncordon, then
endpoints iff `waitsForEndpoints`, then untaint iff `supportsTaints`, in that
order; taint is present exactly when untaint is, and the list has
3 + 2*[supportsTaints] + [waitsForEndpoints] elements. -/
theorem commonNode_ids (r : phaseBuilder) (server leadMaster : storage.UpdateServer)
    (supportsTaints waitsForEndpoints : Bool) :
    (r.commonNode server leadMaster supportsTaints waitsForEndpoints).map (fun p => p.ID) =
      ["drain", "system-upgrade"] ++ (if supportsTaints then ["taint"] else []) ++ ["uncordon"] ++
        (if waitsForEndpoints then ["endpoints"] else []) ++
        (if supportsTaints then ["untaint"] else []) ∧
    ("taint" ∈ (r.commonNode server leadMaster supportsTaints waitsForEndpoints).map (fun p => p.ID) ↔
      "untaint" ∈ (r.commonNode server leadMaster supportsTaints waitsForEndpoints).map (fun p => p.ID)) ∧
    ("taint" ∈ (r.commonNode server leadMaster supportsTaints waitsForEndpoints).map (fun p => p.ID) ↔
      supportsTaints = true) ∧
    ("endpoints" ∈ (r.commonNode server leadMaster supportsTaints waitsForEndpoints).map (fun p => p.ID) ↔
      waitsForEndpoints = true) ∧
    (r.commonNode server leadMaster supportsTaints waitsForEndpoints).length =
      3 + 2 * (if supportsTaints then 1 else 0) + (if waitsForEndpoints then 1 else 0) := by
  refine ⟨commonNode_ids_eq _ _ _ _ _, ?_, ?_, ?_, ?_⟩
  · rw [commonNode_ids_eq]
    cases supportsTaints <;> cases waitsForEndpoints <;> decide
  · rw [commonNode_ids_eq]
    cases supportsTaints <;> cases waitsForEndpoints <;> decide
  · rw [commonNode_ids_eq]
    cases supportsTaints <;> cases waitsForEndpoints <;> decide
  · cases supportsTaints <;> cases waitsForEndpoints <;> rfl

end cluster
namespace cluster
open update

/-! ## The masters and nodes phases -/

theorem serversToStorage_eq_map (updates : List storage.UpdateServer) :
    serversToStorage updates = updates.map (fun u => u.Server) := by
  unfold serversToStorage
  have h : ∀ (acc : List storage.Server),
      updates.foldl (fun result update => result ++ [update.Server]) acc
        = acc ++ updates.map (fun u => u.Server) := by
    induction updates with
    | nil => intro acc; simp
    | cons a t ih => intro acc; simp [ih]
  simpa using h []

theorem masters_phases (r : phaseBuilder) (lead : storage.UpdateServer)
    (others : List storage.UpdateServer) (t : Bool) :
    (r.masters lead others t).Phases = chain none (mastersTop r lead others t) := by
  rw [masters_eq, Phase.AddSequential_eq]
  rfl

theorem masters_ID (r : phaseBuilder) (lead : storage.UpdateServer)
    (others : List storage.UpdateServer) (t : Bool) :
    (r.masters lead others t).ID = "masters" := by
  rw [masters_eq, Phase.AddSequential_ID]
  rfl

theorem masters_childLiteral (r : phaseBuilder) (lead : storage.UpdateServer)
    (others : List storage.UpdateServer) (t : Bool) (h : String) :
    (r.masters lead others t).ChildLiteral h = "masters" ++ "." ++ h := by
  unfold Phase.ChildLiteral
  rw [masters_ID]

theorem leadBranch_phases (r : phaseBuilder) (lead : storage.UpdateServer)
    (others : List storage.UpdateServer) (t : Bool) :
    (leadBranch r lead others t).Phases = chain none (leadBranchSubs r lead others t) := by
  unfold leadBranch
  rw [Phase.AddSequential_eq]
  rfl

theorem leadBranch_ID (r : phaseBuilder) (lead : storage.UpdateServer)
    (others : List storage.UpdateServer) (t : Bool) :
    (leadBranch r lead others t).ID = "masters" ++ "." ++ lead.Server.Hostname := by
  unfold leadBranch
  rw [Phase.AddSequential_ID]
  rfl

theorem leadBranch_requires (r : phaseBuilder) (lead : storage.UpdateServer)
    (others : List storage.UpdateServer) (t : Bool) :
    (leadBranch r lead others t).Requires = [] := by
  unfold leadBranch
  rw [Phase.AddSequential_eq]
  rfl

theorem otherBranch_phases (r : phaseBuilder) (lead : storage.UpdateServer) (t : Bool)
    (root : Phase) (s : storage.UpdateServer) :
    (otherBranch r lead t root s).Phases =
      chain none (r.commonNode s lead t true ++
        [setLeaderElection (enable [s]) (disable []) s "enable"
          "Enable leader election on node %q"]) := by
  unfold otherBranch
  rw [Phase.AddSequential_append, Phase.AddSequential_eq]
  rfl

theorem otherBranch_ID (r : phaseBuilder) (lead : storage.UpdateServer) (t : Bool)
    (root : Phase) (s : storage.UpdateServer) :
    (otherBranch r lead t root s).ID = root.ID ++ "." ++ s.Server.Hostname := by
  unfold otherBranch
  rw [Phase.AddSequential_ID, Phase.AddSequential_ID]
  rfl

theorem otherBranch_requires (r : phaseBuilder) (lead : storage.UpdateServer) (t : Bool)
    (root : Phase) (s : storage.UpdateServer) :
    (otherBranch r lead t root s).Requires = [] := by
  unfold otherBranch
  rw [Phase.AddSequential_append, Phase.AddSequential_eq]
  rfl

theorem masters_stage0 (r : phaseBuilder) (lead : storage.UpdateServer)
    (others : List storage.UpdateServer) (t : Bool) :
    (r.masters lead others t).stage 0 = leadBranch r lead others t := by
  unfold Phase.stage
  rw [masters_phases]
  simp [mastersTop, chain]

theorem leadBranch_ids (r : phaseBuilder) (lead : storage.UpdateServer)
    (others : List storage.UpdateServer) (t : Bool) :
    (leadBranch r lead others t).Phases.map (fun p => p.ID) =
      (if others.length ≠ 0 then ["kubelet-permissions", "stepdown" ++ "-" ++ lead.Server.Hostname]
        else []) ++
      (["drain", "system-upgrade"] ++ (if t then ["taint"] else []) ++ ["uncordon"] ++
        (if decide (others.length = 0) then ["endpoints"] else []) ++
        (if t then ["untaint"] else [])) := by
  rw [leadBranch_phases, chain_map_ID, leadBranchSubs, List.map_append, commonNode_ids_eq]
  congr 1
  by_cases h : others.length ≠ 0
  · simp only [if_pos h]; rfl
  · simp only [if_neg h]; rfl

theorem endpoints_ne_stepdown (h : String) : "endpoints" ≠ "stepdown-" ++ h := by
  intro e
  have e2 := congrArg String.data e
  have d1 : "endpoints".data = ['e','n','d','p','o','i','n','t','s'] := by decide
  have d2 : "stepdown-".data = ['s','t','e','p','d','o','w','n','-'] := by decide
  simp [String.data_append, d1, d2] at e2

/-- C13 (as the code has it): in the tree returned by `masters` the first child
is the lead master's branch, and it contains the wait-for-endpoints phase (ID
endpoints) exactly when the lead master is the sole master: with an empty
otherMasters list the branch has an endpoints phase, with a non-empty one it has
none. -/
theorem masters_lead_endpoints_iff_sole (r : phaseBuilder) (leadMaster : storage.UpdateServer)
    (otherMasters : List storage.UpdateServer) (supportsTaints : Bool) :
    ((r.masters leadMaster otherMasters supportsTaints).stage 0).ID =
      (r.masters leadMaster otherMasters supportsTaints).ChildLiteral leadMaster.Server.Hostname ∧
    ("endpoints" ∈ ((r.masters leadMaster otherMasters supportsTaints).stage 0).Phases.map
        (fun p => p.ID) ↔ otherMasters = []) := by
  rw [masters_stage0, masters_childLiteral, leadBranch_ID, leadBranch_ids]
  refine ⟨rfl, ?_⟩
  cases otherMasters with
  | nil => cases supportsTaints <;> simp
  | cons o os =>
    have hne := endpoints_ne_stepdown leadMaster.Server.Hostname
    cases supportsTaints <;> simp [hne]

/-- C13, counterexample: a sole lead master has an endpoints phase in its
branch, and a lead master with two other masters has none. -/
theorem masters_lead_endpoints_counterexample :
    "endpoints" ∈ ((({} : phaseBuilder).masters sampleLeadU [] true).stage 0).Phases.map
      (fun p => p.ID) ∧
    "endpoints" ∉ ((({} : phaseBuilder).masters sampleLeadU sampleMastersU true).stage 0).Phases.map
      (fun p => p.ID) := by
  decide

end cluster
namespace cluster
open update

theorem leadBranchSubs_cons (r : phaseBuilder) (lead o : storage.UpdateServer)
    (os : List storage.UpdateServer) (t : Bool) :
    leadBranchSubs r lead (o :: os) t =
      kubeletPermissionsPhase lead ::
        setLeaderElection (enable []) (disable [lead]) lead "stepdown"
          "Step down %q as Kubernetes leader" ::
        r.commonNode lead lead t false := by
  unfold leadBranchSubs
  simp

theorem masters_stage1 (r : phaseBuilder) (lead o : storage.UpdateServer)
    (os : List storage.UpdateServer) (t : Bool) :
    (r.masters lead (o :: os) t).stage 1 =
      { electPhase lead (o :: os) with
        Requires := [(leadBranch r lead (o :: os) t).ID] } := by
  unfold Phase.stage
  rw [masters_phases]
  simp [mastersTop, chain, electPhase, setLeaderElection]

/-- C14 (as the code has it): for a non-empty list of other masters and
`supportsTaints` true, the children of the lead master's branch in the tree
returned by `masters` are exactly, in order: kubelet-permissions, the stepdown
phase for the lead master, drain, system-upgrade, taint, uncordon, untaint. -/
theorem masters_lead_branch_children (r : phaseBuilder) (leadMaster : storage.UpdateServer)
    (otherMasters : List storage.UpdateServer) (h : otherMasters ≠ []) :
    ((r.masters leadMaster otherMasters true).stage 0).ID =
      (r.masters leadMaster otherMasters true).ChildLiteral leadMaster.Server.Hostname ∧
    ((r.masters leadMaster otherMasters true).stage 0).Phases.map (fun p => p.ID) =
      ["kubelet-permissions", "stepdown-" ++ leadMaster.Server.Hostname, "drain", "system-upgrade",
       "taint", "uncordon", "untaint"] := by
  rw [masters_stage0, masters_childLiteral, leadBranch_ID, leadBranch_ids]
  refine ⟨rfl, ?_⟩
  cases otherMasters with
  | nil => exact absurd rfl h
  | cons o os => simp

/-- C14, witness: the sample topology has two other masters. -/
theorem masters_lead_branch_children_witness :
    sampleMastersU ≠ [] ∧
    (((({} : phaseBuilder).masters sampleLeadU sampleMastersU true).stage 0).ID =
      (({} : phaseBuilder).masters sampleLeadU sampleMastersU true).ChildLiteral
        sampleLeadU.Server.Hostname ∧
    ((({} : phaseBuilder).masters sampleLeadU sampleMastersU true).stage 0).Phases.map
        (fun p => p.ID) =
      ["kubelet-permissions", "stepdown-" ++ sampleLeadU.Server.Hostname, "drain", "system-upgrade",
       "taint", "uncordon", "untaint"]) :=
  ⟨by decide, masters_lead_branch_children {} sampleLeadU sampleMastersU (by decide)⟩

/-- C14, counterexample: in the sample topology the lead master's branch starts
with the kubelet-permissions phase, so its children are not the six phases
stepdown, drain, system-upgrade, taint, uncordon, untaint. -/
theorem masters_lead_branch_counterexample :
    sampleMastersU ≠ [] ∧
    ((({} : phaseBuilder).masters sampleLeadU sampleMastersU true).stage 0).Phases.map
        (fun p => p.ID) ≠
      ["stepdown-" ++ sampleLeadU.Server.Hostname, "drain", "system-upgrade", "taint", "uncordon",
       "untaint"] := by
  decide

/-- C15: for a non-empty list of other masters, the lead master's branch built
by `masters` starts with kubelet-permissions, then the phase
`stepdown-<lead hostname>`, whose election change enables no server and disables
exactly the lead master, then drain, which requires it, then system-upgrade. -/
theorem masters_stepdown_before_drain (r : phaseBuilder) (leadMaster : storage.UpdateServer)
    (otherMasters : List storage.UpdateServer) (supportsTaints : Bool) (h : otherMasters ≠ []) :
    (((r.masters leadMaster otherMasters supportsTaints).stage 0).Phases.take 4).map
        (fun p => (p.ID, p.Executor, p.Requires, p.Data.bind (fun d => d.ElectionChange))) =
      [("kubelet-permissions", some Executor.kubeletPermissions, [], none),
       ("stepdown-" ++ leadMaster.Server.Hostname, some Executor.electionStatus,
          ["kubelet-permissions"],
          some { EnableServers := [], DisableServers := [leadMaster.Server] }),
       ("drain", some Executor.drainNode, ["stepdown-" ++ leadMaster.Server.Hostname], none),
       ("system-upgrade", some Executor.updateSystem, ["drain"], none)] := by
  rw [masters_stage0, leadBranch_phases]
  cases otherMasters with
  | nil => exact absurd rfl h
  | cons o os =>
    rw [leadBranchSubs_cons]
    cases supportsTaints <;>
      simp [phaseBuilder.commonNode, chain, kubeletPermissionsPhase, setLeaderElection, enable,
        disable, serversToStorage]

/-- C15, witness: the sample topology has two other masters. -/
theorem masters_stepdown_before_drain_witness :
    sampleMastersU ≠ [] ∧
    (((({} : phaseBuilder).masters sampleLeadU sampleMastersU true).stage 0).Phases.take 4).map
        (fun p => (p.ID, p.Executor, p.Requires, p.Data.bind (fun d => d.ElectionChange))) =
      [("kubelet-permissions", some Executor.kubeletPermissions, [], none),
       ("stepdown-" ++ sampleLeadU.Server.Hostname, some Executor.electionStatus,
          ["kubelet-permissions"],
          some { EnableServers := [], DisableServers := [sampleLeadU.Server] }),
       ("drain", some Executor.drainNode, ["stepdown-" ++ sampleLeadU.Server.Hostname], none),
       ("system-upgrade", some Executor.updateSystem, ["drain"], none)] :=
  ⟨by decide, masters_stepdown_before_drain {} sampleLeadU sampleMastersU true (by decide)⟩

/-- C16: for a non-empty list of other masters, the second top-level child of
the tree returned by `masters`, right after the lead master's branch, is the
leaf phase `elect-<lead hostname>`; it requires the lead master's branch and its
election change enables exactly the lead master and disables exactly the other
masters, in input order. -/
theorem masters_elect_after_lead (r : phaseBuilder) (leadMaster : storage.UpdateServer)
    (otherMasters : List storage.UpdateServer) (supportsTaints : Bool) (h : otherMasters ≠ []) :
    ((r.masters leadMaster otherMasters supportsTaints).stage 0).ID =
      (r.masters leadMaster otherMasters supportsTaints).ChildLiteral leadMaster.Server.Hostname ∧
    ((r.masters leadMaster otherMasters supportsTaints).stage 1).ID =
      "elect-" ++ leadMaster.Server.Hostname ∧
    ((r.masters leadMaster otherMasters supportsTaints).stage 1).Executor =
      some Executor.electionStatus ∧
    ((r.masters leadMaster otherMasters supportsTaints).stage 1).Phases = [] ∧
    ((r.masters leadMaster otherMasters supportsTaints).stage 1).Requires =
      [((r.masters leadMaster otherMasters supportsTaints).stage 0).ID] ∧
    ((r.masters leadMaster otherMasters supportsTaints).stage 1).Data.bind
        (fun d => d.ElectionChange) =
      some { EnableServers := [leadMaster.Server],
             DisableServers := otherMasters.map (fun s => s.Server) } := by
  cases otherMasters with
  | nil => exact absurd rfl h
  | cons o os =>
    rw [masters_stage1, masters_stage0, masters_childLiteral, leadBranch_ID]
    refine ⟨rfl, ?_, rfl, rfl, ?_, ?_⟩
    · simp [electPhase, setLeaderElection]
    · rfl
    · simp [electPhase, setLeaderElection, enable, disable, serversToStorage_eq_map]

/-- C16, witness: the sample topology has two other masters. -/
theorem masters_elect_after_lead_witness :
    sampleMastersU ≠ [] ∧
    (((({} : phaseBuilder).masters sampleLeadU sampleMastersU true).stage 0).ID =
      (({} : phaseBuilder).masters sampleLeadU sampleMastersU true).ChildLiteral
        sampleLeadU.Server.Hostname ∧
    ((({} : phaseBuilder).masters sampleLeadU sampleMastersU true).stage 1).ID =
      "elect-" ++ sampleLeadU.Server.Hostname ∧
    ((({} : phaseBuilder).masters sampleLeadU sampleMastersU true).stage 1).Executor =
      some Executor.electionStatus ∧
    ((({} : phaseBuilder).masters sampleLeadU sampleMastersU true).stage 1).Phases = [] ∧
    ((({} : phaseBuilder).masters sampleLeadU sampleMastersU true).stage 1).Requires =
      [((({} : phaseBuilder).masters sampleLeadU sampleMastersU true).stage 0).ID] ∧
    ((({} : phaseBuilder).masters sampleLeadU sampleMastersU true).stage 1).Data.bind
        (fun d => d.ElectionChange) =
      some { EnableServers := [sampleLeadU.Server],
             DisableServers := sampleMastersU.map (fun s => s.Server) }) :=
  ⟨by decide, masters_elect_after_lead {} sampleLeadU sampleMastersU true (by decide)⟩

end cluster
namespace update

/-- A chain changes requirements only: a function that does not read them gives
the same values on the chain as on the phases it was made from. -/
theorem chain_map_congr {β : Type} (f : Phase → β)
    (hf : ∀ (q : Phase) (reqs : List String), f { q with Requires := reqs } = f q)
    (prev : Option String) (sub : List Phase) :
    (chain prev sub).map f = sub.map f := by
  induction sub generalizing prev with
  | nil => cases prev <;> simp [chain]
  | cons s rest ih => cases prev <;> simp [chain, ih, hf]

end update

namespace cluster
open update

theorem masters_phases_cons (r : phaseBuilder) (lead o : storage.UpdateServer)
    (os : List storage.UpdateServer) (t : Bool) :
    (r.masters lead (o :: os) t).Phases =
      leadBranch r lead (o :: os) t ::
        { electPhase lead (o :: os) with Requires := [(leadBranch r lead (o :: os) t).ID] } ::
        chain (some (electPhase lead (o :: os)).ID)
          ((o :: os).map (otherBranch r lead t mastersRoot)) := by
  rw [masters_phases]
  simp [mastersTop, chain, electPhase, setLeaderElection]

theorem masters_drop2 (r : phaseBuilder) (lead : storage.UpdateServer)
    (others : List storage.UpdateServer) (t : Bool) :
    (r.masters lead others t).Phases.drop 2 =
      chain (some (electPhase lead others).ID) (others.map (otherBranch r lead t mastersRoot)) := by
  cases others with
  | nil =>
    rw [masters_phases]
    simp [mastersTop, chain]
  | cons o os =>
    rw [masters_phases_cons]
    rfl

/-- C19: for a lead master and `n >= 1` other masters, the root returned by
`masters` has exactly `n + 2` top-level children: the lead master's branch, the
elect phase, then one branch per other master in input order. They form one
sequential chain: the first child requires nothing and every later child
requires exactly the sibling right before it. -/
theorem masters_top_level_chain (r : phaseBuilder) (leadMaster : storage.UpdateServer)
    (otherMasters : List storage.UpdateServer) (supportsTaints : Bool) (h : otherMasters ≠ []) :
    (r.masters leadMaster otherMasters supportsTaints).Phases.length = otherMasters.length + 2 ∧
    (r.masters leadMaster otherMasters supportsTaints).Phases.map (fun p => p.ID) =
      (r.masters leadMaster otherMasters supportsTaints).ChildLiteral leadMaster.Server.Hostname ::
        ("elect-" ++ leadMaster.Server.Hostname) ::
        otherMasters.map (fun s =>
          (r.masters leadMaster otherMasters supportsTaints).ChildLiteral s.Server.Hostname) ∧
    (r.masters leadMaster otherMasters supportsTaints).Phases.head?.map (fun p => p.Requires) =
      some [] ∧
    List.Chain' (fun a b => b.Requires = [a.ID])
      (r.masters leadMaster otherMasters supportsTaints).Phases := by
  cases otherMasters with
  | nil => exact absurd rfl h
  | cons o os =>
    have htop : mastersTop r leadMaster (o :: os) supportsTaints =
        leadBranch r leadMaster (o :: os) supportsTaints :: electPhase leadMaster (o :: os) ::
          (o :: os).map (otherBranch r leadMaster supportsTaints mastersRoot) := by
      simp [mastersTop]
    refine ⟨?_, ?_, ?_, ?_⟩
    · rw [masters_phases, chain_length, htop]
      simp
    · rw [masters_phases, chain_map_ID, htop]
      simp only [masters_childLiteral, List.map_cons, List.map_map, leadBranch_ID]
      simp [electPhase, setLeaderElection, Function.comp_def, otherBranch_ID, mastersRoot]
    · rw [masters_phases, chain_none_head, htop]
      simp [leadBranch_requires]
    · rw [masters_phases]
      apply chain_chain'
      intro s hs
      rw [htop] at hs
      simp only [List.mem_cons, List.mem_map] at hs
      rcases hs with rfl | rfl | ⟨u, _, rfl⟩
      · exact leadBranch_requires _ _ _ _
      · rfl
      · exact otherBranch_requires _ _ _ _ _

end cluster
namespace cluster
open update

/-- C19, witness: the sample topology has two other masters. -/
theorem masters_top_level_chain_witness :
    sampleMastersU ≠ [] ∧
    ((({} : phaseBuilder).masters sampleLeadU sampleMastersU true).Phases.length =
      sampleMastersU.length + 2 ∧
    (({} : phaseBuilder).masters sampleLeadU sampleMastersU true).Phases.map (fun p => p.ID) =
      (({} : phaseBuilder).masters sampleLeadU sampleMastersU true).ChildLiteral
          sampleLeadU.Server.Hostname ::
        ("elect-" ++ sampleLeadU.Server.Hostname) ::
        sampleMastersU.map (fun s =>
          (({} : phaseBuilder).masters sampleLeadU sampleMastersU true).ChildLiteral
            s.Server.Hostname) ∧
    (({} : phaseBuilder).masters sampleLeadU sampleMastersU true).Phases.head?.map
        (fun p => p.Requires) = some [] ∧
    List.Chain' (fun a b => b.Requires = [a.ID])
      (({} : phaseBuilder).masters sampleLeadU sampleMastersU true).Phases) :=
  ⟨by decide, masters_top_level_chain {} sampleLeadU sampleMastersU true (by decide)⟩

/-- C18: for a `masters` phase built with at least one other master, the
pre-order listing of the returned tree has the stepdown phase of the lead master
(the second child of the lead master's branch), later the elect phase (the
second top-level child), and only after it the branches of the other masters
with all their phases: every phase of every other master's upgrade sequence and
every enable phase comes after both. -/
theorem masters_preorder (r : phaseBuilder) (leadMaster : storage.UpdateServer)
    (otherMasters : List storage.UpdateServer) (supportsTaints : Bool) (h : otherMasters ≠ []) :
    ∃ pre mid sd el,
      (r.masters leadMaster otherMasters supportsTaints).flatten =
        pre ++ sd :: (mid ++ el ::
          flattenAll ((r.masters leadMaster otherMasters supportsTaints).Phases.drop 2)) ∧
      ((r.masters leadMaster otherMasters supportsTaints).stage 0).Phases.get? 1 = some sd ∧
      sd.ID = "stepdown-" ++ leadMaster.Server.Hostname ∧
      sd.Executor = some Executor.electionStatus ∧
      el = (r.masters leadMaster otherMasters supportsTaints).stage 1 ∧
      el.ID = "elect-" ++ leadMaster.Server.Hostname ∧
      el.Executor = some Executor.electionStatus ∧
      ((r.masters leadMaster otherMasters supportsTaints).Phases.drop 2).map (fun b => b.ID) =
        otherMasters.map (fun s =>
          (r.masters leadMaster otherMasters supportsTaints).ChildLiteral s.Server.Hostname) ∧
      (∀ b ∈ (r.masters leadMaster otherMasters supportsTaints).Phases.drop 2,
        ∀ c ∈ b.flatten,
          c ∈ flattenAll ((r.masters leadMaster otherMasters supportsTaints).Phases.drop 2)) := by
  cases otherMasters with
  | nil => exact absurd rfl h
  | cons o os =>
    refine ⟨[r.masters leadMaster (o :: os) supportsTaints,
        leadBranch r leadMaster (o :: os) supportsTaints, kubeletPermissionsPhase leadMaster],
      flattenAll (chain (some ("stepdown" ++ "-" ++ leadMaster.Server.Hostname))
        (r.commonNode leadMaster leadMaster supportsTaints false)),
      { setLeaderElection (enable []) (disable [leadMaster]) leadMaster "stepdown"
          "Step down %q as Kubernetes leader" with Requires := ["kubelet-permissions"] },
      { electPhase leadMaster (o :: os) with
        Requires := [(leadBranch r leadMaster (o :: os) supportsTaints).ID] },
      ?_, ?_, ?_, rfl, ?_, ?_, rfl, ?_, ?_⟩
    · rw [Phase.flatten_eq, masters_drop2, masters_phases_cons, flattenAll_cons, flattenAll_cons,
        Phase.flatten_eq (leadBranch r leadMaster (o :: os) supportsTaints), leadBranch_phases,
        leadBranchSubs_cons]
      simp [chain, flattenAll_cons, Phase.flatten_eq, flattenAll_nil, kubeletPermissionsPhase,
        setLeaderElection, electPhase]
    · rw [masters_stage0, leadBranch_phases, leadBranchSubs_cons]
      simp [chain, kubeletPermissionsPhase, setLeaderElection]
    · simp [setLeaderElection]
    · rw [masters_stage1]
    · simp [electPhase, setLeaderElection]
    · rw [masters_drop2, chain_map_ID, List.map_map]
      apply List.map_congr_left
      intro s _
      simp [otherBranch_ID, masters_childLiteral, mastersRoot]
    · intro b hb c hc
      exact mem_flattenAll _ b c hb hc

theorem commonNode_no_election (r : phaseBuilder) (s lead : storage.UpdateServer) (t w : Bool) :
    ∀ q ∈ r.commonNode s lead t w,
      q.ID ∈ ["drain", "system-upgrade", "taint", "uncordon", "endpoints", "untaint"] ∧
      q.Executor ≠ some Executor.electionStatus ∧
      q.Data.bind (fun d => d.ElectionChange) = none := by
  cases t <;> cases w <;> simp [phaseBuilder.commonNode]

/-- C20: the phase returned by `nodes` has exactly one child per node, in input
order: the branch named after the node under the root, which carries no
requirement (the branches are parallel) and whose own children are the phases of
`commonNode(node, leadMaster, supportsTaints, true)` added in sequence. So each
branch contains an endpoints phase and no phase that changes the leader
election. -/
theorem nodes_branches (r : phaseBuilder) (leadMaster : storage.UpdateServer)
    (nodes : List storage.UpdateServer) (supportsTaints : Bool) :
    (r.nodes leadMaster nodes supportsTaints).Phases =
      nodes.map (fun s =>
        (r.node s.Server (r.nodes leadMaster nodes supportsTaints)
          "Update system software on node %q").AddSequential
          (r.commonNode s leadMaster supportsTaints true)) ∧
    (r.nodes leadMaster nodes supportsTaints).Phases.map
        (fun b => (b.ID, b.Requires, b.Phases.map (fun c => (c.ID, c.Executor, c.Data, c.Phases)))) =
      nodes.map (fun s =>
        ((r.nodes leadMaster nodes supportsTaints).ChildLiteral s.Server.Hostname, [],
         (r.commonNode s leadMaster supportsTaints true).map
           (fun c => (c.ID, c.Executor, c.Data, c.Phases)))) ∧
    (∀ b ∈ (r.nodes leadMaster nodes supportsTaints).Phases,
      "endpoints" ∈ b.Phases.map (fun c => c.ID) ∧
      ∀ c ∈ b.Phases,
        c.ID ∈ ["drain", "system-upgrade", "taint", "uncordon", "endpoints", "untaint"] ∧
        c.Executor ≠ some Executor.electionStatus ∧
        c.Data.bind (fun d => d.ElectionChange) = none) := by
  have hP : (r.nodes leadMaster nodes supportsTaints).Phases =
      nodes.map (nodeBranch r leadMaster supportsTaints nodesRoot) := by
    rw [nodes_eq]
    simp [Phase.AddParallel, nodesRoot]
  have hID : (r.nodes leadMaster nodes supportsTaints).ID = nodesRoot.ID := by
    rw [nodes_eq]
    rfl
  have hbr : ∀ s, nodeBranch r leadMaster supportsTaints nodesRoot s =
      { r.node s.Server nodesRoot "Update system software on node %q" with
        Phases := chain none (r.commonNode s leadMaster supportsTaints true) } := by
    intro s
    unfold nodeBranch
    rw [Phase.AddSequential_eq]
    rfl
  refine ⟨?_, ?_, ?_⟩
  · rw [hP]
    apply List.map_congr_left
    intro s _
    rw [node_of_ID r s.Server _ nodesRoot _ hID]
    rfl
  · rw [hP, List.map_map]
    apply List.map_congr_left
    intro s _
    simp only [Function.comp, hbr, Phase.ChildLiteral, hID]
    rw [chain_map_payload]
    rfl
  · intro b hb
    rw [hP] at hb
    obtain ⟨s, _, rfl⟩ := List.mem_map.mp hb
    rw [hbr]
    refine ⟨?_, ?_⟩
    · show "endpoints" ∈ (chain none (r.commonNode s leadMaster supportsTaints true)).map
        (fun c => c.ID)
      rw [chain_map_ID, commonNode_ids_eq]
      cases supportsTaints <;> decide
    · intro c hc
      have hc' : (c.ID, c.Executor, c.Data) ∈
          (chain none (r.commonNode s leadMaster supportsTaints true)).map
            (fun c : Phase => (c.ID, c.Executor, c.Data)) :=
        List.mem_map_of_mem _ hc
      rw [chain_map_congr (fun c : Phase => (c.ID, c.Executor, c.Data)) (fun _ _ => rfl)] at hc'
      obtain ⟨q, hq, e⟩ := List.mem_map.mp hc'
      have hq' := commonNode_no_election r s leadMaster supportsTaints true q hq
      simp only [Prod.mk.injEq] at e
      rw [← e.1, ← e.2.1, ← e.2.2]
      exact hq'

end cluster
namespace cluster
open update

/-- C18, witness: the sample topology has two other masters. -/
theorem masters_preorder_witness :
    sampleMastersU ≠ [] ∧
    ∃ pre mid sd el,
      (({} : phaseBuilder).masters sampleLeadU sampleMastersU true).flatten =
        pre ++ sd :: (mid ++ el ::
          flattenAll ((({} : phaseBuilder).masters sampleLeadU sampleMastersU true).Phases.drop 2)) ∧
      ((({} : phaseBuilder).masters sampleLeadU sampleMastersU true).stage 0).Phases.get? 1 = some sd ∧
      sd.ID = "stepdown-" ++ sampleLeadU.Server.Hostname ∧
      sd.Executor = some Executor.electionStatus ∧
      el = (({} : phaseBuilder).masters sampleLeadU sampleMastersU true).stage 1 ∧
      el.ID = "elect-" ++ sampleLeadU.Server.Hostname ∧
      el.Executor = some Executor.electionStatus ∧
      ((({} : phaseBuilder).masters sampleLeadU sampleMastersU true).Phases.drop 2).map
          (fun b => b.ID) =
        sampleMastersU.map (fun s =>
          (({} : phaseBuilder).masters sampleLeadU sampleMastersU true).ChildLiteral
            s.Server.Hostname) ∧
      (∀ b ∈ (({} : phaseBuilder).masters sampleLeadU sampleMastersU true).Phases.drop 2,
        ∀ c ∈ b.flatten,
          c ∈ flattenAll
            ((({} : phaseBuilder).masters sampleLeadU sampleMastersU true).Phases.drop 2)) :=
  ⟨by decide, masters_preorder {} sampleLeadU sampleMastersU true (by decide)⟩

end cluster

namespace cluster
open update

/-- C30: the backup stage built by `etcdPlan` has exactly `1 + m` children for
`m` other masters: the backup of the lead master followed by one backup per
other master in input order, each targeting its own server under the child
path of its host name and run by the backup executor, and none with a
requirement. The stage is the same whatever the workers are, every backup
targets a master, and a worker that is not a master is targeted by no backup. -/
theorem etcdPlan_backup_stage (r : phaseBuilder) (leadMaster : storage.Server)
    (otherMasters workers : List storage.Server) (currentVersion desiredVersion : String) :
    ((r.etcdPlan leadMaster otherMasters workers currentVersion desiredVersion).stage 0).Phases.length =
      1 + otherMasters.length ∧
    ((r.etcdPlan leadMaster otherMasters workers currentVersion desiredVersion).stage 0).Phases.map
        Phase.summary
      = (leadMaster :: otherMasters).map (fun s =>
          (some s,
           ((r.etcdPlan leadMaster otherMasters workers currentVersion desiredVersion).stage 0).ChildLiteral
              s.Hostname,
           [])) ∧
    (∀ c ∈ ((r.etcdPlan leadMaster otherMasters workers currentVersion desiredVersion).stage 0).Phases,
      c.Executor = some Executor.updateEtcdBackup ∧ c.Requires = [] ∧ c.Phases = [] ∧
      ∃ s ∈ leadMaster :: otherMasters, c.server = some s) ∧
    ((r.etcdPlan leadMaster otherMasters workers currentVersion desiredVersion).stage 0).Requires = [] ∧
    (r.etcdPlan leadMaster otherMasters workers currentVersion desiredVersion).stage 0 =
      (r.etcdPlan leadMaster otherMasters [] currentVersion desiredVersion).stage 0 ∧
    (∀ w ∈ workers, w ∉ leadMaster :: otherMasters →
      ∀ c ∈ ((r.etcdPlan leadMaster otherMasters workers currentVersion desiredVersion).stage 0).Phases,
        c.server ≠ some w) := by
  rw [etcdPlan_stage0, etcdPlan_stage0]
  refine ⟨?_, ?_, ?_, rfl, rfl, ?_⟩
  · simp [backupStage, Nat.add_comm]
  · simp only [backup_childLiteral]
    simp [backupStage, Phase.summary, Phase.server, backupChild, Function.comp_def]
  · intro c hc
    simp only [backupStage, List.mem_map] at hc
    obtain ⟨s, hs, rfl⟩ := hc
    exact ⟨rfl, rfl, rfl, s, hs, rfl⟩
  · intro w _ hw c hc
    simp only [backupStage, List.mem_map] at hc
    obtain ⟨s, hs, rfl⟩ := hc
    intro h
    have : s = w := by simpa [backupChild, Phase.server] using h
    exact hw (this ▸ hs)

end cluster

namespace cluster
open update

/-! ## The package and bootstrap phases -/

theorem app_eq (r : phaseBuilder) (updates : List storage.Locator) :
    r.app updates =
      { ID := "app", Description := "Update installed application",
        Phases := updates.map (fun loc =>
          ({ Phases := [], ID := loc.Name,
             Executor := some Executor.updateApp,
             Description := "Update application " ++ quote loc.Name ++ " to " ++ loc.Version,
             Data := some { Package := some loc, Values := r.planConfig.values } } : Phase)) } := by
  unfold phaseBuilder.app
  simp only []
  rw [foldl_AddParallel_of_ID storage.Locator (fun _ loc =>
          ({ Phases := [], ID := loc.Name,
             Executor := some Executor.updateApp,
             Description := "Update application " ++ quote loc.Name ++ " to " ++ loc.Version,
             Data := some { Package := some loc, Values := r.planConfig.values } } : Phase))
        (fun _ _ _ _ => rfl)]
  simp [Phase.AddParallel, RootPhase]

theorem bootstrap_eq (r : phaseBuilder) :
    r.bootstrap =
      { ID := "bootstrap", Description := "Bootstrap update operation on nodes",
        Phases := r.planConfig.servers.map (fun server =>
          ({ Phases := [], ID := "bootstrap." ++ server.Server.Hostname,
             Executor := some Executor.updateBootstrap,
             Description := "Bootstrap node " ++ quote server.Server.Hostname,
             Data := some { ExecServer := some server.Server,
                            Package := some r.planConfig.updateApp.Package,
                            InstalledPackage := some r.planConfig.installedApp.Package,
                            Update := some { Servers := [server] } } } : Phase)) } := by
  unfold phaseBuilder.bootstrap
  simp only []
  rw [foldl_AddParallel_of_ID storage.UpdateServer (fun root server =>
          ({ Phases := [], ID := root.ChildLiteral server.Server.Hostname,
             Executor := some Executor.updateBootstrap,
             Description := "Bootstrap node " ++ quote server.Server.Hostname,
             Data := some { ExecServer := some server.Server,
                            Package := some r.planConfig.updateApp.Package,
                            InstalledPackage := some r.planConfig.installedApp.Package,
                            Update := some { Servers := [server] } } } : Phase))
        (fun a b _ h => by simp [Phase.ChildLiteral, h])]
  have e : ∀ h : String, ("bootstrap" ++ "." ++ h : String) = "bootstrap." ++ h := fun h => by
    rw [show ("bootstrap" ++ "." : String) = "bootstrap." by decide]
  simp [Phase.AddParallel, RootPhase, Phase.ChildLiteral, e]

theorem bootstrapSELinux_eq (r : phaseBuilder) :
    r.bootstrapSELinux =
      { ID := "selinux-bootstrap", Description := "Configure SELinux on nodes",
        Phases := r.planConfig.servers.map (fun server =>
          ({ Phases := [], ID := "selinux-bootstrap." ++ server.Server.Hostname,
             Executor := some Executor.updateBootstrapSELinux,
             Description := "Configure SELinux on node " ++ quote server.Server.Hostname,
             Data := some { ExecServer := some server.Server,
                            Package := some r.planConfig.updateApp.Package,
                            InstalledPackage := some r.planConfig.installedApp.Package,
                            Update := some { Servers := [server] } } } : Phase)) } := by
  unfold phaseBuilder.bootstrapSELinux
  simp only []
  rw [foldl_AddParallel_of_ID storage.UpdateServer (fun root server =>
          ({ Phases := [], ID := root.ChildLiteral server.Server.Hostname,
             Executor := some Executor.updateBootstrapSELinux,
             Description := "Configure SELinux on node " ++ quote server.Server.Hostname,
             Data := some { ExecServer := some server.Server,
                            Package := some r.planConfig.updateApp.Package,
                            InstalledPackage := some r.planConfig.installedApp.Package,
                            Update := some { Servers := [server] } } } : Phase))
        (fun a b _ h => by simp [Phase.ChildLiteral, h])]
  have e : ∀ h : String, ("selinux-bootstrap" ++ "." ++ h : String) = "selinux-bootstrap." ++ h :=
    fun h => by rw [show ("selinux-bootstrap" ++ "." : String) = "selinux-bootstrap." by decide]
  simp [Phase.AddParallel, RootPhase, Phase.ChildLiteral, e]

/-- C23: the phase returned by `app` has exactly one child per update, in input
order: the child of an update has the name of the package as its identifier,
carries the package together with the values of the operation, is run by the
application executor, and has neither a requirement nor children of its own. -/
theorem app_children (r : phaseBuilder) (updates : List storage.Locator) :
    (r.app updates).ID = "app" ∧
    (r.app updates).Phases.length = updates.length ∧
    (r.app updates).Phases.map (fun c => (c.ID, packageOf c, c.Requires)) =
      updates.map (fun loc => (loc.Name, some loc, [])) ∧
    (∀ i (h : i < updates.length), ∃ c, (r.app updates).Phases.get? i = some c ∧
      c.ID = (updates.get ⟨i, h⟩).Name ∧
      c.Data = some { Package := some (updates.get ⟨i, h⟩), Values := r.planConfig.values } ∧
      c.Executor = some Executor.updateApp ∧ c.Requires = [] ∧ c.Phases = []) := by
  rw [app_eq]
  refine ⟨rfl, by simp, by simp [packageOf, Function.comp_def], ?_⟩
  intro i h
  refine ⟨{ Phases := [], ID := (updates.get ⟨i, h⟩).Name,
             Executor := some Executor.updateApp,
             Description := "Update application " ++ quote (updates.get ⟨i, h⟩).Name ++ " to " ++
               (updates.get ⟨i, h⟩).Version,
             Data := some { Package := some (updates.get ⟨i, h⟩), Values := r.planConfig.values } },
    by simp [List.getElem?_eq_getElem h], rfl, rfl, rfl, rfl, rfl⟩

/-- C24: the phases returned by `bootstrap` and by `bootstrapSELinux` each have
exactly one child per server of the plan configuration, in the order of the
servers: the child of a server has the child path of its host name as its
identifier, the server as its executing server, the singleton list of that
server as its update servers, and the target and the installed application
packages; being parallel children, none has a requirement. -/
theorem bootstrap_children (r : phaseBuilder) :
    (r.bootstrap.ID = "bootstrap" ∧
     r.bootstrap.Phases.length = r.planConfig.servers.length ∧
     r.bootstrap.Phases.map (fun c => (c.ID, c.Executor, c.Data, c.Requires, c.Phases.length)) =
       r.planConfig.servers.map (fun server =>
         (r.bootstrap.ChildLiteral server.Server.Hostname,
          some Executor.updateBootstrap,
          some { ExecServer := some server.Server,
                 Package := some r.planConfig.updateApp.Package,
                 InstalledPackage := some r.planConfig.installedApp.Package,
                 Update := some { Servers := [server] } },
          [], 0))) ∧
    (r.bootstrapSELinux.ID = "selinux-bootstrap" ∧
     r.bootstrapSELinux.Phases.length = r.planConfig.servers.length ∧
     r.bootstrapSELinux.Phases.map (fun c => (c.ID, c.Executor, c.Data, c.Requires, c.Phases.length)) =
       r.planConfig.servers.map (fun server =>
         (r.bootstrapSELinux.ChildLiteral server.Server.Hostname,
          some Executor.updateBootstrapSELinux,
          some { ExecServer := some server.Server,
                 Package := some r.planConfig.updateApp.Package,
                 InstalledPackage := some r.planConfig.installedApp.Package,
                 Update := some { Servers := [server] } },
          [], 0))) := by
  have e1 : ∀ h : String, ("bootstrap" ++ "." ++ h : String) = "bootstrap." ++ h := fun h => by
    rw [show ("bootstrap" ++ "." : String) = "bootstrap." by decide]
  have e2 : ∀ h : String, ("selinux-bootstrap" ++ "." ++ h : String) = "selinux-bootstrap." ++ h :=
    fun h => by rw [show ("selinux-bootstrap" ++ "." : String) = "selinux-bootstrap." by decide]
  rw [bootstrap_eq, bootstrapSELinux_eq]
  refine ⟨⟨rfl, by simp, ?_⟩, ⟨rfl, by simp, ?_⟩⟩
  · simp [Phase.ChildLiteral, e1, Function.comp_def]
  · simp [Phase.ChildLiteral, e2, Function.comp_def]

end cluster

namespace cluster
open update

/-! ## The runtime phase -/

theorem runtime_childLiteral (h : String) : ("runtime" ++ "." ++ h : String) = "runtime." ++ h := by
  rw [show ("runtime" ++ "." : String) = "runtime." by decide]

/-- The `runtime` phase in closed form: the chain of the children of the sorted
updates. -/
theorem runtime_eq (r : phaseBuilder)
    (sortSlice : (storage.Locator → storage.Locator → Bool) → List storage.Locator →
      List storage.Locator)
    (updates : List storage.Locator) :
    r.runtime sortSlice updates =
      { ID := "runtime", Description := "Update application runtime",
        Phases := chain none ((sortSlice runtimeLess updates).map (fun loc => runtimeChild loc [])) } := by
  unfold phaseBuilder.runtime
  simp only []
  rw [foldl_AddSequential_of_ID storage.Locator (fun root loc =>
        ({ Phases := [], ID := root.Child
              { Phases := [], ID := loc.Name,
                Executor := some Executor.updateApp,
                Description := "Update system application " ++ quote loc.Name ++ " to " ++ loc.Version,
                Data := some { Package := some loc } },
           Executor := some Executor.updateApp,
           Description := "Update system application " ++ quote loc.Name ++ " to " ++ loc.Version,
           Data := some { Package := some loc } } : Phase))
        (fun a b _ h => by simp [Phase.Child, Phase.ChildLiteral, h])]
  rw [Phase.AddSequential_eq]
  simp [RootPhase, Phase.Child, Phase.ChildLiteral, runtime_childLiteral, runtimeChild]

/-- The insertion pass keeps the elements. -/
theorem insertBack_perm (less : storage.Locator → storage.Locator → Bool) (x : storage.Locator)
    (sorted : List storage.Locator) : (insertBack less x sorted).Perm (x :: sorted) := by
  induction sorted with
  | nil => exact List.Perm.refl _
  | cons y t ih =>
    unfold insertBack
    split
    · exact ((List.Perm.cons y ih).trans (List.Perm.swap x y t))
    · exact List.Perm.refl _

/-- The insertion sort returns a permutation of its input, whatever the
comparison is. -/
theorem insertionSort_perm (less : storage.Locator → storage.Locator → Bool)
    (data : List storage.Locator) : (insertionSort less data).Perm data := by
  have key : ∀ (l acc : List storage.Locator),
      (l.foldl (fun sorted x => insertBack less x sorted) acc).Perm (l.reverse ++ acc) := by
    intro l
    induction l with
    | nil => intro acc; exact List.Perm.refl _
    | cons a t ih =>
      intro acc
      rw [List.foldl_cons]
      refine (ih _).trans ?_
      rw [List.reverse_cons, List.append_assoc]
      exact List.Perm.append_left _ (insertBack_perm less a acc)
  unfold insertionSort
  refine (List.reverse_perm _).trans ?_
  have := key data []
  rw [List.append_nil] at this
  exact this.trans (List.reverse_perm _)

end cluster

namespace cluster
open update

theorem insertBack_boot (x : storage.Locator) (hx : (x.Name == constants.BootstrapConfigPackage) = true)
    (sorted : List storage.Locator) : insertBack runtimeLess x sorted = sorted ++ [x] := by
  induction sorted with
  | nil => rfl
  | cons y t ih =>
    unfold insertBack
    rw [if_pos (show runtimeLess x y = true from hx), ih]
    rfl

theorem insertBack_other (x : storage.Locator) (hx : (x.Name == constants.BootstrapConfigPackage) = false)
    (sorted : List storage.Locator) : insertBack runtimeLess x sorted = x :: sorted := by
  cases sorted with
  | nil => rfl
  | cons y t =>
    unfold insertBack
    rw [if_neg (show ¬ runtimeLess x y = true by simp [runtimeLess, hx])]

/-- The insertion sort of the Go library, run with the comparison of `runtime`
on updates of which at most one is the bootstrap configuration package,
returns a sorted list: no element is less than an element before it. -/
theorem insertionSort_sorted (data : List storage.Locator)
    (h : (data.filter (fun loc => loc.Name == constants.BootstrapConfigPackage)).length ≤ 1) :
    (insertionSort runtimeLess data).Pairwise (fun a b => runtimeLess b a = false) := by
  have key : ∀ (l acc : List storage.Locator),
      acc.Pairwise (fun b a => runtimeLess b a = false) →
      (l.filter (fun loc => loc.Name == constants.BootstrapConfigPackage)).length +
        (acc.filter (fun loc => loc.Name == constants.BootstrapConfigPackage)).length ≤ 1 →
      (l.foldl (fun sorted x => insertBack runtimeLess x sorted) acc).Pairwise
        (fun b a => runtimeLess b a = false) := by
    intro l
    induction l with
    | nil => intro acc hp _; exact hp
    | cons x t ih =>
      intro acc hp hc
      rw [List.foldl_cons]
      cases hx : (x.Name == constants.BootstrapConfigPackage) with
      | true =>
        rw [insertBack_boot x hx]
        simp only [List.filter_cons, hx, if_true, List.length_cons] at hc
        have h0 : (acc.filter (fun loc => loc.Name == constants.BootstrapConfigPackage)).length = 0 := by
          omega
        have hnil := List.length_eq_zero.mp h0
        apply ih
        · rw [List.pairwise_append]
          refine ⟨hp, List.pairwise_singleton _ _, ?_⟩
          intro b hb a _
          have := (List.filter_eq_nil_iff.mp hnil) b hb
          simpa [runtimeLess] using this
        · simp only [List.filter_append, List.length_append, hnil, List.filter_cons, hx, if_true,
            List.filter_nil, List.length_cons, List.length_nil]
          omega
      | false =>
        rw [insertBack_other x hx]
        simp only [List.filter_cons, hx] at hc
        apply ih
        · rw [List.pairwise_cons]
          exact ⟨fun a _ => by simp [runtimeLess, hx], hp⟩
        · simp only [List.filter_cons, hx]
          simpa using hc
  unfold insertionSort
  rw [List.pairwise_reverse]
  exact key data [] List.Pairwise.nil (by simpa using h)

/-- In a sorted list of updates that holds exactly one bootstrap configuration
package, that package is the first element. -/
theorem sorted_head_boot (sorted : List storage.Locator) (p : storage.Locator)
    (hs : sorted.Pairwise (fun a b => runtimeLess b a = false))
    (hone : sorted.filter (fun loc => loc.Name == constants.BootstrapConfigPackage) = [p]) :
    sorted.head? = some p := by
  cases sorted with
  | nil => simp at hone
  | cons a t =>
    rw [List.pairwise_cons] at hs
    have ht : t.filter (fun loc => loc.Name == constants.BootstrapConfigPackage) = [] := by
      rw [List.filter_eq_nil_iff]
      intro b hb
      have := hs.1 b hb
      simpa [runtimeLess] using this
    cases ha : (a.Name == constants.BootstrapConfigPackage) with
    | true =>
      simp only [List.filter_cons, ha, if_true, ht] at hone
      simp only [List.head?_cons]
      exact congrArg some (List.cons.inj hone).1
    | false =>
      simp only [List.filter_cons, ha, ht] at hone
      simp at hone

end cluster

namespace update

/-- A phase of a chain is a phase of the list it was made from, up to its
requirements. -/
theorem mem_chain (prev : Option String) (sub : List Phase) (c : Phase) (h : c ∈ chain prev sub) :
    ∃ s ∈ sub, ∃ reqs, c = { s with Requires := reqs } := by
  induction sub generalizing prev with
  | nil => cases prev <;> simp [chain] at h
  | cons s rest ih =>
    cases prev with
    | none =>
      simp only [chain, List.mem_cons] at h
      rcases h with rfl | h
      · exact ⟨c, List.mem_cons_self _ _, c.Requires, by cases c; rfl⟩
      · obtain ⟨t, ht, reqs, e⟩ := ih _ h
        exact ⟨t, List.mem_cons_of_mem _ ht, reqs, e⟩
    | some id =>
      simp only [chain, List.mem_cons] at h
      rcases h with rfl | h
      · exact ⟨s, List.mem_cons_self _ _, _, rfl⟩
      · obtain ⟨t, ht, reqs, e⟩ := ih _ h
        exact ⟨t, List.mem_cons_of_mem _ ht, reqs, e⟩

/-- The first phase of a chain without a predecessor keeps its requirements. -/
theorem chain_none_head_requires (sub : List Phase) (c : Phase)
    (h : (chain none sub).head? = some c) : ∃ s ∈ sub, c = s := by
  cases sub with
  | nil => simp [chain] at h
  | cons s rest =>
    simp only [chain, List.head?_cons, Option.some.injEq] at h
    exact ⟨s, List.mem_cons_self _ _, h.symm⟩

end update

namespace cluster
open update

/-- C21: when the sort returns a sorted permutation of the updates and exactly
one update is the bootstrap configuration package, the first child of the
phase returned by `runtime` is the update phase of that package, wherever the
package stands in the input: it carries the package, has the child path of the
package name as its identifier, is run by the application executor and has no
requirement. -/
theorem runtime_bootstrap_first (r : phaseBuilder)
    (sortSlice : (storage.Locator → storage.Locator → Bool) → List storage.Locator →
      List storage.Locator)
    (updates : List storage.Locator) (p : storage.Locator)
    (hperm : (sortSlice runtimeLess updates).Perm updates)
    (hsorted : (sortSlice runtimeLess updates).Pairwise (fun a b => runtimeLess b a = false))
    (hone : updates.filter (fun loc => loc.Name == constants.BootstrapConfigPackage) = [p]) :
    ∃ c, (r.runtime sortSlice updates).Phases.head? = some c ∧
      packageOf c = some p ∧
      c.ID = (r.runtime sortSlice updates).ChildLiteral p.Name ∧
      c.Executor = some Executor.updateApp ∧
      c.Requires = [] ∧ c.Phases = [] := by
  have hone' : (sortSlice runtimeLess updates).filter
      (fun loc => loc.Name == constants.BootstrapConfigPackage) = [p] := by
    have := hperm.filter (fun loc => loc.Name == constants.BootstrapConfigPackage)
    rw [hone] at this
    exact List.perm_singleton.mp this
  have hhead := sorted_head_boot _ p hsorted hone'
  rw [runtime_eq]
  refine ⟨runtimeChild p [], ?_, rfl, ?_, rfl, rfl, rfl⟩
  · rw [chain_none_head, List.head?_map, hhead]
    rfl
  · exact (runtime_childLiteral p.Name).symm

/-- C21, witness: the insertion sort of the Go library on the sample updates,
where the bootstrap configuration package stands in the middle. -/
theorem runtime_bootstrap_first_witness :
    (insertionSort runtimeLess sampleUpdates).Perm sampleUpdates ∧
    (insertionSort runtimeLess sampleUpdates).Pairwise (fun a b => runtimeLess b a = false) ∧
    sampleUpdates.filter (fun loc => loc.Name == constants.BootstrapConfigPackage) =
      [{ Repository := "gravitational.io", Name := constants.BootstrapConfigPackage,
         Version := "7.0.0" }] ∧
    ∃ c, (({} : phaseBuilder).runtime insertionSort sampleUpdates).Phases.head? = some c ∧
      packageOf c = some { Repository := "gravitational.io", Name := constants.BootstrapConfigPackage,
                           Version := "7.0.0" } ∧
      c.ID = (({} : phaseBuilder).runtime insertionSort sampleUpdates).ChildLiteral
        constants.BootstrapConfigPackage ∧
      c.Executor = some Executor.updateApp ∧
      c.Requires = [] ∧ c.Phases = [] :=
  ⟨insertionSort_perm _ _, insertionSort_sorted _ (by decide), by decide,
   runtime_bootstrap_first {} insertionSort sampleUpdates
     { Repository := "gravitational.io", Name := constants.BootstrapConfigPackage, Version := "7.0.0" }
     (insertionSort_perm _ _) (insertionSort_sorted _ (by decide)) (by decide)⟩

/-- With the insertion sort of the Go library, the first child of `runtime` is
the update phase of the bootstrap configuration package whenever exactly one
update is that package. -/
theorem runtime_insertionSort_bootstrap_first (r : phaseBuilder) (updates : List storage.Locator)
    (p : storage.Locator)
    (hone : updates.filter (fun loc => loc.Name == constants.BootstrapConfigPackage) = [p]) :
    (r.runtime insertionSort updates).Phases.head? = some (runtimeChild p []) := by
  have hone' : (insertionSort runtimeLess updates).filter
      (fun loc => loc.Name == constants.BootstrapConfigPackage) = [p] := by
    have := (insertionSort_perm runtimeLess updates).filter
      (fun loc => loc.Name == constants.BootstrapConfigPackage)
    rw [hone] at this
    exact List.perm_singleton.mp this
  have hhead := sorted_head_boot _ p (insertionSort_sorted updates (by rw [hone]; simp)) hone'
  rw [runtime_eq, chain_none_head, List.head?_map, hhead]
  rfl

/-- C22: when the sort returns a permutation of the updates, the phase returned
by `runtime` has exactly one child per update: the packages the children carry
are the sorted updates, a permutation of the input; every child carries a
package of the input and has the child path of the name of its package as its
identifier; the first child has no requirement and every later child requires
exactly the child right before it. -/
theorem runtime_children (r : phaseBuilder)
    (sortSlice : (storage.Locator → storage.Locator → Bool) → List storage.Locator →
      List storage.Locator)
    (updates : List storage.Locator)
    (hperm : (sortSlice runtimeLess updates).Perm updates) :
    (r.runtime sortSlice updates).ID = "runtime" ∧
    (r.runtime sortSlice updates).Phases.length = updates.length ∧
    ((r.runtime sortSlice updates).Phases.filterMap packageOf).Perm updates ∧
    (r.runtime sortSlice updates).Phases.map (fun c => (packageOf c, c.ID)) =
      (sortSlice runtimeLess updates).map (fun loc =>
        (some loc, (r.runtime sortSlice updates).ChildLiteral loc.Name)) ∧
    (∀ c ∈ (r.runtime sortSlice updates).Phases, ∃ loc ∈ updates,
      packageOf c = some loc ∧ c.ID = (r.runtime sortSlice updates).ChildLiteral loc.Name ∧
      c.Executor = some Executor.updateApp ∧ c.Phases = []) ∧
    (∀ c, (r.runtime sortSlice updates).Phases.head? = some c → c.Requires = []) ∧
    List.Chain' (fun a b => b.Requires = [a.ID]) (r.runtime sortSlice updates).Phases := by
  rw [runtime_eq]
  have hmap : (chain none ((sortSlice runtimeLess updates).map (fun loc => runtimeChild loc []))).map
      packageOf = (sortSlice runtimeLess updates).map some := by
    rw [chain_map_congr (fun c : Phase => packageOf c) (fun _ _ => rfl), List.map_map]
    rfl
  refine ⟨rfl, ?_, ?_, ?_, ?_, ?_, ?_⟩
  · simp only [chain_length, List.length_map]
    exact hperm.length_eq
  · have e : (chain none ((sortSlice runtimeLess updates).map (fun loc => runtimeChild loc []))).filterMap
        packageOf = sortSlice runtimeLess updates := by
      have := List.filterMap_map packageOf (fun x : Option storage.Locator => x)
        (chain none ((sortSlice runtimeLess updates).map (fun loc => runtimeChild loc [])))
      rw [hmap, List.filterMap_map] at this
      simpa [Function.comp_def] using this.symm
    simp only [e]
    exact hperm
  · simp only []
    rw [chain_map_congr (fun c : Phase => (packageOf c, c.ID)) (fun _ _ => rfl), List.map_map]
    simp [Function.comp_def, packageOf, runtimeChild, Phase.ChildLiteral, runtime_childLiteral]
  · intro c hc
    simp only [] at hc
    obtain ⟨s, hs, reqs, rfl⟩ := mem_chain _ _ _ hc
    rw [List.mem_map] at hs
    obtain ⟨loc, hloc, rfl⟩ := hs
    exact ⟨loc, hperm.mem_iff.mp hloc, rfl, (runtime_childLiteral loc.Name).symm, rfl, rfl⟩
  · intro c hc
    simp only [] at hc
    obtain ⟨s, hs, rfl⟩ := chain_none_head_requires _ _ hc
    rw [List.mem_map] at hs
    obtain ⟨loc, _, rfl⟩ := hs
    rfl
  · simp only []
    apply chain_chain'
    intro s hs
    rw [List.mem_map] at hs
    obtain ⟨loc, _, rfl⟩ := hs
    rfl

/-- C22, witness: the insertion sort of the Go library on the sample updates. -/
theorem runtime_children_witness :
    (insertionSort runtimeLess sampleUpdates).Perm sampleUpdates ∧
    ((({} : phaseBuilder).runtime insertionSort sampleUpdates).ID = "runtime" ∧
     (({} : phaseBuilder).runtime insertionSort sampleUpdates).Phases.length = sampleUpdates.length ∧
     ((({} : phaseBuilder).runtime insertionSort sampleUpdates).Phases.filterMap packageOf).Perm
       sampleUpdates ∧
     (({} : phaseBuilder).runtime insertionSort sampleUpdates).Phases.map (fun c => (packageOf c, c.ID)) =
       (insertionSort runtimeLess sampleUpdates).map (fun loc =>
         (some loc, (({} : phaseBuilder).runtime insertionSort sampleUpdates).ChildLiteral loc.Name)) ∧
     (∀ c ∈ (({} : phaseBuilder).runtime insertionSort sampleUpdates).Phases, ∃ loc ∈ sampleUpdates,
       packageOf c = some loc ∧
       c.ID = (({} : phaseBuilder).runtime insertionSort sampleUpdates).ChildLiteral loc.Name ∧
       c.Executor = some Executor.updateApp ∧ c.Phases = []) ∧
     (∀ c, (({} : phaseBuilder).runtime insertionSort sampleUpdates).Phases.head? = some c →
       c.Requires = []) ∧
     List.Chain' (fun a b => b.Requires = [a.ID])
       (({} : phaseBuilder).runtime insertionSort sampleUpdates).Phases) :=
  ⟨insertionSort_perm _ _,
   runtime_children {} insertionSort sampleUpdates (insertionSort_perm _ _)⟩

end cluster

namespace cluster
open update

/-! ## The version gates -/

/-- The result of `shouldUpdateEtcd` once the installed runtime package is
resolved. -/
theorem shouldUpdateEtcd_resolved {V : Type} (sv : semver.Library V) (p : planConfig)
    (installed : storage.Locator) (hinst : installedRuntimePackage p installed) :
    shouldUpdateEtcd sv p =
      match (match getEtcdVersion sv "version-etcd" installed p.packageService with
             | Except.ok installedVersion =>
               (Except.ok (some installedVersion, false) :
                 Except (Bool × String × String × Option trace.Error) (Option V × Bool))
             | Except.error err =>
               if !trace.IsNotFound err then Except.error (false, "", "", some (trace.Wrap err))
               else Except.ok (none, true)) with
      | Except.error result => result
      | Except.ok (installedVersion, updateEtcd) =>
        match p.updateRuntime.Manifest.DefaultRuntimePackage with
        | Except.error err => (false, "", "", some (trace.Wrap err))
        | Except.ok runtimePackage =>
          match getEtcdVersion sv "version-etcd" runtimePackage p.packageService with
          | Except.error err => (false, "", "", some (trace.Wrap err))
          | Except.ok updateVersion =>
            ((match installedVersion with
              | none => true
              | some installedVersion =>
                if sv.Compare installedVersion updateVersion < 0 then true else updateEtcd),
             (match installedVersion with
              | some installedVersion => sv.String installedVersion
              | none => ""),
             sv.String updateVersion, none) := by
  unfold shouldUpdateEtcd
  rcases hinst with h | ⟨err, h, hnf, hl⟩
  · simp only [h]
  · simp only [h, hnf, hl, Bool.not_true, Bool.false_eq_true, if_false]

end cluster

namespace cluster
open update

/-- The result of `shouldUpdateEtcd` once the installed runtime package is
resolved and the lookup of its label gave a version or a not-found error:
`installedVersion` is the version, if any. -/
theorem shouldUpdateEtcd_installed {V : Type} (sv : semver.Library V) (p : planConfig)
    (installed : storage.Locator) (hinst : installedRuntimePackage p installed)
    (installedVersion : Option V)
    (hlabel : (∃ v, installedVersion = some v ∧
        getEtcdVersion sv "version-etcd" installed p.packageService = Except.ok v) ∨
      (installedVersion = none ∧ ∃ err,
        getEtcdVersion sv "version-etcd" installed p.packageService = Except.error err ∧
        trace.IsNotFound err = true)) :
    shouldUpdateEtcd sv p =
      match p.updateRuntime.Manifest.DefaultRuntimePackage with
      | Except.error err => (false, "", "", some (trace.Wrap err))
      | Except.ok runtimePackage =>
        match getEtcdVersion sv "version-etcd" runtimePackage p.packageService with
        | Except.error err => (false, "", "", some (trace.Wrap err))
        | Except.ok updateVersion =>
          ((match installedVersion with
            | none => true
            | some installedVersion => decide (sv.Compare installedVersion updateVersion < 0)),
           (match installedVersion with
            | some installedVersion => sv.String installedVersion
            | none => ""),
           sv.String updateVersion, none) := by
  rw [shouldUpdateEtcd_resolved sv p installed hinst]
  rcases hlabel with ⟨v, rfl, hv⟩ | ⟨rfl, err, he, hnf⟩
  · simp only [hv]
    cases p.updateRuntime.Manifest.DefaultRuntimePackage with
    | error e => rfl
    | ok target =>
      simp only []
      cases getEtcdVersion sv "version-etcd" target p.packageService with
      | error e => rfl
      | ok u =>
        simp only []
        by_cases hc : sv.Compare v u < 0 <;> simp [hc]
  · simp only [he, hnf, Bool.not_true, Bool.false_eq_true, if_false]

/-- Whenever `shouldUpdateEtcd` returns an error, its other results are `false`
and two empty strings. -/
theorem shouldUpdateEtcd_error_shape {V : Type} (sv : semver.Library V) (p : planConfig)
    (err : trace.Error) (h : (shouldUpdateEtcd sv p).2.2.2 = some err) :
    shouldUpdateEtcd sv p = (false, "", "", some err) := by
  have target : ∀ (installed : storage.Locator), installedRuntimePackage p installed →
      shouldUpdateEtcd sv p = (false, "", "", some err) := by
    intro installed hinst
    cases hI : getEtcdVersion sv "version-etcd" installed p.packageService with
    | error e =>
      cases hnf : trace.IsNotFound e with
      | false =>
        rw [shouldUpdateEtcd_resolved sv p installed hinst] at h ⊢
        simp only [hI, hnf, Bool.not_false, if_true] at h ⊢
        rw [Option.some.inj h]
      | true =>
        rw [shouldUpdateEtcd_installed sv p installed hinst none (Or.inr ⟨rfl, e, hI, hnf⟩)] at h ⊢
        cases hT : p.updateRuntime.Manifest.DefaultRuntimePackage with
        | error e2 => simp only [hT] at h ⊢; rw [Option.some.inj h]
        | ok target =>
          simp only [hT] at h ⊢
          cases hU : getEtcdVersion sv "version-etcd" target p.packageService with
          | error e3 => simp only [hU] at h ⊢; rw [Option.some.inj h]
          | ok u => simp only [hU] at h; exact absurd h (by simp)
    | ok v =>
      rw [shouldUpdateEtcd_installed sv p installed hinst (some v) (Or.inl ⟨v, rfl, hI⟩)] at h ⊢
      cases hT : p.updateRuntime.Manifest.DefaultRuntimePackage with
      | error e2 => simp only [hT] at h ⊢; rw [Option.some.inj h]
      | ok target =>
        simp only [hT] at h ⊢
        cases hU : getEtcdVersion sv "version-etcd" target p.packageService with
        | error e3 => simp only [hU] at h ⊢; rw [Option.some.inj h]
        | ok u => simp only [hU] at h; exact absurd h (by simp)
  cases hD : p.installedRuntime.Manifest.DefaultRuntimePackage with
  | ok pkg => exact target pkg (Or.inl hD)
  | error e =>
    cases hnf : trace.IsNotFound e with
    | false =>
      unfold shouldUpdateEtcd at h ⊢
      simp only [hD, hnf, Bool.not_false, if_true] at h ⊢
      rw [Option.some.inj h]
    | true =>
      cases hL : p.installedRuntime.Manifest.Dependencies.ByName storage.LegacyPlanetMaster.Name with
      | ok pkg => exact target pkg (Or.inr ⟨e, hD, hnf, hL⟩)
      | error e2 =>
        unfold shouldUpdateEtcd at h ⊢
        simp only [hD, hnf, hL, Bool.not_true, Bool.false_eq_true, if_false] at h ⊢
        rw [Option.some.inj h]

end cluster

namespace cluster
open update

/-- C25: when the installed runtime package resolves, the lookup of its
`version-etcd` label gives a not-found error, and the target runtime package
and its `version-etcd` label resolve to the version `U`, `shouldUpdateEtcd`
returns no error, `updateEtcd = true`, an empty installed version string and
the string of `U` as the update version string. -/
theorem shouldUpdateEtcd_missing_label {V : Type} (sv : semver.Library V) (p : planConfig)
    (installed target : storage.Locator) (U : V)
    (hinst : installedRuntimePackage p installed)
    (hlabel : ∃ err, getEtcdVersion sv "version-etcd" installed p.packageService = Except.error err ∧
      trace.IsNotFound err = true)
    (htarget : p.updateRuntime.Manifest.DefaultRuntimePackage = Except.ok target)
    (hU : getEtcdVersion sv "version-etcd" target p.packageService = Except.ok U) :
    shouldUpdateEtcd sv p = (true, "", sv.String U, none) := by
  rw [shouldUpdateEtcd_installed sv p installed hinst none (Or.inr ⟨rfl, hlabel⟩)]
  simp only [htarget, hU]

/-- C25, witness: the installed runtime 4.0.0 of the sample has a manifest
without a `version-etcd` label, and the target runtime 7.0.0 carries etcd
3.4.9. -/
theorem shouldUpdateEtcd_missing_label_witness :
    installedRuntimePackage sampleLegacyConfig
      { Repository := "gravitational.io", Name := "planet", Version := "4.0.0" } ∧
    (∃ err, getEtcdVersion semver.sample "version-etcd"
        { Repository := "gravitational.io", Name := "planet", Version := "4.0.0" }
        sampleLegacyConfig.packageService = Except.error err ∧
      trace.IsNotFound err = true) ∧
    sampleLegacyConfig.updateRuntime.Manifest.DefaultRuntimePackage =
      Except.ok { Repository := "gravitational.io", Name := "planet", Version := "7.0.0" } ∧
    getEtcdVersion semver.sample "version-etcd"
        { Repository := "gravitational.io", Name := "planet", Version := "7.0.0" }
        sampleLegacyConfig.packageService =
      Except.ok { Major := 3, Minor := 4, Patch := 9 } ∧
    shouldUpdateEtcd semver.sample sampleLegacyConfig = (true, "", "3.4.9", none) :=
  ⟨Or.inl rfl, ⟨_, rfl, rfl⟩, rfl, rfl,
   shouldUpdateEtcd_missing_label semver.sample sampleLegacyConfig
     { Repository := "gravitational.io", Name := "planet", Version := "4.0.0" }
     { Repository := "gravitational.io", Name := "planet", Version := "7.0.0" }
     { Major := 3, Minor := 4, Patch := 9 }
     (Or.inl rfl) ⟨_, rfl, rfl⟩ rfl rfl⟩

/-- C26: when the installed and the target runtime packages resolve and their
`version-etcd` labels give the versions `I` and `U`, `shouldUpdateEtcd` returns
no error and the strings of `I` and `U`, and `updateEtcd` is `true` exactly
when `I` compares lower than `U`: for equal versions and for a downgrade it is
`false`. -/
theorem shouldUpdateEtcd_compares {V : Type} (sv : semver.Library V) (p : planConfig)
    (installed target : storage.Locator) (I U : V)
    (hinst : installedRuntimePackage p installed)
    (hI : getEtcdVersion sv "version-etcd" installed p.packageService = Except.ok I)
    (htarget : p.updateRuntime.Manifest.DefaultRuntimePackage = Except.ok target)
    (hU : getEtcdVersion sv "version-etcd" target p.packageService = Except.ok U) :
    shouldUpdateEtcd sv p = (decide (sv.Compare I U < 0), sv.String I, sv.String U, none) ∧
    ((shouldUpdateEtcd sv p).1 = true ↔ sv.Compare I U < 0) ∧
    (sv.Compare I U = 0 → (shouldUpdateEtcd sv p).1 = false) ∧
    (0 < sv.Compare I U → (shouldUpdateEtcd sv p).1 = false) := by
  have e : shouldUpdateEtcd sv p = (decide (sv.Compare I U < 0), sv.String I, sv.String U, none) := by
    rw [shouldUpdateEtcd_installed sv p installed hinst (some I) (Or.inl ⟨I, rfl, hI⟩)]
    simp only [htarget, hU]
  rw [e]
  refine ⟨rfl, by simp, ?_, ?_⟩
  · intro h; simp [h]
  · intro h; simp only [decide_eq_false_iff_not]; omega

/-- C26, witness: the sample update of the runtime from 5.0.0 to 7.0.0 takes
etcd from 3.3.11 to 3.4.9. -/
theorem shouldUpdateEtcd_compares_witness :
    installedRuntimePackage sampleEtcdConfig
      { Repository := "gravitational.io", Name := "planet", Version := "5.0.0" } ∧
    getEtcdVersion semver.sample "version-etcd"
        { Repository := "gravitational.io", Name := "planet", Version := "5.0.0" }
        sampleEtcdConfig.packageService =
      Except.ok { Major := 3, Minor := 3, Patch := 11 } ∧
    sampleEtcdConfig.updateRuntime.Manifest.DefaultRuntimePackage =
      Except.ok { Repository := "gravitational.io", Name := "planet", Version := "7.0.0" } ∧
    getEtcdVersion semver.sample "version-etcd"
        { Repository := "gravitational.io", Name := "planet", Version := "7.0.0" }
        sampleEtcdConfig.packageService =
      Except.ok { Major := 3, Minor := 4, Patch := 9 } ∧
    shouldUpdateEtcd semver.sample sampleEtcdConfig = (true, "3.3.11", "3.4.9", none) :=
  ⟨Or.inl rfl, rfl, rfl, rfl,
   (shouldUpdateEtcd_compares semver.sample sampleEtcdConfig
     { Repository := "gravitational.io", Name := "planet", Version := "5.0.0" }
     { Repository := "gravitational.io", Name := "planet", Version := "7.0.0" }
     { Major := 3, Minor := 3, Patch := 11 } { Major := 3, Minor := 4, Patch := 9 }
     (Or.inl rfl) rfl rfl rfl).1⟩

/-- C27: whenever `shouldUpdateEtcd` returns an error, its other results are
`false` and two empty strings. An error is returned on each failure path: for
an error of the installed default runtime package that is not a not-found
error; when neither the default nor the legacy runtime package is found; for an
error of the installed label that is not a not-found error; and, the installed
label being found or missing, for any error of the target runtime package and
for any error of the target label. -/
theorem shouldUpdateEtcd_error_results {V : Type} (sv : semver.Library V) (p : planConfig) :
    (∀ err, (shouldUpdateEtcd sv p).2.2.2 = some err →
      shouldUpdateEtcd sv p = (false, "", "", some err)) ∧
    (∀ err, p.installedRuntime.Manifest.DefaultRuntimePackage = Except.error err →
      trace.IsNotFound err = false →
      shouldUpdateEtcd sv p = (false, "", "", some (trace.Wrap err))) ∧
    (∀ err err2, p.installedRuntime.Manifest.DefaultRuntimePackage = Except.error err →
      trace.IsNotFound err = true →
      p.installedRuntime.Manifest.Dependencies.ByName storage.LegacyPlanetMaster.Name =
        Except.error err2 →
      shouldUpdateEtcd sv p = (false, "", "", some (trace.NotFound "runtime package not found"))) ∧
    (∀ installed err, installedRuntimePackage p installed →
      getEtcdVersion sv "version-etcd" installed p.packageService = Except.error err →
      trace.IsNotFound err = false →
      shouldUpdateEtcd sv p = (false, "", "", some (trace.Wrap err))) ∧
    (∀ installed err, installedRuntimePackage p installed →
      (∀ e, getEtcdVersion sv "version-etcd" installed p.packageService = Except.error e →
        trace.IsNotFound e = true) →
      p.updateRuntime.Manifest.DefaultRuntimePackage = Except.error err →
      shouldUpdateEtcd sv p = (false, "", "", some (trace.Wrap err))) ∧
    (∀ installed target err, installedRuntimePackage p installed →
      (∀ e, getEtcdVersion sv "version-etcd" installed p.packageService = Except.error e →
        trace.IsNotFound e = true) →
      p.updateRuntime.Manifest.DefaultRuntimePackage = Except.ok target →
      getEtcdVersion sv "version-etcd" target p.packageService = Except.error err →
      shouldUpdateEtcd sv p = (false, "", "", some (trace.Wrap err))) := by
  have found : ∀ installed, installedRuntimePackage p installed →
      (∀ e, getEtcdVersion sv "version-etcd" installed p.packageService = Except.error e →
        trace.IsNotFound e = true) →
      ∃ installedVersion : Option V,
        (∃ v, installedVersion = some v ∧
          getEtcdVersion sv "version-etcd" installed p.packageService = Except.ok v) ∨
        (installedVersion = none ∧ ∃ err,
          getEtcdVersion sv "version-etcd" installed p.packageService = Except.error err ∧
          trace.IsNotFound err = true) := by
    intro installed _ hnf
    cases hI : getEtcdVersion sv "version-etcd" installed p.packageService with
    | error e => exact ⟨none, Or.inr ⟨rfl, e, rfl, hnf e hI⟩⟩
    | ok v => exact ⟨some v, Or.inl ⟨v, rfl, rfl⟩⟩
  refine ⟨shouldUpdateEtcd_error_shape sv p, ?_, ?_, ?_, ?_, ?_⟩
  · intro err hD hnf
    unfold shouldUpdateEtcd
    simp only [hD, hnf, Bool.not_false, if_true]
  · intro err err2 hD hnf hL
    unfold shouldUpdateEtcd
    simp only [hD, hnf, hL, Bool.not_true, Bool.false_eq_true, if_false]
  · intro installed err hinst hI hnf
    rw [shouldUpdateEtcd_resolved sv p installed hinst]
    simp only [hI, hnf, Bool.not_false, if_true]
  · intro installed err hinst hnf hT
    obtain ⟨iv, hiv⟩ := found installed hinst hnf
    rw [shouldUpdateEtcd_installed sv p installed hinst iv hiv]
    simp only [hT]
  · intro installed target err hinst hnf hT hU
    obtain ⟨iv, hiv⟩ := found installed hinst hnf
    rw [shouldUpdateEtcd_installed sv p installed hinst iv hiv]
    simp only [hT, hU]

/-- C27, witness: the samples take failure paths. Without any runtime package
the error is the not-found error of the runtime package; with a target runtime
that lacks the label the error is the not-found error of the label, after an
installed runtime that carries the label and after one that lacks it. -/
theorem shouldUpdateEtcd_error_results_witness :
    (shouldUpdateEtcd semver.sample {}).2.2.2 =
      some (trace.NotFound "runtime package not found") ∧
    shouldUpdateEtcd semver.sample {} =
      (false, "", "", some (trace.NotFound "runtime package not found")) ∧
    shouldUpdateEtcd semver.sample { sampleEtcdConfig with updateRuntime := sampleRuntime "4.0.0" } =
      (false, "", "", some (trace.Wrap (trace.NotFound
        "package manifest for \"gravitational.io/planet:4.0.0\" does not have label version-etcd"))) ∧
    shouldUpdateEtcd semver.sample { sampleLegacyConfig with updateRuntime := sampleRuntime "4.0.0" } =
      (false, "", "", some (trace.Wrap (trace.NotFound
        "package manifest for \"gravitational.io/planet:4.0.0\" does not have label version-etcd"))) :=
  ⟨by decide,
   (shouldUpdateEtcd_error_results semver.sample {}).1 _ (by decide),
   (shouldUpdateEtcd_error_results semver.sample
      { sampleEtcdConfig with updateRuntime := sampleRuntime "4.0.0" }).2.2.2.2.2
      { Repository := "gravitational.io", Name := "planet", Version := "5.0.0" }
      { Repository := "gravitational.io", Name := "planet", Version := "4.0.0" }
      _ (Or.inl rfl) (fun _ he => by cases he) rfl rfl,
   (shouldUpdateEtcd_error_results semver.sample
      { sampleLegacyConfig with updateRuntime := sampleRuntime "4.0.0" }).2.2.2.2.2
      { Repository := "gravitational.io", Name := "planet", Version := "4.0.0" }
      { Repository := "gravitational.io", Name := "planet", Version := "4.0.0" }
      _ (Or.inl rfl) (fun _ he => by cases he; rfl) rfl rfl⟩

end cluster

namespace semver

/-- The comparison of the sample versions is at most zero exactly on the
lexicographic order of the three numbers. -/
theorem Triple.compare_le_iff (a b : Triple) :
    a.compare b ≤ 0 ↔
      a.Major < b.Major ∨ (a.Major = b.Major ∧
        (a.Minor < b.Minor ∨ (a.Minor = b.Minor ∧ a.Patch ≤ b.Patch))) := by
  unfold Triple.compare
  split_ifs <;> constructor <;> intro h <;> omega

/-- The comparison of the sample versions is transitive. -/
theorem Triple.compare_trans (a b c : Triple) (hab : a.compare b ≤ 0) (hbc : b.compare c ≤ 0) :
    a.compare c ≤ 0 := by
  rw [Triple.compare_le_iff] at *
  omega

end semver

namespace cluster
open update

/-- C28: `supportsTaints` returns `(true, nil)` exactly when the version of the
locator parses as a version that the base version is lower than or equal to;
it returns `(false, nil)` when the parsed version is lower than the base, and
`false` with an error exactly when the version does not parse. For a transitive
comparison the answer is monotone: when a package passes the gate, so does
every package of a version that is not lower. -/
theorem supportsTaints_gate {V : Type} (sv : semver.Library V) (BaseTaintsVersion : V)
    (gravityPackage : storage.Locator) :
    (supportsTaints sv BaseTaintsVersion gravityPackage = (true, none) ↔
      ∃ v, sv.NewVersion gravityPackage.Version = Except.ok v ∧
        sv.Compare BaseTaintsVersion v ≤ 0) ∧
    (∀ v, sv.NewVersion gravityPackage.Version = Except.ok v →
      0 < sv.Compare BaseTaintsVersion v →
      supportsTaints sv BaseTaintsVersion gravityPackage = (false, none)) ∧
    (∀ msg, sv.NewVersion gravityPackage.Version = Except.error msg →
      supportsTaints sv BaseTaintsVersion gravityPackage =
        (false, some (trace.Wrap (trace.Error.other msg)))) ∧
    ((supportsTaints sv BaseTaintsVersion gravityPackage).2 ≠ none ↔
      ∃ msg, sv.NewVersion gravityPackage.Version = Except.error msg) ∧
    ((∀ a b c : V, sv.Compare a b ≤ 0 → sv.Compare b c ≤ 0 → sv.Compare a c ≤ 0) →
      ∀ (higher : storage.Locator) (v w : V),
        sv.NewVersion gravityPackage.Version = Except.ok v →
        sv.NewVersion higher.Version = Except.ok w →
        sv.Compare v w ≤ 0 →
        supportsTaints sv BaseTaintsVersion gravityPackage = (true, none) →
        supportsTaints sv BaseTaintsVersion higher = (true, none)) := by
  unfold supportsTaints storage.Locator.SemVer
  refine ⟨?_, ?_, ?_, ?_, ?_⟩
  · cases h : sv.NewVersion gravityPackage.Version with
    | error msg => simp
    | ok v => simp
  · intro v hv hlt
    simp only [hv]
    have : ¬ sv.Compare BaseTaintsVersion v ≤ 0 := by omega
    simp [this]
  · intro msg hmsg
    simp only [hmsg]
  · cases h : sv.NewVersion gravityPackage.Version with
    | error msg => simp
    | ok v => simp
  · intro htrans higher v w hv hw hvw
    simp only [hv, hw, Prod.mk.injEq, decide_eq_true_eq, and_true]
    intro hbase
    exact htrans _ _ _ hbase hvw

/-- C28, witness: the gate on the samples, with the base version 4.36.0. The
base version itself and a higher version pass, a lower version does not, a
version that does not parse gives an error, and, the sample comparison being
transitive, 5.0.0 passes because 4.36.0 does. -/
theorem supportsTaints_gate_witness :
    supportsTaints semver.sample { Major := 4, Minor := 36, Patch := 0 } { Version := "4.36.0" } =
      (true, none) ∧
    supportsTaints semver.sample { Major := 4, Minor := 36, Patch := 0 } { Version := "4.35.9" } =
      (false, none) ∧
    supportsTaints semver.sample { Major := 4, Minor := 36, Patch := 0 } { Version := "4.35" } =
      (false, some (trace.Wrap (trace.Error.other "4.35 is not in dotted-tri format"))) ∧
    (∀ a b c : semver.Triple, semver.sample.Compare a b ≤ 0 → semver.sample.Compare b c ≤ 0 →
      semver.sample.Compare a c ≤ 0) ∧
    supportsTaints semver.sample { Major := 4, Minor := 36, Patch := 0 } { Version := "5.0.0" } =
      (true, none) :=
  ⟨by decide,
   (supportsTaints_gate semver.sample { Major := 4, Minor := 36, Patch := 0 }
      { Version := "4.35.9" }).2.1 { Major := 4, Minor := 35, Patch := 9 } rfl (by decide),
   (supportsTaints_gate semver.sample { Major := 4, Minor := 36, Patch := 0 }
      { Version := "4.35" }).2.2.1 _ rfl,
   semver.Triple.compare_trans,
   (supportsTaints_gate semver.sample { Major := 4, Minor := 36, Patch := 0 }
      { Version := "4.36.0" }).2.2.2.2 semver.Triple.compare_trans { Version := "5.0.0" }
      { Major := 4, Minor := 36, Patch := 0 } { Major := 5, Minor := 0, Patch := 0 }
      rfl rfl (by decide) (by decide)⟩

/-- The loop of `getEtcdVersion` skips the labels of another name. -/
theorem getEtcdVersionLabels_skip {V : Type} (sv : semver.Library V) (searchLabel : String)
    (locator : storage.Locator) (before rest : List pack.Label)
    (h : ∀ l ∈ before, l.Name ≠ searchLabel) :
    getEtcdVersionLabels sv searchLabel locator (before ++ rest) =
      getEtcdVersionLabels sv searchLabel locator rest := by
  induction before with
  | nil => rfl
  | cons l t ih =>
    have hl : l.Name ≠ searchLabel := h l (List.mem_cons_self _ _)
    rw [List.cons_append, getEtcdVersionLabels, if_neg hl]
    exact ih (fun x hx => h x (List.mem_cons_of_mem _ hx))

/-- The loop of `getEtcdVersion` gives a not-found error exactly when no label
has the name. -/
theorem getEtcdVersionLabels_notFound {V : Type} (sv : semver.Library V) (searchLabel : String)
    (locator : storage.Locator) (labels : List pack.Label) :
    (∃ err, getEtcdVersionLabels sv searchLabel locator labels = Except.error err ∧
      trace.IsNotFound err = true) ↔ ∀ label ∈ labels, label.Name ≠ searchLabel := by
  induction labels with
  | nil => simp [getEtcdVersionLabels, trace.NotFound, trace.IsNotFound]
  | cons l t ih =>
    by_cases hl : l.Name = searchLabel
    · rw [getEtcdVersionLabels, if_pos hl]
      cases hv : sv.NewVersion (strings.TrimPrefix l.Value "v") with
      | error msg => simp [hv, trace.Wrap, trace.IsNotFound, hl]
      | ok v => simp [hv, hl]
    · rw [getEtcdVersionLabels, if_neg hl, ih]
      simp [hl]

/-- C29: for a package whose manifest is read, `getEtcdVersion` returns a
not-found error exactly when no label of the manifest has the searched name.
Otherwise the first label of that name decides the result, whatever labels
follow it: its value without one leading `v` is parsed, and the version is
returned, or the error of the parser, which is not a not-found error. -/
theorem getEtcdVersion_first_label {V : Type} (sv : semver.Library V) (searchLabel : String)
    (locator : storage.Locator) (packageService : pack.PackageService) (manifest : pack.Manifest)
    (hm : pack.GetPackageManifest packageService locator = Except.ok manifest) :
    ((∃ err, getEtcdVersion sv searchLabel locator packageService = Except.error err ∧
        trace.IsNotFound err = true) ↔
      ∀ label ∈ manifest.Labels, label.Name ≠ searchLabel) ∧
    (∀ (before after : List pack.Label) (label : pack.Label),
      manifest.Labels = before ++ label :: after →
      (∀ l ∈ before, l.Name ≠ searchLabel) → label.Name = searchLabel →
      (∀ version, sv.NewVersion (strings.TrimPrefix label.Value "v") = Except.ok version →
        getEtcdVersion sv searchLabel locator packageService = Except.ok version) ∧
      (∀ msg, sv.NewVersion (strings.TrimPrefix label.Value "v") = Except.error msg →
        getEtcdVersion sv searchLabel locator packageService =
          Except.error (trace.Wrap (trace.Error.other msg)) ∧
        trace.IsNotFound (trace.Wrap (trace.Error.other msg)) = false)) ∧
    (∀ (value : String) (rest : List Char), value.data = 'v' :: rest →
      strings.TrimPrefix value "v" = String.mk rest) ∧
    (∀ value : String, value.data.head? ≠ some 'v' → strings.TrimPrefix value "v" = value) := by
  have e : getEtcdVersion sv searchLabel locator packageService =
      getEtcdVersionLabels sv searchLabel locator manifest.Labels := by
    unfold getEtcdVersion
    simp only [hm]
  rw [e]
  refine ⟨getEtcdVersionLabels_notFound sv searchLabel locator manifest.Labels, ?_, ?_, ?_⟩
  · intro before after label hl hb hname
    rw [hl, getEtcdVersionLabels_skip sv searchLabel locator before _ hb, getEtcdVersionLabels,
      if_pos hname]
    refine ⟨?_, ?_⟩
    · intro version hv
      simp only [hv]
    · intro msg hmsg
      exact ⟨by simp only [hmsg], rfl⟩
  · intro value rest hv
    simp [strings.TrimPrefix, strings.HasPrefix, hv]
  · intro value hv
    have : strings.HasPrefix value "v" = false := by
      unfold strings.HasPrefix
      cases hd : value.data with
      | nil => rfl
      | cons c cs =>
        rw [hd] at hv
        have hc : c ≠ 'v' := by simpa using hv
        simp [List.isPrefixOf, hc, Ne.symm hc]
    simp [strings.TrimPrefix, this]

/-- C29, witness: the manifest of the sample runtime package 5.0.0 has two
labels named `version-etcd`; the first one decides. -/
theorem getEtcdVersion_first_label_witness :
    pack.GetPackageManifest samplePackages
        { Repository := "gravitational.io", Name := "planet", Version := "5.0.0" } =
      Except.ok { Labels := [{ Name := "purpose", Value := "runtime" },
                             { Name := "version-etcd", Value := "v3.3.11" },
                             { Name := "version-etcd", Value := "broken" }] } ∧
    getEtcdVersion semver.sample "version-etcd"
        { Repository := "gravitational.io", Name := "planet", Version := "5.0.0" } samplePackages =
      Except.ok { Major := 3, Minor := 3, Patch := 11 } :=
  ⟨rfl,
   ((getEtcdVersion_first_label semver.sample "version-etcd"
      { Repository := "gravitational.io", Name := "planet", Version := "5.0.0" } samplePackages
      { Labels := [{ Name := "purpose", Value := "runtime" },
                   { Name := "version-etcd", Value := "v3.3.11" },
                   { Name := "version-etcd", Value := "broken" }] } rfl).2.1
      [{ Name := "purpose", Value := "runtime" }] [{ Name := "version-etcd", Value := "broken" }]
      { Name := "version-etcd", Value := "v3.3.11" } rfl (by decide) rfl).1
      { Major := 3, Minor := 3, Patch := 11 } rfl⟩

end cluster

namespace cluster
open update

/-- C31: the restart stage built by `etcdPlan` has exactly `m + w + 2` children
for `m` other masters and `w` workers, and the last one is the restart of the
management service: its identifier is the child path of
`constants.GravityServiceName` under the restart stage, it targets the lead
master, it is run by the executor that restarts the service, and it has no
requirement. -/
theorem etcdPlan_restart_stage (r : phaseBuilder) (leadMaster : storage.Server)
    (otherMasters workers : List storage.Server) (currentVersion desiredVersion : String) :
    ((r.etcdPlan leadMaster otherMasters workers currentVersion desiredVersion).stage 4).Phases.length =
      otherMasters.length + workers.length + 2 ∧
    ∃ last,
      ((r.etcdPlan leadMaster otherMasters workers currentVersion desiredVersion).stage 4).Phases.getLast? =
        some last ∧
      last.ID =
        ((r.etcdPlan leadMaster otherMasters workers currentVersion desiredVersion).stage 4).ChildLiteral
          constants.GravityServiceName ∧
      last.Executor = some Executor.updateEtcdRestartGravity ∧
      last.server = some leadMaster ∧
      last.Data = some { Server := some leadMaster } ∧
      last.Requires = [] ∧ last.Phases = [] := by
  rw [etcdPlan_stage4]
  refine ⟨?_, gravityChild leadMaster, ?_, ?_, rfl, rfl, rfl, rfl, rfl⟩
  · simp only [restartStage, restartStageWith, List.length_cons, List.length_append, List.length_map,
      List.length_singleton, List.length_nil]
  · simp only [restartStage, restartStageWith]
    rw [← List.cons_append, List.getLast?_append]
    rfl
  · rw [restart_childLiteral]
    rfl

end cluster

namespace cluster
open update

/-- C37: in the list returned by `commonNode` for the server `s` and the lead
master `l`, the drain, taint, uncordon, endpoints and untaint phases, when
present, have `Server = s` and `ExecServer = l` and carry nothing else; the
system-upgrade phase, always present, has no `Server`, `ExecServer = s` and the
singleton list `[s]` as its update servers. -/
theorem commonNode_payloads (r : phaseBuilder) (server leadMaster : storage.UpdateServer)
    (supportsTaints waitsForEndpoints : Bool) :
    (r.commonNode server leadMaster supportsTaints waitsForEndpoints).map (fun q => (q.ID, q.Data)) =
      [("drain", some { Server := some server.Server, ExecServer := some leadMaster.Server }),
       ("system-upgrade", some { ExecServer := some server.Server,
                                 Update := some { Servers := [server] } })] ++
      (if supportsTaints then
        [("taint", some { Server := some server.Server, ExecServer := some leadMaster.Server })]
       else []) ++
      [("uncordon", some { Server := some server.Server, ExecServer := some leadMaster.Server })] ++
      (if waitsForEndpoints then
        [("endpoints", some { Server := some server.Server, ExecServer := some leadMaster.Server })]
       else []) ++
      (if supportsTaints then
        [("untaint", some { Server := some server.Server, ExecServer := some leadMaster.Server })]
       else []) ∧
    (∀ q ∈ r.commonNode server leadMaster supportsTaints waitsForEndpoints,
      (q.ID ∈ ["drain", "taint", "uncordon", "endpoints", "untaint"] →
        q.Data.bind (fun d => d.Server) = some server.Server ∧
        q.Data.bind (fun d => d.ExecServer) = some leadMaster.Server ∧
        q.Data.bind (fun d => d.Update) = none) ∧
      (q.ID = "system-upgrade" →
        q.Data.bind (fun d => d.Server) = none ∧
        q.Data.bind (fun d => d.ExecServer) = some server.Server ∧
        q.Data.bind (fun d => d.Update) = some { Servers := [server] })) ∧
    (∃ q ∈ r.commonNode server leadMaster supportsTaints waitsForEndpoints, q.ID = "system-upgrade") := by
  refine ⟨?_, ?_, ?_⟩
  · cases supportsTaints <;> cases waitsForEndpoints <;> simp [phaseBuilder.commonNode]
  · intro q hq
    cases supportsTaints <;> cases waitsForEndpoints <;>
      simp only [phaseBuilder.commonNode, if_true, if_false, Bool.false_eq_true, List.cons_append,
        List.nil_append, List.mem_cons, List.mem_singleton, List.not_mem_nil, or_false] at hq <;>
      rcases hq with rfl | rfl | rfl | rfl | rfl | rfl <;>
      exact ⟨fun h => by first | exact ⟨rfl, rfl, rfl⟩ | simp at h,
             fun h => by first | exact ⟨rfl, rfl, rfl⟩ | simp at h⟩
  · cases supportsTaints <;> cases waitsForEndpoints <;> simp [phaseBuilder.commonNode]

end cluster

namespace cluster
open update

/-- No phase of `commonNode` sets permissions or changes the election, and
every one is a leaf. -/
theorem commonNode_kinds (r : phaseBuilder) (s lead : storage.UpdateServer) (t w : Bool) :
    ∀ q ∈ r.commonNode s lead t w,
      q.ID ∈ ["drain", "system-upgrade", "taint", "uncordon", "endpoints", "untaint"] ∧
      q.Executor ≠ some Executor.kubeletPermissions ∧
      q.Executor ≠ some Executor.electionStatus ∧
      q.Phases = [] := by
  intro q hq
  cases t <;> cases w <;>
    simp only [phaseBuilder.commonNode, if_true, if_false, Bool.false_eq_true, List.cons_append,
      List.nil_append, List.mem_cons, List.mem_singleton, List.not_mem_nil, or_false] at hq <;>
    rcases hq with rfl | rfl | rfl | rfl | rfl | rfl <;>
    exact ⟨by simp, by simp, by simp, rfl⟩

/-- The top-level children of `masters` for a sole master: the branch of the
lead master. -/
theorem masters_sole_phases (r : phaseBuilder) (lead : storage.UpdateServer) (t : Bool) :
    (r.masters lead [] t).Phases = [leadBranch r lead [] t] := by
  rw [masters_phases]
  simp [mastersTop, chain]

/-- The branch of a sole master holds the chain of the common node phases. -/
theorem leadBranch_sole_phases (r : phaseBuilder) (lead : storage.UpdateServer) (t : Bool) :
    (leadBranch r lead [] t).Phases = chain none (r.commonNode lead lead t true) := by
  rw [leadBranch_phases]
  simp [leadBranchSubs]

theorem masters_executor (r : phaseBuilder) (lead : storage.UpdateServer)
    (others : List storage.UpdateServer) (t : Bool) :
    (r.masters lead others t).Executor = none := by
  rw [masters_eq, Phase.AddSequential_eq]
  rfl

theorem leadBranch_executor (r : phaseBuilder) (lead : storage.UpdateServer)
    (others : List storage.UpdateServer) (t : Bool) :
    (leadBranch r lead others t).Executor = none := by
  unfold leadBranch
  rw [Phase.AddSequential_eq]
  rfl

/-- The tree of `masters` for a sole master: the root, the branch of the lead
master and the chain of the common node phases. -/
theorem masters_sole_flatten (r : phaseBuilder) (lead : storage.UpdateServer) (t : Bool) :
    (r.masters lead [] t).flatten =
      r.masters lead [] t :: leadBranch r lead [] t :: chain none (r.commonNode lead lead t true) := by
  have hleaves : ∀ c ∈ chain none (r.commonNode lead lead t true), c.Phases = [] := by
    intro c hc
    obtain ⟨s, hs, reqs, rfl⟩ := mem_chain _ _ _ hc
    exact (commonNode_kinds r lead lead t true s hs).2.2.2
  rw [Phase.flatten_eq, masters_sole_phases, flattenAll_cons, flattenAll_nil, List.append_nil,
    Phase.flatten_eq, leadBranch_sole_phases, flattenAll_leaves _ hleaves]

end cluster

namespace cluster
open update

/-- C36: for a sole master the phase returned by `masters` has exactly one
top-level child, the branch of the lead master, and no phase of the whole tree
sets kubelet permissions or changes the leader election (as the
kubelet-permissions, stepdown, elect and enable phases do): the tree holds the
root, the branch and common node phases only. In general the branch of the
lead master holds a kubelet-permissions phase, and an election (stepdown)
phase, exactly when there are other masters, and the top level holds an
election (elect) phase exactly when there are other masters; they are then the
first two children of the branch and the second top-level child. -/
theorem masters_sole_master (r : phaseBuilder) (leadMaster : storage.UpdateServer)
    (otherMasters : List storage.UpdateServer) (supportsTaints : Bool) :
    ((r.masters leadMaster [] supportsTaints).Phases.length = 1 ∧
     (r.masters leadMaster [] supportsTaints).Phases.map (fun c => c.ID) =
       [(r.masters leadMaster [] supportsTaints).ChildLiteral leadMaster.Server.Hostname] ∧
     (∀ c ∈ (r.masters leadMaster [] supportsTaints).flatten,
       c.Executor ≠ some Executor.kubeletPermissions ∧
       c.Executor ≠ some Executor.electionStatus ∧
       c.Data.bind (fun d => d.ElectionChange) = none ∧
       c.ID ∈ ["masters",
               (r.masters leadMaster [] supportsTaints).ChildLiteral leadMaster.Server.Hostname,
               "drain", "system-upgrade", "taint", "uncordon", "endpoints", "untaint"])) ∧
    ((∃ c ∈ ((r.masters leadMaster otherMasters supportsTaints).stage 0).Phases,
        c.Executor = some Executor.kubeletPermissions) ↔ otherMasters ≠ []) ∧
    ((∃ c ∈ ((r.masters leadMaster otherMasters supportsTaints).stage 0).Phases,
        c.Executor = some Executor.electionStatus) ↔ otherMasters ≠ []) ∧
    ((∃ c ∈ (r.masters leadMaster otherMasters supportsTaints).Phases,
        c.Executor = some Executor.electionStatus) ↔ otherMasters ≠ []) ∧
    (otherMasters ≠ [] →
      (((r.masters leadMaster otherMasters supportsTaints).stage 0).Phases.take 2).map
          (fun c => (c.ID, c.Executor)) =
        [("kubelet-permissions", some Executor.kubeletPermissions),
         ("stepdown-" ++ leadMaster.Server.Hostname, some Executor.electionStatus)] ∧
      ((r.masters leadMaster otherMasters supportsTaints).stage 1).ID =
        "elect-" ++ leadMaster.Server.Hostname ∧
      ((r.masters leadMaster otherMasters supportsTaints).stage 1).Executor =
        some Executor.electionStatus) := by
  refine ⟨⟨?_, ?_, ?_⟩, ?_, ?_, ?_, ?_⟩
  · rw [masters_sole_phases]; rfl
  · rw [masters_sole_phases, masters_childLiteral]
    simp only [List.map_cons, List.map_nil, leadBranch_ID]
  · intro c hc
    rw [masters_sole_flatten] at hc
    rw [masters_childLiteral]
    simp only [List.mem_cons] at hc
    rcases hc with rfl | rfl | hc
    · refine ⟨?_, ?_, ?_, ?_⟩
      · rw [masters_executor]; simp
      · rw [masters_executor]; simp
      · rw [masters_eq, Phase.AddSequential_eq]; rfl
      · rw [masters_ID]; simp
    · refine ⟨?_, ?_, ?_, ?_⟩
      · rw [leadBranch_executor]; simp
      · rw [leadBranch_executor]; simp
      · unfold leadBranch; rw [Phase.AddSequential_eq]; rfl
      · rw [leadBranch_ID]; simp
    · obtain ⟨s, hs, reqs, rfl⟩ := mem_chain _ _ _ hc
      have hk := commonNode_kinds r leadMaster leadMaster supportsTaints true s hs
      have hn := commonNode_no_election r leadMaster leadMaster supportsTaints true s hs
      refine ⟨hk.2.1, hk.2.2.1, hn.2.2, ?_⟩
      have := hk.1
      simp only [List.mem_cons, List.mem_singleton, List.not_mem_nil, or_false] at this ⊢
      tauto
  · rw [masters_stage0]
    cases otherMasters with
    | nil =>
      rw [leadBranch_sole_phases]
      constructor
      · rintro ⟨c, hc, he⟩
        obtain ⟨s, hs, reqs, rfl⟩ := mem_chain _ _ _ hc
        exact absurd he (commonNode_kinds r leadMaster leadMaster supportsTaints true s hs).2.1
      · intro h; exact absurd rfl h
    | cons o os =>
      rw [leadBranch_phases, leadBranchSubs_cons]
      exact ⟨fun _ => by simp, fun _ => ⟨kubeletPermissionsPhase leadMaster, by simp [chain], rfl⟩⟩
  · rw [masters_stage0]
    cases otherMasters with
    | nil =>
      rw [leadBranch_sole_phases]
      constructor
      · rintro ⟨c, hc, he⟩
        obtain ⟨s, hs, reqs, rfl⟩ := mem_chain _ _ _ hc
        exact absurd he (commonNode_kinds r leadMaster leadMaster supportsTaints true s hs).2.2.1
      · intro h; exact absurd rfl h
    | cons o os =>
      rw [leadBranch_phases, leadBranchSubs_cons]
      constructor
      · intro _; simp
      · intro _
        simp only [chain]
        exact ⟨_, List.mem_cons_of_mem _ (List.mem_cons_self _ _), rfl⟩
  · cases otherMasters with
    | nil =>
      rw [masters_sole_phases]
      constructor
      · rintro ⟨c, hc, he⟩
        rw [List.mem_singleton] at hc
        subst hc
        rw [leadBranch_executor] at he
        simp at he
      · intro h; exact absurd rfl h
    | cons o os =>
      rw [masters_phases_cons]
      refine ⟨fun _ => by simp, fun _ => ⟨_, List.mem_cons_of_mem _ (List.mem_cons_self _ _), rfl⟩⟩
  · intro hne
    cases otherMasters with
    | nil => exact absurd rfl hne
    | cons o os =>
      rw [masters_stage0, masters_stage1, leadBranch_phases, leadBranchSubs_cons]
      refine ⟨?_, rfl, rfl⟩
      simp [chain, kubeletPermissionsPhase, setLeaderElection]

end cluster

namespace clusterconfig

/-! ## Merging cluster configurations -/

theorem mergeFeatureGates_some (entries es : List (String × Bool)) :
    mergeFeatureGates (some entries) es = Except.ok (some (mergeEntries entries es)) := by
  induction es generalizing entries with
  | nil => rfl
  | cons e rest ih =>
    obtain ⟨k, v⟩ := e
    simp only [mergeFeatureGates, mapassign, ih]
    rfl

theorem mergeFeatureGates_none (es : List (String × Bool)) (h : es ≠ []) :
    mergeFeatureGates none es = Except.error "assignment to entry in nil map" := by
  cases es with
  | nil => exact absurd rfl h
  | cons e rest =>
    obtain ⟨k, v⟩ := e
    rfl

/-- The result of `MergeFrom` when the feature gates of the receiver are a map:
the merge completes, with the closed form as the receiver. -/
theorem MergeFrom_some (r : Resource) (other : Interface) (entries : List (String × Bool))
    (h : r.Spec.Global.FeatureGates = some entries) :
    r.MergeFrom other =
      Except.ok (merged r other
        (some (mergeEntries entries (other.GetGlobalConfig.FeatureGates.getD [])))) := by
  have hg : (if len other.GetGlobalConfig.FeatureGates ≠ 0 then
        mergeFeatureGates (some entries) (other.GetGlobalConfig.FeatureGates.getD [])
      else Except.ok (some entries)) =
      Except.ok (some (mergeEntries entries (other.GetGlobalConfig.FeatureGates.getD []))) := by
    split
    · exact mergeFeatureGates_some _ _
    · rename_i h0
      have : other.GetGlobalConfig.FeatureGates.getD [] = [] := by
        cases hF : other.GetGlobalConfig.FeatureGates with
        | none => rfl
        | some l =>
          rw [hF] at h0
          simp only [len, ne_eq, Decidable.not_not] at h0
          simpa using List.length_eq_zero.mp h0
      rw [this]; rfl
  have hp : (if other.GetGlobalConfig.PodCIDR ≠ "" then other.GetGlobalConfig.PodCIDR
      else if other.GetGlobalConfig.PodCIDR ≠ "" then other.GetGlobalConfig.PodCIDR
      else r.Spec.Global.PodCIDR) =
      if other.GetGlobalConfig.PodCIDR ≠ "" then other.GetGlobalConfig.PodCIDR
      else r.Spec.Global.PodCIDR := by
    split_ifs <;> rfl
  unfold Resource.MergeFrom
  simp only [h, hg, hp]
  cases hk : other.GetKubeletConfig with
  | none =>
    simp only [merged, override, mergeKubelet, hk]
  | some kc =>
    simp only [merged, override, mergeKubelet, hk]
    cases r.Spec.ComponentConfigs.Kubelet <;> rfl

end clusterconfig

namespace clusterconfig

/-! ### Assignments to a map -/

theorem assign_of_mem (m : List (String × Bool)) (k : String) (v : Bool)
    (h : k ∈ m.map Prod.fst) :
    assign m k v = m.map (fun e => if e.1 = k then (k, v) else e) := by
  unfold assign
  rw [if_pos]
  rw [List.any_eq_true]
  obtain ⟨e, he, rfl⟩ := List.mem_map.mp h
  exact ⟨e, he, by simp⟩

theorem assign_of_not_mem (m : List (String × Bool)) (k : String) (v : Bool)
    (h : k ∉ m.map Prod.fst) : assign m k v = m ++ [(k, v)] := by
  unfold assign
  rw [if_neg]
  rw [List.any_eq_true]
  rintro ⟨e, he, hk⟩
  exact h (List.mem_map.mpr ⟨e, he, by simpa using hk⟩)

/-- An assignment keeps the keys of the map and makes `k` one of them. -/
theorem keys_assign (m : List (String × Bool)) (k : String) (v : Bool) (x : String) :
    x ∈ (assign m k v).map Prod.fst ↔ x ∈ m.map Prod.fst ∨ x = k := by
  by_cases h : k ∈ m.map Prod.fst
  · rw [assign_of_mem m k v h]
    have e : (m.map (fun e => if e.1 = k then (k, v) else e)).map Prod.fst = m.map Prod.fst := by
      rw [List.map_map]
      apply List.map_congr_left
      intro a _
      by_cases ha : a.1 = k <;> simp [ha]
    rw [e]
    constructor
    · exact Or.inl
    · rintro (hx | rfl)
      · exact hx
      · exact h
  · rw [assign_of_not_mem m k v h]
    simp

theorem keys_mergeEntries (m es : List (String × Bool)) (x : String) :
    x ∈ (mergeEntries m es).map Prod.fst ↔ x ∈ m.map Prod.fst ∨ x ∈ es.map Prod.fst := by
  induction es generalizing m with
  | nil => simp [mergeEntries]
  | cons e rest ih =>
    have step : mergeEntries m (e :: rest) = mergeEntries (assign m e.1 e.2) rest := rfl
    rw [step, ih, keys_assign]
    simp only [List.map_cons, List.mem_cons]
    tauto

theorem mergeEntries_cons (m : List (String × Bool)) (e : String × Bool)
    (rest : List (String × Bool)) :
    mergeEntries m (e :: rest) = mergeEntries (assign m e.1 e.2) rest := rfl

/-- When the map holds every key of `es`, assigning `es` gives every entry of
the map the last value that `es` has for its key. -/
theorem mergeEntries_of_keys (m es : List (String × Bool))
    (h : ∀ e ∈ es, e.1 ∈ m.map Prod.fst) :
    mergeEntries m es = m.map (fun e => (e.1, (lastValue es e.1).getD e.2)) := by
  induction es generalizing m with
  | nil => simp [mergeEntries, lastValue]
  | cons e rest ih =>
    obtain ⟨k, v⟩ := e
    have hk : k ∈ m.map Prod.fst := h (k, v) (List.mem_cons_self _ _)
    rw [mergeEntries_cons, ih]
    · simp only []
      rw [assign_of_mem m k v hk, List.map_map]
      apply List.map_congr_left
      intro a _
      by_cases ha : a.1 = k
      · subst ha
        simp only [Function.comp, if_true, lastValue]
        cases lastValue rest a.1 <;> simp
      · simp only [Function.comp, if_neg ha, lastValue]
        have : ¬ k = a.1 := fun e => ha e.symm
        cases lastValue rest a.1 <;> simp [this]
    · intro e he
      rw [keys_assign]
      exact Or.inl (h e (List.mem_cons_of_mem _ he))

/-- An entry whose key `es` does not have comes from the map as it was. -/
theorem mem_mergeEntries_of_none (m es : List (String × Bool)) (e : String × Bool)
    (he : e ∈ mergeEntries m es) (hl : lastValue es e.1 = none) : e ∈ m := by
  induction es generalizing m with
  | nil => exact he
  | cons a rest ih =>
    obtain ⟨k, v⟩ := a
    rw [mergeEntries_cons] at he
    have hrest : lastValue rest e.1 = none := by
      simp only [lastValue] at hl
      cases h : lastValue rest e.1 with
      | none => rfl
      | some x => rw [h] at hl; simp at hl
    have hne : ¬ k = e.1 := by
      intro hk
      simp only [lastValue, hrest, hk, if_true] at hl
      simp at hl
    have hmem := ih (assign m k v) he hrest
    simp only [] at hmem
    by_cases hkm : k ∈ m.map Prod.fst
    · rw [assign_of_mem m k v hkm, List.mem_map] at hmem
      obtain ⟨b, hb, hbe⟩ := hmem
      by_cases hbk : b.1 = k
      · rw [if_pos hbk] at hbe
        exact absurd (congrArg Prod.fst hbe) hne
      · rw [if_neg hbk] at hbe
        exact hbe ▸ hb
    · rw [assign_of_not_mem m k v hkm, List.mem_append, List.mem_singleton] at hmem
      rcases hmem with hmem | hmem
      · exact hmem
      · exact absurd (congrArg Prod.fst hmem).symm hne

/-- After `es` was assigned, an entry of a key of `es` has the last value that
`es` has for the key. -/
theorem mergeEntries_value (m es : List (String × Bool)) (e : String × Bool)
    (he : e ∈ mergeEntries m es) (x : Bool) (hl : lastValue es e.1 = some x) : e.2 = x := by
  induction es generalizing m with
  | nil => simp [lastValue] at hl
  | cons a rest ih =>
    obtain ⟨k, v⟩ := a
    rw [mergeEntries_cons] at he
    cases hrest : lastValue rest e.1 with
    | some y =>
      simp only [lastValue, hrest] at hl
      have hxy : y = x := Option.some.inj hl
      subst hxy
      exact ih _ he hrest
    | none =>
      simp only [lastValue, hrest] at hl
      by_cases hk : k = e.1
      · rw [if_pos hk] at hl
        have hv : v = x := Option.some.inj hl
        have hmem := mem_mergeEntries_of_none _ rest e he hrest
        simp only [] at hmem
        by_cases hkm : k ∈ m.map Prod.fst
        · rw [assign_of_mem m k v hkm, List.mem_map] at hmem
          obtain ⟨b, hb, hbe⟩ := hmem
          by_cases hbk : b.1 = k
          · rw [if_pos hbk] at hbe
            rw [← hbe]; exact hv
          · rw [if_neg hbk] at hbe
            exact absurd (hbe ▸ hk.symm) hbk
        · rw [assign_of_not_mem m k v hkm, List.mem_append, List.mem_singleton] at hmem
          rcases hmem with hmem | hmem
          · exact absurd (List.mem_map.mpr ⟨e, hmem, hk.symm⟩) hkm
          · rw [hmem]; exact hv
      · rw [if_neg hk] at hl
        simp at hl

/-- Assigning the same entries a second time changes nothing. -/
theorem mergeEntries_idem (m es : List (String × Bool)) :
    mergeEntries (mergeEntries m es) es = mergeEntries m es := by
  rw [mergeEntries_of_keys (mergeEntries m es) es
    (fun e he => (keys_mergeEntries m es e.1).mpr (Or.inr (List.mem_map.mpr ⟨e, he, rfl⟩)))]
  conv_rhs => rw [← List.map_id (mergeEntries m es)]
  apply List.map_congr_left
  intro e he
  cases hl : lastValue es e.1 with
  | none => rfl
  | some x =>
    have := mergeEntries_value m es e he x hl
    simp only [Option.getD, id]
    rw [← this]

end clusterconfig

namespace cli

/-! ## The interrupt handler -/

theorem run_aborted (events : List Event) : run Progress.aborted events = Progress.aborted := by
  cases events <;> rfl

theorem run_returned (events : List Event) : run Progress.returned events = Progress.returned := by
  cases events <;> rfl

theorem run_loop_cons (s : State) (e : Event) (events : List Event) :
    run (Progress.loop s) (e :: events) = run (step s e) events := rfl

theorem run_append (p : Progress) (a b : List Event) : run p (a ++ b) = run (run p a) b := by
  induction a generalizing p with
  | nil => cases p <;> rfl
  | cons e t ih =>
    cases p with
    | loop s => exact ih (step s e)
    | aborted => rw [List.cons_append, run_aborted, run_aborted, run_aborted]
    | returned => rw [List.cons_append, run_returned, run_returned, run_returned]

/-- Two interrupts in a row, received before the handler is done. -/
theorem adjacent_nil :
    ¬ ∃ pre post, ([] : List Event) = pre ++ Event.interrupt :: Event.interrupt :: post ∧
      Event.done ∉ pre := by
  rintro ⟨pre, post, h, _⟩
  cases pre <;> simp at h

theorem adjacent_cons_timer (t : List Event) :
    (∃ pre post, Event.timer :: t = pre ++ Event.interrupt :: Event.interrupt :: post ∧
      Event.done ∉ pre) ↔
    ∃ pre post, t = pre ++ Event.interrupt :: Event.interrupt :: post ∧ Event.done ∉ pre := by
  constructor
  · rintro ⟨pre, post, h, hd⟩
    cases pre with
    | nil => simp at h
    | cons x pre' =>
      simp only [List.cons_append, List.cons.injEq] at h
      exact ⟨pre', post, h.2, fun hm => hd (List.mem_cons_of_mem _ hm)⟩
  · rintro ⟨pre, post, h, hd⟩
    refine ⟨Event.timer :: pre, post, by rw [h]; rfl, ?_⟩
    simp only [List.mem_cons, not_or]
    exact ⟨by decide, hd⟩

theorem adjacent_cons_done (t : List Event) :
    ¬ ∃ pre post, Event.done :: t = pre ++ Event.interrupt :: Event.interrupt :: post ∧
      Event.done ∉ pre := by
  rintro ⟨pre, post, h, hd⟩
  cases pre with
  | nil => simp at h
  | cons x pre' =>
    simp only [List.cons_append, List.cons.injEq] at h
    exact hd (h.1 ▸ List.mem_cons_self _ _)

theorem adjacent_cons_interrupt (t : List Event) :
    (∃ pre post, Event.interrupt :: t = pre ++ Event.interrupt :: Event.interrupt :: post ∧
      Event.done ∉ pre) ↔
    (∃ post, t = Event.interrupt :: post) ∨
    ∃ pre post, t = pre ++ Event.interrupt :: Event.interrupt :: post ∧ Event.done ∉ pre := by
  constructor
  · rintro ⟨pre, post, h, hd⟩
    cases pre with
    | nil =>
      simp only [List.nil_append, List.cons.injEq, true_and] at h
      exact Or.inl ⟨post, h⟩
    | cons x pre' =>
      simp only [List.cons_append, List.cons.injEq] at h
      exact Or.inr ⟨pre', post, h.2, fun hm => hd (List.mem_cons_of_mem _ hm)⟩
  · rintro (⟨post, h⟩ | ⟨pre, post, h, hd⟩)
    · exact ⟨[], post, by rw [h]; rfl, by simp⟩
    · refine ⟨Event.interrupt :: pre, post, by rw [h]; rfl, ?_⟩
      simp only [List.mem_cons, not_or]
      exact ⟨by decide, hd⟩

/-- From the two states the loop can be in, the handler aborts exactly on two
interrupts in a row; with one interrupt counted, also on an interrupt right
away. -/
theorem run_aborted_iff (events : List Event) :
    (run (Progress.loop { interrupts := 0, timerC := false }) events = Progress.aborted ↔
      ∃ pre post, events = pre ++ Event.interrupt :: Event.interrupt :: post ∧ Event.done ∉ pre) ∧
    (run (Progress.loop { interrupts := 1, timerC := true }) events = Progress.aborted ↔
      (∃ post, events = Event.interrupt :: post) ∨
      ∃ pre post, events = pre ++ Event.interrupt :: Event.interrupt :: post ∧ Event.done ∉ pre) := by
  induction events with
  | nil =>
    refine ⟨⟨fun h => by simp [run] at h, fun h => absurd h adjacent_nil⟩,
      ⟨fun h => by simp [run] at h, ?_⟩⟩
    rintro (⟨post, h⟩ | h)
    · simp at h
    · exact absurd h adjacent_nil
  | cons e t ih =>
    cases e with
    | interrupt =>
      rw [run_loop_cons, run_loop_cons, adjacent_cons_interrupt]
      refine ⟨ih.2, ?_⟩
      have : step { interrupts := 1, timerC := true } Event.interrupt = Progress.aborted := rfl
      rw [this, run_aborted]
      exact ⟨fun _ => Or.inl ⟨t, rfl⟩, fun _ => rfl⟩
    | timer =>
      rw [run_loop_cons, run_loop_cons, adjacent_cons_timer]
      have h0 : step { interrupts := 0, timerC := false } Event.timer =
          Progress.loop { interrupts := 0, timerC := false } := rfl
      have h1 : step { interrupts := 1, timerC := true } Event.timer =
          Progress.loop { interrupts := 0, timerC := false } := rfl
      rw [h0, h1]
      refine ⟨ih.1, ih.1.trans ⟨Or.inr, ?_⟩⟩
      rintro (⟨post, h⟩ | h)
      · simp at h
      · exact h
    | done =>
      rw [run_loop_cons, run_loop_cons]
      have h0 : ∀ s, step s Event.done = Progress.returned := fun _ => rfl
      rw [h0, h0, run_returned]
      refine ⟨⟨fun h => by simp at h, fun h => absurd h (adjacent_cons_done t)⟩,
        ⟨fun h => by simp at h, ?_⟩⟩
      rintro (⟨post, h⟩ | h)
      · simp at h
      · exact absurd h (adjacent_cons_done t)

/-- Two interrupts with no expiry of the timer between them, received before
the handler is done, are the same as two interrupts in a row. -/
theorem between_iff_adjacent (events : List Event) :
    (∃ pre mid post, events = pre ++ Event.interrupt :: (mid ++ Event.interrupt :: post) ∧
      Event.done ∉ pre ∧ Event.done ∉ mid ∧ Event.timer ∉ mid) ↔
    ∃ pre post, events = pre ++ Event.interrupt :: Event.interrupt :: post ∧ Event.done ∉ pre := by
  constructor
  · rintro ⟨pre, mid, post, h, hd, hdm, htm⟩
    cases mid with
    | nil => exact ⟨pre, post, h, hd⟩
    | cons x mid' =>
      have hx : x = Event.interrupt := by
        cases x with
        | interrupt => rfl
        | timer => exact absurd (List.mem_cons_self _ _) htm
        | done => exact absurd (List.mem_cons_self _ _) hdm
      subst hx
      exact ⟨pre, mid' ++ Event.interrupt :: post, h, hd⟩
  · rintro ⟨pre, post, h, hd⟩
    exact ⟨pre, [], post, h, hd, by simp, by simp⟩

/-- The counter is 0 or 1 at every head of the loop, and the timer runs exactly
when it is 1. -/
theorem loopHeads_counter (s : State)
    (hs : (s.interrupts = 0 ∧ s.timerC = false) ∨ (s.interrupts = 1 ∧ s.timerC = true))
    (events : List Event) :
    ∀ h ∈ loopHeads (Progress.loop s) events,
      (h.interrupts = 0 ∧ h.timerC = false) ∨ (h.interrupts = 1 ∧ h.timerC = true) := by
  induction events generalizing s with
  | nil =>
    intro h hh
    simp only [loopHeads, List.mem_singleton] at hh
    exact hh ▸ hs
  | cons e t ih =>
    intro h hh
    simp only [loopHeads, List.mem_cons] at hh
    rcases hh with rfl | hh
    · exact hs
    · obtain ⟨n, c⟩ := s
      simp only at hs
      cases e with
      | interrupt =>
        rcases hs with ⟨rfl, rfl⟩ | ⟨rfl, rfl⟩
        · exact ih { interrupts := 1, timerC := true } (Or.inr ⟨rfl, rfl⟩) h hh
        · simp [step, loopHeads] at hh
      | timer =>
        rcases hs with ⟨rfl, rfl⟩ | ⟨rfl, rfl⟩
        · exact ih { interrupts := 0, timerC := false } (Or.inl ⟨rfl, rfl⟩) h hh
        · exact ih { interrupts := 0, timerC := false } (Or.inl ⟨rfl, rfl⟩) h hh
      | done => simp [step, loopHeads] at hh

end cli

namespace cli

/-- C33: `clientTerminationHandler`, run on the events its `select` receives,
calls `Abort` exactly when it receives two interrupts with no expiry of the
timer between them (before the interrupt handler is done, which ends the
loop). One interrupt followed by the expiry of the timer puts the counter back
to 0 and does not abort, and a later single interrupt counts from 1 again. At
every head of the loop the counter is 0 or 1. -/
theorem clientTerminationHandler_aborts (events : List Event) :
    (clientTerminationHandler events = Progress.aborted ↔
      ∃ pre mid post, events = pre ++ Event.interrupt :: (mid ++ Event.interrupt :: post) ∧
        Event.done ∉ pre ∧ Event.done ∉ mid ∧ Event.timer ∉ mid) ∧
    (∀ s : State, s.interrupts = 0 →
      run (Progress.loop s) [Event.interrupt, Event.timer] =
        Progress.loop { interrupts := 0, timerC := false }) ∧
    clientTerminationHandler [Event.interrupt, Event.timer, Event.interrupt] =
      Progress.loop { interrupts := 1, timerC := true } ∧
    (∀ h ∈ loopHeads (Progress.loop { interrupts := 0, timerC := false }) events,
      h.interrupts = 0 ∨ h.interrupts = 1) := by
  refine ⟨?_, ?_, rfl, ?_⟩
  · rw [between_iff_adjacent]
    exact (run_aborted_iff events).1
  · intro s hs
    obtain ⟨n, c⟩ := s
    simp only at hs
    subst hs
    rfl
  · intro h hh
    rcases loopHeads_counter _ (Or.inl ⟨rfl, rfl⟩) events h hh with h0 | h1
    · exact Or.inl h0.1
    · exact Or.inr h1.1

/-- C33, witness: on two interrupts in a row, after an interrupt that the
timer dropped, the handler aborts; on interrupts that the timer separates it
does not. -/
theorem clientTerminationHandler_aborts_witness :
    clientTerminationHandler
      [Event.interrupt, Event.timer, Event.interrupt, Event.interrupt, Event.done] =
      Progress.aborted ∧
    clientTerminationHandler
      [Event.interrupt, Event.timer, Event.interrupt, Event.timer, Event.interrupt] ≠
      Progress.aborted ∧
    ∃ pre mid post,
      [Event.interrupt, Event.timer, Event.interrupt, Event.interrupt, Event.done] =
        pre ++ Event.interrupt :: (mid ++ Event.interrupt :: post) ∧
      Event.done ∉ pre ∧ Event.done ∉ mid ∧ Event.timer ∉ mid :=
  ⟨by decide, by decide,
   (clientTerminationHandler_aborts
      [Event.interrupt, Event.timer, Event.interrupt, Event.interrupt, Event.done]).1.mp
      (by decide)⟩

end cli

namespace clusterconfig

/-- The result of `MergeFrom` when the feature gates of the receiver are the
`nil` map: the merge fails on the first assignment exactly when the other
configuration has feature gates. -/
theorem MergeFrom_none (r : Resource) (other : Interface)
    (h : r.Spec.Global.FeatureGates = none) :
    r.MergeFrom other =
      if len other.GetGlobalConfig.FeatureGates ≠ 0 then
        Except.error "assignment to entry in nil map"
      else Except.ok (merged r other none) := by
  have hp : (if other.GetGlobalConfig.PodCIDR ≠ "" then other.GetGlobalConfig.PodCIDR
      else if other.GetGlobalConfig.PodCIDR ≠ "" then other.GetGlobalConfig.PodCIDR
      else r.Spec.Global.PodCIDR) =
      if other.GetGlobalConfig.PodCIDR ≠ "" then other.GetGlobalConfig.PodCIDR
      else r.Spec.Global.PodCIDR := by
    split_ifs <;> rfl
  unfold Resource.MergeFrom
  by_cases h0 : len other.GetGlobalConfig.FeatureGates ≠ 0
  · have hne : other.GetGlobalConfig.FeatureGates.getD [] ≠ [] := by
      cases hF : other.GetGlobalConfig.FeatureGates with
      | none => rw [hF] at h0; exact absurd rfl h0
      | some l =>
        rw [hF] at h0
        intro hl
        simp only [Option.getD] at hl
        subst hl
        exact h0 rfl
    simp only [h, if_pos h0, mergeFeatureGates_none _ hne]
  · simp only [h, if_neg h0, hp]
    cases hk : other.GetKubeletConfig with
    | none => simp only [merged, override, mergeKubelet, hk]
    | some kc =>
      simp only [merged, override, mergeKubelet, hk]
      cases r.Spec.ComponentConfigs.Kubelet <;> rfl

/-- `MergeFrom` fails exactly when the feature gates of the receiver are the
`nil` map and the other configuration has feature gates. -/
theorem MergeFrom_fails_iff (r : Resource) (other : Interface) :
    (∃ err, r.MergeFrom other = Except.error err) ↔
      r.Spec.Global.FeatureGates = none ∧ len other.GetGlobalConfig.FeatureGates ≠ 0 := by
  cases h : r.Spec.Global.FeatureGates with
  | none =>
    rw [MergeFrom_none r other h]
    by_cases h0 : len other.GetGlobalConfig.FeatureGates ≠ 0
    · simp [h0]
    · simp [h0]
  | some entries =>
    rw [MergeFrom_some r other entries h]
    simp

/-- C32: when the feature gates of the receiver are a map, `MergeFrom`
completes, and afterwards each of the global fields `ServiceCIDR`, `PodCIDR`,
`CloudConfig`, `ProxyPortRange` and `ServiceNodePortRange` has the value of the
other configuration when that value is not empty and its previous value
otherwise, and `CloudProvider` has its previous value. -/
theorem MergeFrom_global_fields (r : Resource) (other : Interface)
    (h : r.Spec.Global.FeatureGates ≠ none) :
    ∃ merged, r.MergeFrom other = Except.ok merged ∧
      merged.Spec.Global.ServiceCIDR =
        (if other.GetGlobalConfig.ServiceCIDR ≠ "" then other.GetGlobalConfig.ServiceCIDR
         else r.Spec.Global.ServiceCIDR) ∧
      merged.Spec.Global.PodCIDR =
        (if other.GetGlobalConfig.PodCIDR ≠ "" then other.GetGlobalConfig.PodCIDR
         else r.Spec.Global.PodCIDR) ∧
      merged.Spec.Global.CloudConfig =
        (if other.GetGlobalConfig.CloudConfig ≠ "" then other.GetGlobalConfig.CloudConfig
         else r.Spec.Global.CloudConfig) ∧
      merged.Spec.Global.ProxyPortRange =
        (if other.GetGlobalConfig.ProxyPortRange ≠ "" then other.GetGlobalConfig.ProxyPortRange
         else r.Spec.Global.ProxyPortRange) ∧
      merged.Spec.Global.ServiceNodePortRange =
        (if other.GetGlobalConfig.ServiceNodePortRange ≠ ""
         then other.GetGlobalConfig.ServiceNodePortRange
         else r.Spec.Global.ServiceNodePortRange) ∧
      merged.Spec.Global.CloudProvider = r.Spec.Global.CloudProvider := by
  cases hg : r.Spec.Global.FeatureGates with
  | none => exact absurd hg h
  | some entries =>
    exact ⟨_, MergeFrom_some r other entries hg, rfl, rfl, rfl, rfl, rfl, rfl⟩

/-- C32, witness: the sample receiver has feature gates; the sample other
configuration sets the service subnet and the proxy port range and names
another cloud provider. -/
theorem MergeFrom_global_fields_witness :
    sampleResource.Spec.Global.FeatureGates ≠ none ∧
    ∃ merged, sampleResource.MergeFrom sampleOther = Except.ok merged ∧
      merged.Spec.Global.ServiceCIDR = "10.200.0.0/16" ∧
      merged.Spec.Global.PodCIDR = "10.244.0.0/16" ∧
      merged.Spec.Global.CloudConfig = "" ∧
      merged.Spec.Global.ProxyPortRange = "30000-32767" ∧
      merged.Spec.Global.ServiceNodePortRange = "" ∧
      merged.Spec.Global.CloudProvider = "generic" :=
  ⟨by decide, MergeFrom_global_fields sampleResource sampleOther (by decide)⟩

/-- C34: `MergeFrom` fails at run time on a receiver made by `NewEmpty`, whose
feature gates are the `nil` map, when the other configuration has a feature
gate: the assignment to the `nil` map stops the program. -/
theorem MergeFrom_nil_map_fails :
    NewEmpty.Spec.Global.FeatureGates = none ∧
    NewEmpty.MergeFrom { GetGlobalConfig := { FeatureGates := some [("AllAlpha", true)] } } =
      Except.error "assignment to entry in nil map" ∧
    ¬ ∀ (r : Resource) (other : Interface), ∃ merged, r.MergeFrom other = Except.ok merged := by
  have e : NewEmpty.MergeFrom { GetGlobalConfig := { FeatureGates := some [("AllAlpha", true)] } } =
      Except.error "assignment to entry in nil map" := rfl
  refine ⟨rfl, e, ?_⟩
  intro hall
  obtain ⟨m, hm⟩ := hall NewEmpty { GetGlobalConfig := { FeatureGates := some [("AllAlpha", true)] } }
  rw [e] at hm
  cases hm

end clusterconfig

namespace clusterconfig

theorem lastValue_none_iff (es : List (String × Bool)) (k : String) :
    lastValue es k = none ↔ k ∉ es.map Prod.fst := by
  induction es with
  | nil => simp [lastValue]
  | cons e rest ih =>
    obtain ⟨k', v⟩ := e
    simp only [lastValue, List.map_cons, List.mem_cons, not_or]
    cases h : lastValue rest k with
    | some x =>
      have hm : k ∈ rest.map Prod.fst := by
        by_contra hn
        rw [ih.mpr hn] at h
        simp at h
      constructor
      · intro hh; simp at hh
      · intro hh; exact absurd hm hh.2
    | none =>
      have hn := ih.mp h
      by_cases hk : k' = k
      · constructor
        · intro hh; simp [hk] at hh
        · intro hh; exact absurd hk.symm hh.1
      · constructor
        · intro _; exact ⟨fun e => hk e.symm, hn⟩
        · intro _; simp [hk]

theorem mem_of_lastValue (es : List (String × Bool)) (k : String) (v : Bool)
    (h : lastValue es k = some v) : (k, v) ∈ es := by
  induction es with
  | nil => simp [lastValue] at h
  | cons e rest ih =>
    obtain ⟨k', w⟩ := e
    simp only [lastValue] at h
    cases hr : lastValue rest k with
    | some x =>
      rw [hr] at h
      have hx : x = v := Option.some.inj h
      subst hx
      exact List.mem_cons_of_mem _ (ih hr)
    | none =>
      rw [hr] at h
      by_cases hk : k' = k
      · rw [if_pos hk] at h
        have hw : w = v := Option.some.inj h
        subst hw; subst hk
        exact List.mem_cons_self _ _
      · rw [if_neg hk] at h
        simp at h

/-- In a map, whose keys are distinct, the last value of a key is its value. -/
theorem lastValue_of_mem (es : List (String × Bool)) (hnd : (es.map Prod.fst).Nodup)
    (k : String) (v : Bool) (h : (k, v) ∈ es) : lastValue es k = some v := by
  cases hl : lastValue es k with
  | none =>
    exact absurd (List.mem_map.mpr ⟨(k, v), h, rfl⟩) ((lastValue_none_iff es k).mp hl)
  | some x =>
    have hx := mem_of_lastValue es k x hl
    have inj := List.inj_on_of_nodup_map hnd hx h rfl
    rw [(Prod.mk.inj inj).2]

/-- The last values do not depend on the order in which the entries of a map
are visited. -/
theorem lastValue_perm (es es' : List (String × Bool)) (hp : es'.Perm es)
    (hnd : (es.map Prod.fst).Nodup) (k : String) : lastValue es' k = lastValue es k := by
  have hnd' : (es'.map Prod.fst).Nodup := (hp.map Prod.fst).nodup_iff.mpr hnd
  cases hl : lastValue es k with
  | none =>
    rw [lastValue_none_iff] at hl ⊢
    exact fun hm => hl ((hp.map Prod.fst).mem_iff.mp hm)
  | some v =>
    exact lastValue_of_mem es' hnd' k v (hp.mem_iff.mpr (mem_of_lastValue es k v hl))

/-- Assigning the entries of the same map a second time, in whatever order they
are visited, changes nothing. -/
theorem mergeEntries_idem_perm (m es es' : List (String × Bool)) (hp : es'.Perm es)
    (hnd : (es.map Prod.fst).Nodup) :
    mergeEntries (mergeEntries m es) es' = mergeEntries m es := by
  rw [mergeEntries_of_keys (mergeEntries m es) es'
    (fun e he => (keys_mergeEntries m es e.1).mpr
      (Or.inr (List.mem_map.mpr ⟨e, hp.mem_iff.mp he, rfl⟩)))]
  conv_rhs => rw [← List.map_id (mergeEntries m es)]
  apply List.map_congr_left
  intro e he
  rw [lastValue_perm es es' hp hnd]
  cases hl : lastValue es e.1 with
  | none => rfl
  | some x =>
    have := mergeEntries_value m es e he x hl
    simp only [Option.getD, id]
    rw [← this]

theorem override_idem (new old : String) : override new (override new old) = override new old := by
  unfold override
  split_ifs <;> rfl

theorem mergeKubelet_idem (kubelet other : Option Kubelet) :
    mergeKubelet (mergeKubelet kubelet other) other = mergeKubelet kubelet other := by
  cases other with
  | none => rfl
  | some kc =>
    simp only [mergeKubelet, Option.getD]
    split_ifs <;> rfl

/-- Merging a second time from a configuration with the same fields and the
same kubelet configuration keeps the closed form, given that the feature gates
stay. -/
theorem merged_idem (r : Resource) (other other' : Interface)
    (gates gates' : Option (List (String × Bool)))
    (hk : other'.GetKubeletConfig = other.GetKubeletConfig)
    (h1 : other'.GetGlobalConfig.ServiceCIDR = other.GetGlobalConfig.ServiceCIDR)
    (h2 : other'.GetGlobalConfig.PodCIDR = other.GetGlobalConfig.PodCIDR)
    (h3 : other'.GetGlobalConfig.CloudConfig = other.GetGlobalConfig.CloudConfig)
    (h4 : other'.GetGlobalConfig.ProxyPortRange = other.GetGlobalConfig.ProxyPortRange)
    (h5 : other'.GetGlobalConfig.ServiceNodePortRange = other.GetGlobalConfig.ServiceNodePortRange)
    (hg : gates' = gates) :
    merged (merged r other gates) other' gates' = merged r other gates := by
  simp only [merged, hk, h1, h2, h3, h4, h5, hg, override_idem, mergeKubelet_idem]

/-- Merging from a configuration without values keeps the receiver. -/
theorem merged_empty (r : Resource) (other : Interface)
    (hk : other.GetKubeletConfig = none)
    (h1 : other.GetGlobalConfig.ServiceCIDR = "")
    (h2 : other.GetGlobalConfig.PodCIDR = "")
    (h3 : other.GetGlobalConfig.CloudConfig = "")
    (h4 : other.GetGlobalConfig.ProxyPortRange = "")
    (h5 : other.GetGlobalConfig.ServiceNodePortRange = "") :
    merged r other r.Spec.Global.FeatureGates = r := by
  simp [merged, override, mergeKubelet, hk, h1, h2, h3, h4, h5]

end clusterconfig

namespace clusterconfig

/-- C38: `MergeFrom` is idempotent. When the feature gates of the receiver are
a map, the merge completes, and merging a second time from the same
configuration leaves the receiver as the first merge left it, also when the
second loop visits the feature gates of the other configuration in another
order. Merging from a configuration whose merged global fields are empty,
whose feature gates are empty and whose kubelet configuration is `nil` leaves
the receiver unchanged. -/
theorem MergeFrom_idempotent (r : Resource) (other : Interface) :
    (r.Spec.Global.FeatureGates ≠ none →
      ∃ once, r.MergeFrom other = Except.ok once ∧
        once.MergeFrom other = Except.ok once ∧
        ∀ es es', other.GetGlobalConfig.FeatureGates = some es → es'.Perm es →
          (es.map Prod.fst).Nodup →
          once.MergeFrom
            { other with
              GetGlobalConfig := { other.GetGlobalConfig with FeatureGates := some es' } } =
            Except.ok once) ∧
    (other.GetKubeletConfig = none →
      other.GetGlobalConfig.ServiceCIDR = "" →
      other.GetGlobalConfig.PodCIDR = "" →
      other.GetGlobalConfig.CloudConfig = "" →
      other.GetGlobalConfig.ProxyPortRange = "" →
      other.GetGlobalConfig.ServiceNodePortRange = "" →
      len other.GetGlobalConfig.FeatureGates = 0 →
      r.MergeFrom other = Except.ok r) := by
  constructor
  · intro h
    cases hg : r.Spec.Global.FeatureGates with
    | none => exact absurd hg h
    | some entries =>
      refine ⟨_, MergeFrom_some r other entries hg, ?_, ?_⟩
      · rw [MergeFrom_some _ other _ rfl, mergeEntries_idem]
        exact congrArg Except.ok (merged_idem r other other _ _ rfl rfl rfl rfl rfl rfl rfl)
      · intro es es' hes hp hnd
        rw [MergeFrom_some _ _ _ rfl]
        simp only [hes, Option.getD]
        rw [mergeEntries_idem_perm _ es es' hp hnd]
        exact congrArg Except.ok (merged_idem r other _ _ _ rfl rfl rfl rfl rfl rfl rfl)
  · intro hk h1 h2 h3 h4 h5 h0
    have hnil : other.GetGlobalConfig.FeatureGates.getD [] = [] := by
      cases hF : other.GetGlobalConfig.FeatureGates with
      | none => rfl
      | some l =>
        rw [hF] at h0
        exact List.length_eq_zero.mp h0
    cases hg : r.Spec.Global.FeatureGates with
    | none =>
      rw [MergeFrom_none r other hg, if_neg (by simp [h0]), ← hg,
        merged_empty r other hk h1 h2 h3 h4 h5]
    | some entries =>
      rw [MergeFrom_some r other entries hg, hnil]
      have : mergeEntries entries [] = entries := rfl
      rw [this, ← hg, merged_empty r other hk h1 h2 h3 h4 h5]

/-- C38, witness: the sample receiver has feature gates, and the second merge
from the sample configuration, with its feature gates in the other order,
leaves it as the first merge did; the empty configuration leaves it unchanged. -/
theorem MergeFrom_idempotent_witness :
    sampleResource.Spec.Global.FeatureGates ≠ none ∧
    (∃ once, sampleResource.MergeFrom sampleOther = Except.ok once ∧
      once.MergeFrom sampleOther = Except.ok once ∧
      once.MergeFrom
        { sampleOther with
          GetGlobalConfig :=
            { sampleOther.GetGlobalConfig with
              FeatureGates := some [("FeatureC", true), ("FeatureB", true)] } } =
        Except.ok once) ∧
    sampleResource.MergeFrom {} = Except.ok sampleResource :=
  ⟨by decide,
   (match (MergeFrom_idempotent sampleResource sampleOther).1 (by decide) with
    | ⟨once, h1, h2, h3⟩ =>
      ⟨once, h1, h2, h3 [("FeatureB", true), ("FeatureC", true)]
        [("FeatureC", true), ("FeatureB", true)] rfl (List.Perm.swap _ _ _) (by decide)⟩),
   (MergeFrom_idempotent sampleResource {}).2 rfl rfl rfl rfl rfl rfl rfl⟩

/-- Every property that `Marshal` emits for a global configuration is declared
by the schema exactly when the configuration has no proxy port range. -/
theorem Marshal_declared_iff (g : Global) :
    (∀ p ∈ g.Marshal, p.1 ∈ globalSchemaProperties.map Prod.fst) ↔ g.ProxyPortRange = "" := by
  have hnot : "proxyPortRange" ∉ globalSchemaProperties.map Prod.fst := by decide
  constructor
  · intro h
    by_contra hne
    apply hnot
    apply h ("proxyPortRange", Value.string g.ProxyPortRange)
    unfold Global.Marshal
    simp [hne]
  · intro he p hp
    unfold Global.Marshal at hp
    simp only [he, ne_eq, not_true_eq_false, if_false, List.append_nil, List.mem_append] at hp
    have d1 : "cloudProvider" ∈ globalSchemaProperties.map Prod.fst := by decide
    have d2 : "cloudConfig" ∈ globalSchemaProperties.map Prod.fst := by decide
    have d3 : "serviceCIDR" ∈ globalSchemaProperties.map Prod.fst := by decide
    have d4 : "serviceNodePortRange" ∈ globalSchemaProperties.map Prod.fst := by decide
    have d5 : "podCIDR" ∈ globalSchemaProperties.map Prod.fst := by decide
    have d7 : "featureGates" ∈ globalSchemaProperties.map Prod.fst := by decide
    rcases hp with ((((hp | hp) | hp) | hp) | hp) | hp <;>
      (split at hp <;>
        first
        | exact absurd hp (List.not_mem_nil _)
        | (rw [List.mem_singleton] at hp; subst hp; assumption))

/-- C35: the property names that the schema declares under `spec.global` are
not the JSON names of the fields of `Global`: the schema declares
`poxyPortRange`, which is no field, and does not declare `proxyPortRange`,
which is one; every other name is on both sides. A global configuration with a
proxy port range is marshalled with the property `proxyPortRange`, which the
schema does not declare. -/
theorem globalSchema_misses_proxyPortRange :
    "proxyPortRange" ∈ globalFieldNames ∧
    "proxyPortRange" ∉ globalSchemaProperties.map Prod.fst ∧
    "poxyPortRange" ∈ globalSchemaProperties.map Prod.fst ∧
    "poxyPortRange" ∉ globalFieldNames ∧
    (∀ name, name ≠ "proxyPortRange" → name ≠ "poxyPortRange" →
      (name ∈ globalFieldNames ↔ name ∈ globalSchemaProperties.map Prod.fst)) ∧
    Global.Marshal { ProxyPortRange := "30000-32767" } =
      [("proxyPortRange", Value.string "30000-32767")] ∧
    ¬ ∀ p ∈ Global.Marshal { ProxyPortRange := "30000-32767" },
        p.1 ∈ globalSchemaProperties.map Prod.fst := by
  refine ⟨by decide, by decide, by decide, by decide, ?_, by decide, ?_⟩
  · intro name h1 h2
    simp only [globalFieldNames, globalSchemaProperties, List.map_cons, List.map_nil, List.mem_cons,
      List.mem_singleton, List.not_mem_nil, or_false]
    tauto
  · intro h
    have := h ("proxyPortRange", Value.string "30000-32767") (by decide)
    revert this
    decide

end clusterconfig

namespace update

/-- In a sequential chain of phases of a plan, the last phase depends on every
phase before it, through the requirements from each phase to the one before
it. -/
theorem dependsOn_of_chain' (plan : Phase) (l : List Phase)
    (hc : List.Chain' (fun a c => c.Requires = [a.ID]) l)
    (hm : ∀ c ∈ l, c ∈ plan.flatten) (e : Phase) (he : l.getLast? = some e) :
    ∀ q ∈ l.dropLast, plan.dependsOn e.ID q.ID := by
  induction l with
  | nil => intro q hq; simp at hq
  | cons a t ih =>
    cases t with
    | nil => intro q hq; simp at hq
    | cons b t' =>
      rw [List.chain'_cons] at hc
      have he' : (b :: t').getLast? = some e := by
        rw [List.getLast?_cons_cons] at he; exact he
      have ih' := ih hc.2 (fun c hcm => hm c (List.mem_cons_of_mem _ hcm)) he'
      have hstep : plan.requires b.ID a.ID :=
        ⟨b, hm b (List.mem_cons_of_mem _ (List.mem_cons_self _ _)), rfl, by rw [hc.1]; simp⟩
      have ha : plan.dependsOn e.ID a.ID := by
        cases t' with
        | nil =>
          simp only [List.getLast?_singleton, Option.some.injEq] at he'
          subst he'
          exact Relation.TransGen.single hstep
        | cons c t'' =>
          exact Relation.TransGen.tail (ih' b (by simp [List.dropLast])) hstep
      intro q hq
      simp only [List.dropLast_cons₂, List.mem_cons] at hq
      rcases hq with rfl | hq
      · exact ha
      · exact ih' q hq

end update

namespace cluster
open update

/-- The phases of `commonNode` start without requirements. -/
theorem commonNode_requires (r : phaseBuilder) (s lead : storage.UpdateServer) (t w : Bool) :
    ∀ q ∈ r.commonNode s lead t w, q.Requires = [] := by
  intro q hq
  cases t <;> cases w <;>
    simp only [phaseBuilder.commonNode, if_true, if_false, Bool.false_eq_true, List.cons_append,
      List.nil_append, List.mem_cons, List.mem_singleton, List.not_mem_nil, or_false] at hq <;>
    rcases hq with rfl | rfl | rfl | rfl | rfl | rfl <;> rfl

/-- C17: in the tree returned by `masters` the top-level children after the
first two are the branches of the other masters, in input order. The branch of
the other master `s` has the phases of `commonNode(s, leadMaster,
supportsTaints, true)` and, as its last child, the phase
`enable-<hostname of s>` whose election change enables exactly `s` and disables
no server. The children of the branch are sequential: the first one has no
requirement and every later one requires exactly the child right before it, so
that the enable phase requires the last phase of the common sequence and
depends, through the requirements, on every phase of that sequence. -/
theorem masters_other_branch_ends_with_enable (r : phaseBuilder)
    (leadMaster : storage.UpdateServer) (otherMasters : List storage.UpdateServer)
    (supportsTaints : Bool) :
    ((r.masters leadMaster otherMasters supportsTaints).Phases.drop 2).map
        (fun b => (b.ID,
          b.Phases.dropLast.map (fun c => (c.ID, c.Executor, c.Data)),
          b.Phases.getLast?.map
            (fun c => (c.ID, c.Executor, c.Data.bind (fun d => d.ElectionChange))))) =
      otherMasters.map (fun s =>
        ((r.masters leadMaster otherMasters supportsTaints).ChildLiteral s.Server.Hostname,
         (r.commonNode s leadMaster supportsTaints true).map (fun c => (c.ID, c.Executor, c.Data)),
         some ("enable-" ++ s.Server.Hostname, some Executor.electionStatus,
           some { EnableServers := [s.Server], DisableServers := [] }))) ∧
    ((r.masters leadMaster otherMasters supportsTaints).Phases.drop 2).map
        (fun b => b.Phases.map (fun c => (c.ID, c.Requires))) =
      otherMasters.map (fun s =>
        [("drain", []), ("system-upgrade", ["drain"])] ++
        (if supportsTaints then [("taint", ["system-upgrade"]), ("uncordon", ["taint"])]
         else [("uncordon", ["system-upgrade"])]) ++
        [("endpoints", ["uncordon"])] ++
        (if supportsTaints then
          [("untaint", ["endpoints"]), ("enable-" ++ s.Server.Hostname, ["untaint"])]
         else [("enable-" ++ s.Server.Hostname, ["endpoints"])])) ∧
    (∀ b ∈ (r.masters leadMaster otherMasters supportsTaints).Phases.drop 2,
      List.Chain' (fun a c => c.Requires = [a.ID]) b.Phases ∧
      ∀ e, b.Phases.getLast? = some e →
        ∀ q ∈ b.Phases.dropLast, b.dependsOn e.ID q.ID) := by
  refine ⟨?_, ?_, ?_⟩
  · rw [masters_drop2]
    rw [chain_map_congr
      (fun b : Phase => (b.ID,
        b.Phases.dropLast.map (fun c : Phase => (c.ID, c.Executor, c.Data)),
        b.Phases.getLast?.map
          (fun c : Phase => (c.ID, c.Executor,
            c.Data.bind (fun d : storage.OperationPhaseData => d.ElectionChange)))))
      (fun _ _ => rfl), List.map_map]
    apply List.map_congr_left
    intro s _
    simp only [Function.comp, otherBranch_ID, otherBranch_phases, masters_childLiteral]
    have h1 : ∀ (prev : Option String) (l : List Phase),
        (chain prev l).dropLast.map (fun c => (c.ID, c.Executor, c.Data))
          = (l.map (fun c => (c.ID, c.Executor, c.Data))).dropLast := by
      intro prev l
      rw [List.map_dropLast,
        chain_map_congr (fun c : Phase => (c.ID, c.Executor, c.Data)) (fun _ _ => rfl)]
    have h2 : ∀ (prev : Option String) (l : List Phase),
        (chain prev l).getLast?.map
            (fun c => (c.ID, c.Executor, c.Data.bind (fun d => d.ElectionChange)))
          = (l.map (fun c => (c.ID, c.Executor, c.Data.bind (fun d => d.ElectionChange)))).getLast? := by
      intro prev l
      rw [← List.getLast?_map,
        chain_map_congr
          (fun c : Phase => (c.ID, c.Executor,
            c.Data.bind (fun d : storage.OperationPhaseData => d.ElectionChange)))
          (fun _ _ => rfl)]
    rw [h1, h2]
    simp [setLeaderElection, enable, disable, serversToStorage, mastersRoot]
  · rw [masters_drop2]
    rw [chain_map_congr
      (fun b : Phase => b.Phases.map (fun c : Phase => (c.ID, c.Requires)))
      (fun _ _ => rfl), List.map_map]
    apply List.map_congr_left
    intro s _
    simp only [Function.comp, otherBranch_phases]
    cases supportsTaints <;>
      simp [phaseBuilder.commonNode, chain, setLeaderElection]
  · intro b hb
    rw [masters_drop2] at hb
    obtain ⟨ob, hob, reqs, rfl⟩ := mem_chain _ _ _ hb
    rw [List.mem_map] at hob
    obtain ⟨s, _, rfl⟩ := hob
    have hch : List.Chain' (fun a c => c.Requires = [a.ID])
        (otherBranch r leadMaster supportsTaints mastersRoot s).Phases := by
      rw [otherBranch_phases]
      apply chain_chain'
      intro c hc
      rw [List.mem_append, List.mem_singleton] at hc
      rcases hc with hc | rfl
      · exact commonNode_requires r s leadMaster supportsTaints true c hc
      · rfl
    refine ⟨hch, ?_⟩
    intro e he q hq
    exact dependsOn_of_chain'
      { otherBranch r leadMaster supportsTaints mastersRoot s with Requires := reqs }
      (otherBranch r leadMaster supportsTaints mastersRoot s).Phases hch
      (fun c hc => Phase.child_mem_flatten
        { otherBranch r leadMaster supportsTaints mastersRoot s with Requires := reqs } c hc)
      e he q hq

/-- C17, witness: the sample topology has two other masters; in the branch of
each the enable phase requires the untaint phase and depends on every phase of
the common sequence. -/
theorem masters_other_branch_ends_with_enable_witness :
    ((({} : phaseBuilder).masters sampleLeadU sampleMastersU true).Phases.drop 2).map
        (fun b => b.Phases.map (fun c => (c.ID, c.Requires))) =
      [[("drain", []), ("system-upgrade", ["drain"]), ("taint", ["system-upgrade"]),
        ("uncordon", ["taint"]), ("endpoints", ["uncordon"]), ("untaint", ["endpoints"]),
        ("enable-master-2", ["untaint"])],
       [("drain", []), ("system-upgrade", ["drain"]), ("taint", ["system-upgrade"]),
        ("uncordon", ["taint"]), ("endpoints", ["uncordon"]), ("untaint", ["endpoints"]),
        ("enable-master-3", ["untaint"])]] ∧
    (∀ b ∈ (({} : phaseBuilder).masters sampleLeadU sampleMastersU true).Phases.drop 2,
      List.Chain' (fun a c => c.Requires = [a.ID]) b.Phases ∧
      ∀ e, b.Phases.getLast? = some e →
        ∀ q ∈ b.Phases.dropLast, b.dependsOn e.ID q.ID) :=
  ⟨by decide, (masters_other_branch_ends_with_enable {} sampleLeadU sampleMastersU true).2.2⟩

end cluster
